import Mathlib

/-!
# fpsMetrics (src/fps_metrics.h): frame-rate statistics over a sliding window

The C++ class `fpsMetrics` keeps a window `fps_stats` of `(timestamp, fps)` samples and a
registry `metrics` of named statistics; `calculate` recomputes every statistic.

Modelling decisions

* `std::vector` is a `List`; the iterator loop of `calculate` is a recursion over the
  entries the iterator has not reached yet.
* A `float`/`double` is its IEEE-754 value `Fl`: NaN, or a sign and a magnitude which is a
  rational number or infinity.  Every arithmetic operation computes the exact result and
  then rounds it with the rounding function of the `Platform`.  Two platforms are defined:
  `ieee` (binary32 / binary64, round to nearest, ties to even, glibc number parsing) and
  `exactArith` (no rounding at all), the latter being the reading of the source in exact
  arithmetic.
* `std::stof` is not part of the repository: it is a field of the `Platform`.
* `uint64_t` timestamps are natural numbers; the only subtraction on them is guarded.
* `std::sort` is not part of the repository either: it is modelled by what the C++ standard
  says of it. Its result is the ascending arrangement whenever `<` tells any two different
  values apart, and is not fixed otherwise (a window holding a NaN beside other values, or
  `0.0` beside `-0.0`).
* What C++ leaves undefined (stepping an iterator past `end()`, converting NaN to an
  integer) or does not fix (the result of `std::sort` just described) is the outcome
  `Outcome.undefined`; an exception that `calculate` does not catch is the outcome
  `Outcome.out_of_range`.
-/

namespace FpsMetrics

/-! ## Floating point values -/

/-- Value of an IEEE-754 datum: NaN, or a sign with a magnitude; the magnitude `none` is
infinity, `num true (some 0)` is the negative zero. Magnitudes are never negative. -/
inductive Fl where
  | nan : Fl
  | num (neg : Bool) (mag : Option ℚ) : Fl
deriving DecidableEq, Repr

/-- Rounding of an exact non-negative result to a representable magnitude; `none` is overflow
to infinity. -/
abbrev Rounding := ℚ → Option ℚ

/-- The power `2^k` of two with an integer exponent. -/
def pow2 (k : Int) : ℚ :=
  if 0 ≤ k then ((2 ^ k.toNat : Nat) : ℚ) else 1 / ((2 ^ (-k).toNat : Nat) : ℚ)

/-- Binary logarithm of a natural number, rounded down, by repeated halving. -/
def log2Fuel : Nat → Nat → Nat
  | 0, _ => 0
  | fuel + 1, n => if n < 2 then 0 else log2Fuel fuel (n / 2) + 1

/-- Position of the leading binary digit of `n`: `2^k ≤ n < 2^(k+1)` for `n > 0`. -/
def natLog2 (n : Nat) : Nat := log2Fuel n n

/-- Exponent of the leading binary digit of a positive rational: `2^k ≤ q < 2^(k+1)`. -/
def ilog2 (q : ℚ) : Int :=
  let k : Int := (natLog2 q.num.toNat : Int) - (natLog2 q.den : Int)
  if pow2 k ≤ q then k else k - 1

/-- Nearest integer of a non-negative rational, ties to the even neighbour. -/
def roundHalfEven (x : ℚ) : Int :=
  let f := Rat.floor x
  let d := x - f
  if d < 1 / 2 then f else if 1 / 2 < d then f + 1 else if f % 2 = 0 then f else f + 1

/-- Round to nearest, ties to even, in a binary format with `prec` significant bits and
exponents of the leading bit between `emin` and `emax` (subnormals below `2^emin`). -/
def roundNE (prec : Nat) (emin emax : Int) : Rounding := fun q =>
  if q ≤ 0 then some 0 else
  let e := max (ilog2 q) emin
  let ulp : ℚ := pow2 (e - ((prec : Int) - 1))
  let r := (roundHalfEven (q / ulp) : ℚ) * ulp
  if pow2 (emax + 1) ≤ r then none else some r

/-- IEEE-754 binary32, the format of `float`. -/
def binary32 : Rounding := roundNE 24 (-126) 127

/-- IEEE-754 binary64, the format of `double`. -/
def binary64 : Rounding := roundNE 53 (-1022) 1023

namespace Fl

/-- A literal whose value is exactly representable (`0.0f`, `1000.f`, the ints `0`, `1`, `100`). -/
def lit (q : ℚ) : Fl := num (decide (q < 0)) (some |q|)

/-- The signed exact result `x` rounded with `r`. -/
def round (r : Rounding) (x : ℚ) : Fl := num (decide (x < 0)) (r |x|)

/-- Conversion of a `size_t` to `float`. -/
def ofNat (r : Rounding) (n : Nat) : Fl := num false (r n)

/-- Conversion of an `int` to `float`. -/
def ofInt (r : Rounding) (i : Int) : Fl := round r i

/-- Conversion of a `double` to `float`, as in `fps_stats.push_back({now, fps})`. -/
def narrow (r : Rounding) : Fl → Fl
  | nan => nan
  | num s none => num s none
  | num s (some a) => num s (r a)

/-- The negation `-x`. -/
def neg : Fl → Fl
  | nan => nan
  | num s a => num (!s) a

/-- Floating point addition `x + y`. -/
def add (r : Rounding) : Fl → Fl → Fl
  | num s (some a), num t (some b) =>
    let x : ℚ := (if s then -a else a) + (if t then -b else b)
    if x = 0 then num (s && t) (some 0) else round r x
  | num s none, num t none => if s = t then num s none else nan
  | num s none, num _ (some _) => num s none
  | num _ (some _), num t none => num t none
  | _, _ => nan

/-- Floating point subtraction `x - y`. -/
def sub (r : Rounding) (x y : Fl) : Fl := add r x (neg y)

/-- Floating point multiplication `x * y`. -/
def mul (r : Rounding) : Fl → Fl → Fl
  | num s (some a), num t (some b) => num (xor s t) (r (a * b))
  | num s none, num t none => num (xor s t) none
  | num s none, num t (some b) => if b = 0 then nan else num (xor s t) none
  | num s (some a), num t none => if a = 0 then nan else num (xor s t) none
  | _, _ => nan

/-- Floating point division `x / y`. -/
def div (r : Rounding) : Fl → Fl → Fl
  | num s (some a), num t (some b) =>
    if b = 0 then (if a = 0 then nan else num (xor s t) none) else num (xor s t) (r (a / b))
  | num _ none, num _ none => nan
  | num s none, num t (some _) => num (xor s t) none
  | num s (some _), num t none => num (xor s t) (some 0)
  | _, _ => nan

/-- Position of a non-NaN value on the extended real line: the class (`-1` for `-inf`, `0`
finite, `1` for `+inf`) and the finite signed value. -/
def key : Bool → Option ℚ → Int × ℚ
  | s, none => (if s then -1 else 1, 0)
  | s, some a => (0, if s then -a else a)

/-- The comparison `x <= y`; false when an operand is NaN. -/
def le : Fl → Fl → Bool
  | num s a, num t b =>
    decide ((key s a).1 < (key t b).1 ∨ ((key s a).1 = (key t b).1 ∧ (key s a).2 ≤ (key t b).2))
  | _, _ => false

/-- The comparison `x < y`; false when an operand is NaN. -/
def lt : Fl → Fl → Bool
  | num s a, num t b =>
    decide ((key s a).1 < (key t b).1 ∨ ((key s a).1 = (key t b).1 ∧ (key s a).2 < (key t b).2))
  | _, _ => false

/-- The comparison `x == y`; false when an operand is NaN, true for `0.0 == -0.0`. -/
def feq : Fl → Fl → Bool
  | num s a, num t b => decide (key s a = key t b)
  | _, _ => false

/-- Truncation toward zero of the signed value of a finite datum. -/
def trunc (s : Bool) (a : ℚ) : Int := if s then -(Rat.floor a) else Rat.floor a

/-- The conversion `static_cast<int>(x)`: defined only when the truncated value is an `int`. -/
def toInt : Fl → Option Int
  | num s (some a) =>
    if -(2 : Int) ^ 31 ≤ trunc s a ∧ trunc s a < (2 : Int) ^ 31 then some (trunc s a) else none
  | _ => none

/-- The conversion to `uint64_t`. A finite value is truncated toward zero and reduced modulo
`2^64` (the wrap-around the specification describes for `-1.0`, which is what the x86-64
conversion yields); NaN and the infinities have no defined result. -/
def toUInt64 : Fl → Option Nat
  | num s (some a) => some ((trunc s a) % ((2 : Int) ^ 64)).toNat
  | _ => none

end Fl

/-! ## Text: `std::toupper`, `operator<<`, `std::stof` -/

/-- The characters `std::isspace` accepts in the C locale. -/
def isSpace (c : Char) : Bool :=
  c.toNat = 32 || (9 ≤ c.toNat && c.toNat ≤ 13)

/-- Value of a decimal digit. -/
def digitVal (c : Char) : Option Nat :=
  if 48 ≤ c.toNat ∧ c.toNat ≤ 57 then some (c.toNat - 48) else none

/-- Value of a hexadecimal digit. -/
def hexVal (c : Char) : Option Nat :=
  if 48 ≤ c.toNat ∧ c.toNat ≤ 57 then some (c.toNat - 48)
  else if 65 ≤ c.toNat ∧ c.toNat ≤ 70 then some (c.toNat - 55)
  else if 97 ≤ c.toNat ∧ c.toNat ≤ 102 then some (c.toNat - 87)
  else none

/-- Longest run of digits at the front of the text: the number they denote in base `b`, how
many there are, and the rest of the text. -/
def takeDigits (dv : Char → Option Nat) (b : Nat) : Nat → Nat → List Char → Nat × Nat × List Char
  | acc, n, [] => (acc, n, [])
  | acc, n, c :: cs =>
    match dv c with
    | some d => takeDigits dv b (acc * b + d) (n + 1) cs
    | none => (acc, n, c :: cs)

/-- An exponent part: the marker `e` (a lower or upper case letter), an optional sign and at
least one decimal digit. Without a digit there is no exponent part and the value is `0`. -/
def takeExponent (e : Char) : List Char → Int
  | [] => 0
  | c :: cs =>
    if c.toUpper = e then
      match cs with
      | [] => 0
      | s :: ds =>
        if s = '-' then
          (match takeDigits digitVal 10 0 0 ds with
           | (v, n, _) => if n = 0 then 0 else -(v : Int))
        else if s = '+' then
          (match takeDigits digitVal 10 0 0 ds with
           | (v, n, _) => if n = 0 then 0 else (v : Int))
        else
          (match takeDigits digitVal 10 0 0 (s :: ds) with
           | (v, n, _) => if n = 0 then 0 else (v : Int))
    else 0

/-- The power `b^k` with an integer exponent. -/
def powInt (b : Nat) (k : Int) : ℚ :=
  if 0 ≤ k then ((b ^ k.toNat : Nat) : ℚ) else 1 / ((b ^ (-k).toNat : Nat) : ℚ)

/-- Digits with an optional radix point and an optional exponent part; `none` when there is
no digit at all. `b` is the base of the digits, `eb` the base of the exponent. -/
def takeNumber (dv : Char → Option Nat) (b eb : Nat) (e : Char) (cs : List Char) : Option ℚ :=
  match takeDigits dv b 0 0 cs with
  | (ip, n, rest) =>
    match rest with
    | '.' :: fs =>
      (match takeDigits dv b ip 0 fs with
       | (m, k, rest2) =>
         if n + k = 0 then none
         else some ((m : ℚ) * powInt b (-(k : Int)) * powInt eb (takeExponent e rest2)))
    | _ => if n = 0 then none else some ((ip : ℚ) * powInt eb (takeExponent e rest))

/-- What the text of a number denotes, before rounding. -/
inductive Parsed where
  | nan : Parsed
  | inf : Parsed
  | fin (q : ℚ) : Parsed
deriving DecidableEq, Repr

/-- The subject sequence of `strtof` after white space and sign: `INF`, `INFINITY`, `NAN`
(in any letter case), a hexadecimal number after `0x`, or a decimal number. -/
def parseUnsigned (cs : List Char) : Option Parsed :=
  match cs.map Char.toUpper with
  | 'I' :: 'N' :: 'F' :: _ => some Parsed.inf
  | 'N' :: 'A' :: 'N' :: _ => some Parsed.nan
  | '0' :: 'X' :: _ =>
    (match takeNumber hexVal 16 2 'P' (cs.drop 2) with
     | some q => some (Parsed.fin q)
     | none => some (Parsed.fin 0))
  | _ => (takeNumber digitVal 10 10 'E' cs).map Parsed.fin

/-- The number a text starts with, as `strtof` reads it in the C locale: leading white space,
an optional sign, then the subject sequence; `none` when no conversion can be performed. -/
def parseFloat (cs : List Char) : Option (Bool × Parsed) :=
  match cs.dropWhile isSpace with
  | [] => none
  | c :: rest =>
    if c = '-' then (parseUnsigned rest).map (fun p => (true, p))
    else if c = '+' then (parseUnsigned rest).map (fun p => (false, p))
    else (parseUnsigned (c :: rest)).map (fun p => (false, p))

/-- Result of `std::stof`: the value, or one of the two exceptions it throws. -/
inductive StofResult where
  | value (v : Fl) : StofResult
  | invalid_argument : StofResult
  | out_of_range : StofResult
deriving DecidableEq, Repr

/-- The parts of the C++ implementation that the source relies on without defining them. -/
structure Platform where
  /-- rounding of `float` results -/
  round32 : Rounding
  /-- rounding of `double` results (the literal `0.0001`) -/
  round64 : Rounding
  /-- `std::stof` on the name of a metric -/
  stof : String → StofResult

/-- The function `std::stof` of libstdc++ over glibc `strtof`: `invalid_argument` when no
conversion can be performed, `out_of_range` when `strtof` reports `ERANGE` (overflow, or a
result that is tiny and inexact), else the correctly rounded binary32 value. -/
def stofIeee (s : String) : StofResult :=
  match parseFloat s.data with
  | none => StofResult.invalid_argument
  | some (_, Parsed.nan) => StofResult.value Fl.nan
  | some (neg, Parsed.inf) => StofResult.value (Fl.num neg none)
  | some (neg, Parsed.fin q) =>
    match binary32 q with
    | none => StofResult.out_of_range
    | some r =>
      if 0 < q ∧ r ≠ q ∧ roundNE 24 (ilog2 q) 127 q ≠ none ∧
          (roundNE 24 (ilog2 q) 127 q).getD 0 < pow2 (-126) then StofResult.out_of_range
      else StofResult.value (Fl.num neg (some r))

/-- The function `std::stof` read in exact arithmetic: the value the text denotes. -/
def stofExact (s : String) : StofResult :=
  match parseFloat s.data with
  | none => StofResult.invalid_argument
  | some (_, Parsed.nan) => StofResult.value Fl.nan
  | some (neg, Parsed.inf) => StofResult.value (Fl.num neg none)
  | some (neg, Parsed.fin q) => StofResult.value (Fl.num neg (some q))

/-- IEEE-754 arithmetic as on x86-64 and AArch64: `float` is binary32, `double` is binary64. -/
def ieee : Platform := { round32 := binary32, round64 := binary64, stof := stofIeee }

/-- Exact arithmetic: no operation rounds. -/
def exactArith : Platform := { round32 := some, round64 := some, stof := stofExact }

/-- Decimal digits of `n`, padded on the left with zeros to at least `w` digits. -/
def padDigits (w n : Nat) : String :=
  String.mk (List.replicate (w - (Nat.repr n).length) '0') ++ Nat.repr n

/-- The text `stream << std::fixed << std::setprecision(k) << x` appends: the value rounded to
`k` decimals (ties to even, on the exact value), with a radix point only when `k > 0`. -/
def fmtFixed (k : Nat) : Fl → String
  | Fl.nan => "nan"
  | Fl.num s none => (if s then "-" else "") ++ "inf"
  | Fl.num s (some a) =>
    let n := (roundHalfEven (a * (10 ^ k : Nat))).toNat
    (if s then "-" else "") ++ Nat.repr (n / 10 ^ k) ++
      (if k = 0 then "" else "." ++ padDigits k (n % 10 ^ k))

/-- The loop `for (char& c : val) c = std::toupper(c)` in the C locale. -/
def toUpperStr (s : String) : String := String.mk (s.data.map Char.toUpper)

/-! ## The class `fpsMetrics` -/

/-- The struct `metric_t`. -/
structure metric_t where
  name : String
  value : Fl
  display_name : String
deriving DecidableEq, Repr

/-- The class `fpsMetrics`: its data members, without the thread and its primitives. -/
structure fpsMetrics where
  fps_stats : List (Nat × Fl)
  run : Bool
  thread_init : Bool
  terminate : Bool
  resetting : Bool
  metrics : List metric_t
deriving DecidableEq, Repr

/-- How a piece of code ends: it returns, or the C++ standard does not fix what it does
(undefined behaviour, or a result that is left open), or it is left by a `std::out_of_range`
that nothing catches. -/
inductive Outcome (α : Type) where
  | returned (a : α) : Outcome α
  | undefined : Outcome α
  | out_of_range : Outcome α
deriving DecidableEq, Repr

/-- The outcome with `f` applied to what is returned. -/
def Outcome.map {α β : Type} (f : α → β) : Outcome α → Outcome β
  | Outcome.returned a => Outcome.returned (f a)
  | Outcome.undefined => Outcome.undefined
  | Outcome.out_of_range => Outcome.out_of_range

/-- The value `calculate` assigns to the metric `AVG` (lines 59-63): `std::accumulate` of
`1000.f / p.second` from `0.0f`, then `1000.f / (sum / fps_stats.size())`. -/
def average (P : Platform) (fps_stats : List (Nat × Fl)) : Fl :=
  let sum := fps_stats.foldl
    (fun acc p => Fl.add P.round32 acc (Fl.div P.round32 (Fl.lit 1000) p.2)) (Fl.lit 0)
  Fl.div P.round32 (Fl.lit 1000) (Fl.div P.round32 sum (Fl.ofNat P.round32 fps_stats.length))

/-- The display name of a percentile (lines 73-80): `val * 100` printed with no decimals when
it equals its own conversion to `int`, with one decimal otherwise. `none`: that conversion
is undefined. -/
def percentLabel (P : Platform) (val : Fl) : Option String :=
  let multiplied_val := Fl.mul P.round32 val (Fl.lit 100)
  match Fl.toInt multiplied_val with
  | none => none
  | some i =>
    if Fl.feq multiplied_val (Fl.ofInt P.round32 i) then some (fmtFixed 0 multiplied_val ++ "%")
    else some (fmtFixed 1 multiplied_val ++ "%")

/-- The index of line 81, `uint64_t idx = val * sorted_values.size() - 1`: the product and the
difference are `float` operations, the result is converted to `uint64_t`. -/
def percentileIndex (P : Platform) (val : Fl) (size : Nat) : Option Nat :=
  Fl.toUInt64 (Fl.sub P.round32 (Fl.mul P.round32 val (Fl.ofNat P.round32 size)) (Fl.lit 1))

/-- How one pass through the body of the `while` loop of `calculate` ends. -/
inductive Step where
  /-- the entry stays, maybe changed, and `++it` is reached -/
  | next (m : metric_t) : Step
  /-- the entry stays, maybe changed, and the loop is left by `break` (line 83) -/
  | stop (m : metric_t) : Step
  /-- the entry is erased and the loop is left by `break` (lines 70-71) -/
  | erase_stop : Step
  /-- the entry is erased in the `catch` handler (line 88) and `++it` is reached -/
  | erase_next : Step
  /-- `std::stof` threw `std::out_of_range` -/
  | out_of_range : Step
  /-- a conversion without defined result -/
  | undefined : Step
deriving DecidableEq, Repr

/-- The body of the `while` loop of `calculate` (lines 56-90) for the entry `m` under the
iterator. -/
def visit (P : Platform) (fps_stats : List (Nat × Fl)) (sorted_values : List Fl)
    (m : metric_t) : Step :=
  if m.name = "AVG" then
    if fps_stats.isEmpty then Step.next { m with display_name := m.name }
    else Step.next { m with display_name := m.name, value := average P fps_stats }
  else
    match P.stof m.name with
    | StofResult.invalid_argument => Step.erase_next
    | StofResult.out_of_range => Step.out_of_range
    | StofResult.value val =>
      if Fl.le val (Fl.lit 0) || Fl.le (Fl.lit 1) val then Step.erase_stop
      else
        match percentLabel P val with
        | none => Step.undefined
        | some label =>
          match percentileIndex P val sorted_values.length with
          | none => Step.undefined
          | some idx =>
            if h : idx < sorted_values.length then
              Step.next { m with display_name := label, value := sorted_values[idx] }
            else Step.stop { m with display_name := label }

/-- The `while` loop of `calculate` (lines 54-92) on the entries from the iterator to the end:
what they have become when the loop is left. After the `catch` handler has erased an
entry, `++it` steps over the entry that took its place, and past `end()` if there is none. -/
def loop (P : Platform) (fps_stats : List (Nat × Fl)) (sorted_values : List Fl) :
    List metric_t → Outcome (List metric_t)
  | [] => Outcome.returned []
  | m :: rest =>
    match visit P fps_stats sorted_values m with
    | Step.next m1 => (loop P fps_stats sorted_values rest).map (fun ms => m1 :: ms)
    | Step.stop m1 => Outcome.returned (m1 :: rest)
    | Step.erase_stop => Outcome.returned rest
    | Step.erase_next =>
      match rest with
      | [] => Outcome.undefined
      | n :: rest1 => (loop P fps_stats sorted_values rest1).map (fun ms => n :: ms)
    | Step.out_of_range => Outcome.out_of_range
    | Step.undefined => Outcome.undefined

/-- Whether `<` tells any two different values of the list apart. This is when the C++
standard fixes the result of `std::sort`. Otherwise it does not: with a NaN beside two
numbers that differ, `<` is no strict weak ordering and the behaviour of `std::sort` is
undefined; values that differ but are equivalent under `<` (a NaN beside a number, `0.0`
beside `-0.0`) are left in an unspecified order. -/
def sortable (vs : List Fl) : Bool :=
  vs.all (fun a => vs.all (fun b => decide (a = b) || Fl.lt a b || Fl.lt b a))

/-- The values arranged by insertion with `<=`: the ascending order, when `<` tells any two
different values apart. -/
def ascending (vs : List Fl) : List Fl :=
  vs.insertionSort (fun a b => Fl.le a b = true)

/-- The call `std::sort(sorted_values.begin(), sorted_values.end())` of line 52: the values in
ascending order when `<` tells any two different values apart, `none` when the standard does
not fix the result (see `sortable`). -/
def sortValues (vs : List Fl) : Option (List Fl) :=
  if sortable vs then some (ascending vs) else none

/-- The member function `calculate` (lines 47-94). When the result of `std::sort` is not
fixed, neither is the outcome of the cycle. -/
def calculate (P : Platform) (s : fpsMetrics) : Outcome fpsMetrics :=
  match sortValues (s.fps_stats.map Prod.snd) with
  | none => Outcome.undefined
  | some sorted_values =>
    (loop P s.fps_stats sorted_values s.metrics).map (fun ms => { s with metrics := ms })

/-- The member function `add_metrics_to_vector` (lines 96-105). -/
def add_metrics_to_vector (values : List String) : List metric_t :=
  values.map (fun val => { name := toUpperStr val, value := Fl.lit 0, display_name := "" })

/-- The constructor `fpsMetrics(values)` (lines 110-115); the thread it starts is `_thread`. -/
def fpsMetrics.create (values : List String) : fpsMetrics :=
  { fps_stats := [], run := false, thread_init := false, terminate := false,
    resetting := false, metrics := add_metrics_to_vector values }

/-- The constructor `fpsMetrics(values, only_fps)` (lines 117-123). -/
def fpsMetrics.createStatic (P : Platform) (values : List String) (only_fps : List Fl) :
    Outcome fpsMetrics :=
  calculate P
    { fps_stats := only_fps.map (fun fps => (0, fps)), run := false, thread_init := false,
      terminate := false, resetting := false, metrics := add_metrics_to_vector values }

/-- The constant `one_minute_duration` of `update`, in nanoseconds. -/
def one_minute_duration : Nat := 1 * 60 * 1000000000

/-- The member function `update(now, fps)` (lines 125-149). `fps` is a `double`; it is
compared with the `double` literal `0.0001` and stored as a `float`. -/
def update (P : Platform) (s : fpsMetrics) (now : Nat) (fps : Fl) : fpsMetrics :=
  if s.resetting then s
  else
    let stats :=
      if Fl.lt (Fl.round P.round64 (1 / 10000)) fps then
        s.fps_stats ++ [(now, Fl.narrow P.round32 fps)]
      else s.fps_stats
    if one_minute_duration ≤ now then
      { s with fps_stats :=
          stats.filter (fun entry => !(decide (entry.1 < now - one_minute_duration))) }
    else { s with fps_stats := stats }

/-- The member function `update_thread` (lines 151-160). -/
def update_thread (s : fpsMetrics) : fpsMetrics :=
  if s.resetting then s else { s with run := true }

/-- The member function `reset_metrics` (lines 162-167). The loop `while (run){}` ends only
once `run` is false; `none` is the call that spins because a cycle is pending, which only
the worker thread can end. -/
def reset_metrics (s : fpsMetrics) : Option fpsMetrics :=
  if s.run then none else some { s with fps_stats := [], resetting := false }

/-- One wake-up of the worker `_thread` (lines 35-43): nothing happens while `run` is false,
the thread leaves its loop when `terminate` is set, else `calculate` runs and `run` is
cleared. -/
def thread_step (P : Platform) (s : fpsMetrics) : Outcome fpsMetrics :=
  if !s.run then Outcome.returned s
  else if s.terminate then Outcome.returned s
  else (calculate P s).map (fun s1 => { s1 with run := false })

/-! ## Auxiliary notions used to state the properties -/

/-- The entries before the iterator once the loop has passed all of `pre`: `some pre1` means
that the loop, started on `pre ++ rest`, arrives at the first entry of `rest` having turned
`pre` into `pre1`; `none` means that it left the loop earlier, or stepped over that entry. -/
def walk (P : Platform) (fps_stats : List (Nat × Fl)) (sorted_values : List Fl) :
    List metric_t → Option (List metric_t)
  | [] => some []
  | m :: rest =>
    match visit P fps_stats sorted_values m with
    | Step.next m1 => (walk P fps_stats sorted_values rest).map (fun ms => m1 :: ms)
    | Step.erase_next =>
      match rest with
      | [] => none
      | n :: rest1 => (walk P fps_stats sorted_values rest1).map (fun ms => n :: ms)
    | _ => none

/-- The calls an engine receives, and the wake-ups of its worker thread. -/
inductive Op where
  | update (now : Nat) (fps : Fl) : Op
  | update_thread : Op
  | reset_metrics : Op
  | thread_step : Op
deriving DecidableEq, Repr

/-- The state after one operation; `none` when the operation does not come back (a reset
that spins, a cycle that is undefined or throws). -/
def Op.apply (P : Platform) (s : fpsMetrics) : Op → Option fpsMetrics
  | Op.update now fps => some (FpsMetrics.update P s now fps)
  | Op.update_thread => some (FpsMetrics.update_thread s)
  | Op.reset_metrics => FpsMetrics.reset_metrics s
  | Op.thread_step =>
    match FpsMetrics.thread_step P s with
    | Outcome.returned s1 => some s1
    | _ => none

/-- The state after a sequence of operations, each of which comes back. -/
def runOps (P : Platform) : List Op → fpsMetrics → Option fpsMetrics
  | [], s => some s
  | op :: ops, s =>
    match op.apply P s with
    | some s1 => runOps P ops s1
    | none => none

/-- How one pass through the body of the `while (true)` loop of `_thread` (lines 34-44) ends. -/
inductive Wake where
  | blocked : Wake
  | exited : Wake
  | cycled (o : Outcome fpsMetrics) : Wake
deriving DecidableEq

/-- One pass through the body of the loop of `_thread`: `cv.wait` returns only when `run` is
set (`blocked` otherwise); with `terminate` set the loop is left by `break` and `calculate`
is not called (`exited`); otherwise `calculate` is called once and `run` is cleared. -/
def thread_wake (P : Platform) (s : fpsMetrics) : Wake :=
  if !s.run then Wake.blocked
  else if s.terminate then Wake.exited
  else Wake.cycled ((calculate P s).map (fun s1 => { s1 with run := false }))

/-- The timestamp an operation carries, if it is a call of `update`. -/
def Op.stamp : Op → Option Nat
  | Op.update now _ => some now
  | _ => none

/-- An entry `calculate` has no reason to erase: its name is `AVG`, or `std::stof` reads its
name as a value that fails the test `val <= 0 || val >= 1` of line 68. -/
def keeps (P : Platform) (m : metric_t) : Bool :=
  m.name = "AVG" ||
    match P.stof m.name with
    | StofResult.value val => !(Fl.le val (Fl.lit 0) || Fl.le (Fl.lit 1) val)
    | _ => false

/-- A live engine fed one sample after the other through `update` (lines 125-149). -/
def feed (P : Platform) (s : fpsMetrics) (samples : List (Nat × Fl)) : fpsMetrics :=
  samples.foldl (fun s1 sample => update P s1 sample.1 sample.2) s

/-! ## Properties -/

/-! ### The window: `update` -/

theorem one_minute_duration_eq : one_minute_duration = 60000000000 := by decide

/-- The window after `update` with `now` at least one minute. -/
theorem update_stats_late (P : Platform) (s : fpsMetrics) (now : Nat) (fps : Fl)
    (hr : s.resetting = false) (hnow : 60000000000 ≤ now) :
    (update P s now fps).fps_stats =
      (s.fps_stats ++ (if Fl.lt (Fl.round P.round64 (1 / 10000)) fps then
          [(now, Fl.narrow P.round32 fps)] else [])).filter
        (fun e => decide (now - 60000000000 ≤ e.1)) := by
  have hfilter : ∀ l : List (Nat × Fl),
      l.filter (fun entry => !(decide (entry.1 < now - one_minute_duration))) =
        l.filter (fun e => decide (now - 60000000000 ≤ e.1)) := by
    intro l
    apply List.filter_congr
    intro e _
    rw [one_minute_duration_eq]
    rcases Nat.lt_or_ge e.1 (now - 60000000000) with h | h
    · rw [decide_eq_true h, decide_eq_false (Nat.not_le.mpr h)]; rfl
    · rw [decide_eq_false (Nat.not_lt.mpr h), decide_eq_true h]; rfl
  have hnow1 : one_minute_duration ≤ now := by rw [one_minute_duration_eq]; exact hnow
  unfold update
  rw [hr]
  simp only [Bool.false_eq_true, if_false, hnow1, if_true]
  rw [hfilter]
  split <;> simp

/-- The window after `update` with `now` below one minute. -/
theorem update_stats_early (P : Platform) (s : fpsMetrics) (now : Nat) (fps : Fl)
    (hr : s.resetting = false) (hnow : now < 60000000000) :
    (update P s now fps).fps_stats =
      s.fps_stats ++ (if Fl.lt (Fl.round P.round64 (1 / 10000)) fps then
          [(now, Fl.narrow P.round32 fps)] else []) := by
  have hnow1 : ¬ one_minute_duration ≤ now := by
    rw [one_minute_duration_eq]; exact Nat.not_le.mpr hnow
  unfold update
  rw [hr]
  simp only [Bool.false_eq_true, if_false, hnow1]
  split <;> simp

/-- C3: `update` on an engine that is not resetting, with `now` at least one minute: the window
afterwards is exactly the samples held before followed by the newly stored one, in that order,
restricted to those whose timestamp is at least `now - 60000000000`, so every retained sample
has such a timestamp; with `now` below one minute the old window is kept whole, whatever the
age of its samples. -/
theorem c3_update_window (P : Platform) (s : fpsMetrics) (now : Nat) (fps : Fl)
    (hr : s.resetting = false) :
    one_minute_duration = 60000000000 ∧
    (60000000000 ≤ now →
      (update P s now fps).fps_stats =
        (s.fps_stats ++ (if Fl.lt (Fl.round P.round64 (1 / 10000)) fps then
            [(now, Fl.narrow P.round32 fps)] else [])).filter
          (fun e => decide (now - 60000000000 ≤ e.1)) ∧
      ∀ e ∈ (update P s now fps).fps_stats, now - 60000000000 ≤ e.1) ∧
    (now < 60000000000 →
      (update P s now fps).fps_stats =
        s.fps_stats ++ (if Fl.lt (Fl.round P.round64 (1 / 10000)) fps then
            [(now, Fl.narrow P.round32 fps)] else [])) := by
  refine ⟨one_minute_duration_eq, ?_, update_stats_early P s now fps hr⟩
  intro hnow
  refine ⟨update_stats_late P s now fps hr hnow, ?_⟩
  intro e he
  rw [update_stats_late P s now fps hr hnow] at he
  have := (List.mem_filter.mp he).2
  simpa using this

/-- C3, at a concrete call: three samples of which the first is older than one minute. -/
theorem c3_update_window_witness :
    (update ieee
      { fps_stats := [(5, Fl.lit 60), (20, Fl.lit 30), (30, Fl.lit 144)], run := false,
        thread_init := false, terminate := false, resetting := false, metrics := [] }
      60000000015 (Fl.lit 50)).fps_stats =
      [(20, Fl.lit 30), (30, Fl.lit 144), (60000000015, Fl.lit 50)] ∧
    ∀ e ∈ (update ieee
      { fps_stats := [(5, Fl.lit 60), (20, Fl.lit 30), (30, Fl.lit 144)], run := false,
        thread_init := false, terminate := false, resetting := false, metrics := [] }
      60000000015 (Fl.lit 50)).fps_stats, 60000000015 - 60000000000 ≤ e.1 := by
  have h := c3_update_window ieee
    { fps_stats := [(5, Fl.lit 60), (20, Fl.lit 30), (30, Fl.lit 144)], run := false,
      thread_init := false, terminate := false, resetting := false, metrics := [] }
    60000000015 (Fl.lit 50) rfl
  refine ⟨by decide!, ?_⟩
  exact (h.2.1 (by decide)).2

/-- C4, refuted as stated: with `now = 60000000001`, the sample stamped `1`, exactly one minute
before `now`, is still in the window after `update`. -/
theorem c4_boundary_counterexample :
    60000000000 < 60000000001 ∧ 60000000001 - 60000000000 = 1 ∧
    (update ieee
      { fps_stats := [(1, Fl.lit 60)], run := false, thread_init := false, terminate := false,
        resetting := false, metrics := [] }
      60000000001 (Fl.lit 60)).fps_stats = [(1, Fl.lit 60), (60000000001, Fl.lit 60)] := by
  decide!

/-- C4, amended: on an engine that is not resetting, `update` with `now` above one minute keeps
a held sample exactly when its timestamp is at least `now - 60000000000`; so the sample
stamped exactly one minute before `now` is retained, and every older one is excluded. -/
theorem c4_boundary_retained (P : Platform) (s : fpsMetrics) (now : Nat) (fps : Fl)
    (e : Nat × Fl) (hr : s.resetting = false) (hnow : 60000000000 < now)
    (he : e ∈ s.fps_stats) :
    (e ∈ (update P s now fps).fps_stats ↔ now - 60000000000 ≤ e.1) ∧
    (e.1 = now - 60000000000 → e ∈ (update P s now fps).fps_stats) ∧
    (e.1 < now - 60000000000 → e ∉ (update P s now fps).fps_stats) := by
  have hiff : e ∈ (update P s now fps).fps_stats ↔ now - 60000000000 ≤ e.1 := by
    rw [update_stats_late P s now fps hr (Nat.le_of_lt hnow), List.mem_filter]
    constructor
    · intro h
      simpa using h.2
    · intro h
      exact ⟨List.mem_append_left _ he, by simpa using h⟩
  refine ⟨hiff, ?_, ?_⟩
  · intro h
    exact hiff.mpr (Nat.le_of_eq h.symm)
  · intro h hmem
    exact absurd (hiff.mp hmem) (Nat.not_le.mpr h)

/-- C4 amended, at a concrete call: the sample stamped `1` stays, the one stamped `0` goes. -/
theorem c4_boundary_retained_witness :
    ((1, Fl.lit 60) ∈ (update ieee
      { fps_stats := [(0, Fl.lit 30), (1, Fl.lit 60)], run := false, thread_init := false,
        terminate := false, resetting := false, metrics := [] }
      60000000001 (Fl.lit 60)).fps_stats) ∧
    ((0, Fl.lit 30) ∉ (update ieee
      { fps_stats := [(0, Fl.lit 30), (1, Fl.lit 60)], run := false, thread_init := false,
        terminate := false, resetting := false, metrics := [] }
      60000000001 (Fl.lit 60)).fps_stats) :=
  ⟨(c4_boundary_retained ieee
      { fps_stats := [(0, Fl.lit 30), (1, Fl.lit 60)], run := false, thread_init := false,
        terminate := false, resetting := false, metrics := [] }
      60000000001 (Fl.lit 60) (1, Fl.lit 60) rfl (by decide) (by simp)).2.1 (by decide),
   (c4_boundary_retained ieee
      { fps_stats := [(0, Fl.lit 30), (1, Fl.lit 60)], run := false, thread_init := false,
        terminate := false, resetting := false, metrics := [] }
      60000000001 (Fl.lit 60) (0, Fl.lit 30) rfl (by decide) (by simp)).2.2 (by decide)⟩

/-! ### The loop of `calculate` -/

theorem visit_avg (P : Platform) (fs : List (Nat × Fl)) (sv : List Fl) (m : metric_t)
    (h : m.name = "AVG") :
    visit P fs sv m = Step.next
      { m with display_name := m.name,
               value := if fs.isEmpty then m.value else average P fs } := by
  unfold visit
  rw [if_pos h]
  split <;> rfl

theorem visit_of_ne (P : Platform) (fs : List (Nat × Fl)) (sv : List Fl) (m : metric_t)
    (h : m.name ≠ "AVG") :
    visit P fs sv m =
      match P.stof m.name with
      | StofResult.invalid_argument => Step.erase_next
      | StofResult.out_of_range => Step.out_of_range
      | StofResult.value val =>
        if Fl.le val (Fl.lit 0) || Fl.le (Fl.lit 1) val then Step.erase_stop
        else
          match percentLabel P val with
          | none => Step.undefined
          | some label =>
            match percentileIndex P val sv.length with
            | none => Step.undefined
            | some idx =>
              if h : idx < sv.length then
                Step.next { m with display_name := label, value := sv[idx] }
              else Step.stop { m with display_name := label } := by
  unfold visit
  rw [if_neg h]

/-- An entry that stays keeps its name. -/
theorem visit_next_name (P : Platform) (fs : List (Nat × Fl)) (sv : List Fl) (m m1 : metric_t)
    (h : visit P fs sv m = Step.next m1) : m1.name = m.name := by
  by_cases hn : m.name = "AVG"
  · rw [visit_avg P fs sv m hn] at h
    cases h
    rfl
  · rw [visit_of_ne P fs sv m hn] at h
    split at h
    · cases h
    · cases h
    · split at h
      · cases h
      · split at h
        · cases h
        · split at h
          · cases h
          · split at h
            · cases h
              rfl
            · cases h

/-- An entry at which the loop is left by the `break` of line 83 keeps its name and value. -/
theorem visit_stop_inv (P : Platform) (fs : List (Nat × Fl)) (sv : List Fl) (m m1 : metric_t)
    (h : visit P fs sv m = Step.stop m1) :
    m1.name = m.name ∧ m1.value = m.value ∧ m.name ≠ "AVG" := by
  by_cases hn : m.name = "AVG"
  · rw [visit_avg P fs sv m hn] at h
    cases h
  · rw [visit_of_ne P fs sv m hn] at h
    split at h
    · cases h
    · cases h
    · split at h
      · cases h
      · split at h
        · cases h
        · split at h
          · cases h
          · split at h
            · cases h
            · cases h
              exact ⟨rfl, rfl, hn⟩

/-- Only an entry that is not `AVG` is erased. -/
theorem visit_erase_ne (P : Platform) (fs : List (Nat × Fl)) (sv : List Fl) (m : metric_t)
    (h : visit P fs sv m = Step.erase_stop ∨ visit P fs sv m = Step.erase_next) :
    m.name ≠ "AVG" := by
  intro hn
  rw [visit_avg P fs sv m hn] at h
  rcases h with h | h <;> cases h

theorem loop_cons_next (P : Platform) (fs : List (Nat × Fl)) (sv : List Fl) (m m1 : metric_t)
    (rest : List metric_t) (h : visit P fs sv m = Step.next m1) :
    loop P fs sv (m :: rest) = (loop P fs sv rest).map (fun ms => m1 :: ms) := by
  cases rest <;> simp only [loop, h]

theorem loop_cons_stop (P : Platform) (fs : List (Nat × Fl)) (sv : List Fl) (m m1 : metric_t)
    (rest : List metric_t) (h : visit P fs sv m = Step.stop m1) :
    loop P fs sv (m :: rest) = Outcome.returned (m1 :: rest) := by
  cases rest <;> simp only [loop, h]

theorem loop_cons_erase_stop (P : Platform) (fs : List (Nat × Fl)) (sv : List Fl) (m : metric_t)
    (rest : List metric_t) (h : visit P fs sv m = Step.erase_stop) :
    loop P fs sv (m :: rest) = Outcome.returned rest := by
  cases rest <;> simp only [loop, h]

theorem loop_erase_next_nil (P : Platform) (fs : List (Nat × Fl)) (sv : List Fl) (m : metric_t)
    (h : visit P fs sv m = Step.erase_next) :
    loop P fs sv [m] = Outcome.undefined := by
  simp only [loop, h]

theorem loop_erase_next_cons (P : Platform) (fs : List (Nat × Fl)) (sv : List Fl)
    (m n : metric_t) (rest : List metric_t) (h : visit P fs sv m = Step.erase_next) :
    loop P fs sv (m :: n :: rest) = (loop P fs sv rest).map (fun ms => n :: ms) := by
  simp only [loop, h]

theorem loop_cons_out_of_range (P : Platform) (fs : List (Nat × Fl)) (sv : List Fl)
    (m : metric_t) (rest : List metric_t) (h : visit P fs sv m = Step.out_of_range) :
    loop P fs sv (m :: rest) = Outcome.out_of_range := by
  cases rest <;> simp only [loop, h]

theorem loop_cons_undefined (P : Platform) (fs : List (Nat × Fl)) (sv : List Fl)
    (m : metric_t) (rest : List metric_t) (h : visit P fs sv m = Step.undefined) :
    loop P fs sv (m :: rest) = Outcome.undefined := by
  cases rest <;> simp only [loop, h]

theorem Outcome.map_eq_returned {α β : Type} (f : α → β) (o : Outcome α) (b : β)
    (h : o.map f = Outcome.returned b) : ∃ a, o = Outcome.returned a ∧ f a = b := by
  cases o with
  | returned a => exact ⟨a, rfl, by simpa [Outcome.map] using h⟩
  | undefined => simp [Outcome.map] at h
  | out_of_range => simp [Outcome.map] at h

/-- The names after the loop are, in order, among the names before it. -/
theorem loop_names_sublist (P : Platform) (fs : List (Nat × Fl)) (sv : List Fl)
    (ms : List metric_t) :
    ∀ res, loop P fs sv ms = Outcome.returned res →
      (res.map metric_t.name).Sublist (ms.map metric_t.name) := by
  induction ms using loop.induct P fs sv with
  | case1 =>
    intro res h
    rw [loop] at h
    cases h
    exact List.Sublist.slnil
  | case2 n rest a hv ih =>
    intro res h
    rw [loop_cons_next P fs sv n a rest hv] at h
    obtain ⟨r, hr, rfl⟩ := Outcome.map_eq_returned _ _ _ h
    simp only [List.map_cons]
    rw [visit_next_name P fs sv n a hv]
    exact (ih r hr).cons₂ _
  | case3 n rest a hv =>
    intro res h
    rw [loop_cons_stop P fs sv n a rest hv] at h
    cases h
    simp only [List.map_cons, (visit_stop_inv P fs sv n a hv).1]
    exact List.Sublist.refl _
  | case4 n rest hv =>
    intro res h
    rw [loop_cons_erase_stop P fs sv n rest hv] at h
    cases h
    simp only [List.map_cons]
    exact List.sublist_cons_self _ _
  | case5 n hv =>
    intro res h
    rw [loop_erase_next_nil P fs sv n hv] at h
    cases h
  | case6 n hv k rest ih =>
    intro res h
    rw [loop_erase_next_cons P fs sv n k rest hv] at h
    obtain ⟨r, hr, rfl⟩ := Outcome.map_eq_returned _ _ _ h
    simp only [List.map_cons]
    exact ((ih r hr).cons₂ _).cons _
  | case7 n rest hv =>
    intro res h
    rw [loop_cons_out_of_range P fs sv n rest hv] at h
    cases h
  | case8 n rest hv =>
    intro res h
    rw [loop_cons_undefined P fs sv n rest hv] at h
    cases h

theorem sortValues_of_sortable (vs : List Fl) (h : sortable vs = true) :
    sortValues vs = some (ascending vs) := by
  unfold sortValues
  rw [if_pos h]

/-- A cycle over a window whose values `std::sort` can order is the loop run with the
ascending values. -/
theorem calculate_of_sortable (P : Platform) (s : fpsMetrics)
    (h : sortable (s.fps_stats.map Prod.snd) = true) :
    calculate P s =
      (loop P s.fps_stats (ascending (s.fps_stats.map Prod.snd)) s.metrics).map
        (fun ms => { s with metrics := ms }) := by
  unfold calculate
  rw [sortValues_of_sortable _ h]

theorem calculate_of_not_sortable (P : Platform) (s : fpsMetrics)
    (h : sortable (s.fps_stats.map Prod.snd) = false) : calculate P s = Outcome.undefined := by
  unfold calculate sortValues
  rw [h]
  rfl

/-- A cycle that returns ran over a window whose values `std::sort` can order. -/
theorem calculate_returned (P : Platform) (s s1 : fpsMetrics)
    (h : calculate P s = Outcome.returned s1) :
    sortable (s.fps_stats.map Prod.snd) = true ∧
    ∃ r, loop P s.fps_stats (ascending (s.fps_stats.map Prod.snd)) s.metrics =
        Outcome.returned r ∧ s1 = { s with metrics := r } := by
  cases hs : sortable (s.fps_stats.map Prod.snd) with
  | false =>
    rw [calculate_of_not_sortable P s hs] at h
    cases h
  | true =>
    rw [calculate_of_sortable P s hs] at h
    obtain ⟨r, hr, rfl⟩ := Outcome.map_eq_returned _ _ _ h
    exact ⟨rfl, r, hr, rfl⟩

theorem sortable_iff (vs : List Fl) :
    sortable vs = true ↔
      ∀ a ∈ vs, ∀ b ∈ vs, a = b ∨ Fl.lt a b = true ∨ Fl.lt b a = true := by
  unfold sortable
  simp only [List.all_eq_true, Bool.or_eq_true, decide_eq_true_eq, or_assoc]

/-- Finite values with their sign bit clear, whatever they are, can be ordered. -/
theorem sortable_of_rat (qs : List ℚ) :
    sortable (qs.map (fun q => Fl.num false (some q))) = true := by
  rw [sortable_iff]
  intro a ha b hb
  obtain ⟨x, _, rfl⟩ := List.mem_map.mp ha
  obtain ⟨y, _, rfl⟩ := List.mem_map.mp hb
  rcases lt_trichotomy x y with h | h | h
  · right
    left
    simp only [Fl.lt, Fl.key, Bool.false_eq_true, if_false, decide_eq_true_eq]
    exact Or.inr ⟨trivial, h⟩
  · left
    rw [h]
  · right
    right
    simp only [Fl.lt, Fl.key, Bool.false_eq_true, if_false, decide_eq_true_eq]
    exact Or.inr ⟨trivial, h⟩

theorem calculate_names_sublist (P : Platform) (s s1 : fpsMetrics)
    (h : calculate P s = Outcome.returned s1) :
    (s1.metrics.map metric_t.name).Sublist (s.metrics.map metric_t.name) := by
  obtain ⟨_, r, hr, rfl⟩ := calculate_returned P s s1 h
  exact loop_names_sublist P _ _ _ r hr

theorem update_metrics (P : Platform) (s : fpsMetrics) (now : Nat) (fps : Fl) :
    (update P s now fps).metrics = s.metrics := by
  unfold update
  split
  · rfl
  · dsimp only
    split <;> rfl

theorem update_thread_metrics (s : fpsMetrics) : (update_thread s).metrics = s.metrics := by
  unfold update_thread
  split <;> rfl

theorem reset_metrics_metrics (s s1 : fpsMetrics) (h : reset_metrics s = some s1) :
    s1.metrics = s.metrics := by
  unfold reset_metrics at h
  split at h
  · cases h
  · cases h
    rfl

theorem thread_step_names_sublist (P : Platform) (s s1 : fpsMetrics)
    (h : thread_step P s = Outcome.returned s1) :
    (s1.metrics.map metric_t.name).Sublist (s.metrics.map metric_t.name) := by
  unfold thread_step at h
  split at h
  · cases h
    exact List.Sublist.refl _
  · split at h
    · cases h
      exact List.Sublist.refl _
    · obtain ⟨r, hr, rfl⟩ := Outcome.map_eq_returned _ _ _ h
      exact calculate_names_sublist P s r hr

theorem apply_names_sublist (P : Platform) (op : Op) (s s1 : fpsMetrics)
    (h : op.apply P s = some s1) :
    (s1.metrics.map metric_t.name).Sublist (s.metrics.map metric_t.name) := by
  cases op with
  | update now fps =>
    simp only [Op.apply, Option.some.injEq] at h
    subst h
    rw [update_metrics]
  | update_thread =>
    simp only [Op.apply, Option.some.injEq] at h
    subst h
    rw [update_thread_metrics]
  | reset_metrics =>
    simp only [Op.apply] at h
    rw [reset_metrics_metrics s s1 h]
  | thread_step =>
    simp only [Op.apply] at h
    split at h
    · rename_i s2 hs2
      cases h
      exact thread_step_names_sublist P s s1 hs2
    · cases h

theorem runOps_names_sublist (P : Platform) (ops : List Op) :
    ∀ s s1 : fpsMetrics, runOps P ops s = some s1 →
      (s1.metrics.map metric_t.name).Sublist (s.metrics.map metric_t.name) := by
  induction ops with
  | nil =>
    intro s s1 h
    simp only [runOps, Option.some.injEq] at h
    subst h
    exact List.Sublist.refl _
  | cons op ops ih =>
    intro s s1 h
    simp only [runOps] at h
    split at h
    · rename_i s2 hs2
      exact (ih s2 s1 h).trans (apply_names_sublist P op s s2 hs2)
    · cases h

/-- C6: the registry only ever shrinks. The names after `calculate` are an order-preserving
subsequence of the names before it; `update`, `update_thread` and `reset_metrics` leave the
registry as it is; so after any sequence of operations the names are a subsequence of the
names before, and a name that is absent at some point is absent ever after. -/
theorem c6_registry_shrinks (P : Platform) :
    (∀ s s1 : fpsMetrics, calculate P s = Outcome.returned s1 →
      (s1.metrics.map metric_t.name).Sublist (s.metrics.map metric_t.name)) ∧
    (∀ (s : fpsMetrics) (now : Nat) (fps : Fl), (update P s now fps).metrics = s.metrics) ∧
    (∀ s : fpsMetrics, (update_thread s).metrics = s.metrics) ∧
    (∀ s s1 : fpsMetrics, reset_metrics s = some s1 → s1.metrics = s.metrics) ∧
    (∀ (ops : List Op) (s s1 : fpsMetrics), runOps P ops s = some s1 →
      (s1.metrics.map metric_t.name).Sublist (s.metrics.map metric_t.name)) ∧
    (∀ (ops : List Op) (s s1 : fpsMetrics) (x : String), runOps P ops s = some s1 →
      x ∉ s.metrics.map metric_t.name → x ∉ s1.metrics.map metric_t.name) :=
  ⟨calculate_names_sublist P, update_metrics P, update_thread_metrics, reset_metrics_metrics,
    runOps_names_sublist P,
    fun ops s s1 _ h hx hx1 => hx ((runOps_names_sublist P ops s s1 h).subset hx1)⟩

/-! ### Entries the iterator reaches -/

theorem Outcome.map_map {α β γ : Type} (f : α → β) (g : β → γ) (o : Outcome α) :
    (o.map f).map g = o.map (fun a => g (f a)) := by
  cases o <;> rfl

theorem walk_cons_next (P : Platform) (fs : List (Nat × Fl)) (sv : List Fl) (m m1 : metric_t)
    (rest : List metric_t) (h : visit P fs sv m = Step.next m1) :
    walk P fs sv (m :: rest) = (walk P fs sv rest).map (fun ms => m1 :: ms) := by
  cases rest <;> simp only [walk, h]

theorem walk_erase_next_nil (P : Platform) (fs : List (Nat × Fl)) (sv : List Fl) (m : metric_t)
    (h : visit P fs sv m = Step.erase_next) : walk P fs sv [m] = none := by
  simp only [walk, h]

theorem walk_erase_next_cons (P : Platform) (fs : List (Nat × Fl)) (sv : List Fl)
    (m n : metric_t) (rest : List metric_t) (h : visit P fs sv m = Step.erase_next) :
    walk P fs sv (m :: n :: rest) = (walk P fs sv rest).map (fun ms => n :: ms) := by
  simp only [walk, h]

theorem walk_cons_none (P : Platform) (fs : List (Nat × Fl)) (sv : List Fl) (m : metric_t)
    (rest : List metric_t) (h1 : ∀ m1, visit P fs sv m = Step.next m1 → False)
    (h2 : visit P fs sv m = Step.erase_next → False) : walk P fs sv (m :: rest) = none := by
  cases hv : visit P fs sv m with
  | next m1 => exact absurd hv (fun h => h1 m1 h)
  | erase_next => exact absurd hv h2
  | stop m1 => cases rest <;> simp only [walk, hv]
  | erase_stop => cases rest <;> simp only [walk, hv]
  | out_of_range => cases rest <;> simp only [walk, hv]
  | undefined => cases rest <;> simp only [walk, hv]

/-- Once the loop has passed `pre`, it goes on with the rest of the registry as if it had
started there. -/
theorem loop_append_of_walk (P : Platform) (fs : List (Nat × Fl)) (sv : List Fl)
    (pre : List metric_t) :
    ∀ (pre1 rest : List metric_t), walk P fs sv pre = some pre1 →
      loop P fs sv (pre ++ rest) = (loop P fs sv rest).map (fun ms => pre1 ++ ms) := by
  induction pre using walk.induct P fs sv with
  | case1 =>
    intro pre1 rest h
    simp only [walk, Option.some.injEq] at h
    subst h
    simp only [List.nil_append]
    cases loop P fs sv rest <;> rfl
  | case2 n rest1 m1 hv ih =>
    intro pre1 rest h
    rw [walk_cons_next P fs sv n m1 rest1 hv] at h
    obtain ⟨r, hr, rfl⟩ := Option.map_eq_some'.mp h
    rw [List.cons_append, loop_cons_next P fs sv n m1 _ hv, ih r rest hr, Outcome.map_map]
    rfl
  | case3 n hv =>
    intro pre1 rest h
    rw [walk_erase_next_nil P fs sv n hv] at h
    cases h
  | case4 n hv k rest1 ih =>
    intro pre1 rest h
    rw [walk_erase_next_cons P fs sv n k rest1 hv] at h
    obtain ⟨r, hr, rfl⟩ := Option.map_eq_some'.mp h
    rw [List.cons_append, List.cons_append, loop_erase_next_cons P fs sv n k _ hv, ih r rest hr,
      Outcome.map_map]
    rfl
  | case5 n rest1 h1 h2 =>
    intro pre1 rest h
    rw [walk_cons_none P fs sv n rest1 h1 h2] at h
    cases h

/-- The names of the passed entries are, in order, among the names they had. -/
theorem walk_names_sublist (P : Platform) (fs : List (Nat × Fl)) (sv : List Fl)
    (pre : List metric_t) :
    ∀ pre1, walk P fs sv pre = some pre1 →
      (pre1.map metric_t.name).Sublist (pre.map metric_t.name) := by
  induction pre using walk.induct P fs sv with
  | case1 =>
    intro pre1 h
    simp only [walk, Option.some.injEq] at h
    subst h
    exact List.Sublist.slnil
  | case2 n rest1 m1 hv ih =>
    intro pre1 h
    rw [walk_cons_next P fs sv n m1 rest1 hv] at h
    obtain ⟨r, hr, rfl⟩ := Option.map_eq_some'.mp h
    simp only [List.map_cons, visit_next_name P fs sv n m1 hv]
    exact (ih r hr).cons₂ _
  | case3 n hv =>
    intro pre1 h
    rw [walk_erase_next_nil P fs sv n hv] at h
    cases h
  | case4 n hv k rest1 ih =>
    intro pre1 h
    rw [walk_erase_next_cons P fs sv n k rest1 hv] at h
    obtain ⟨r, hr, rfl⟩ := Option.map_eq_some'.mp h
    simp only [List.map_cons]
    exact ((ih r hr).cons₂ _).cons _
  | case5 n rest1 h1 h2 =>
    intro pre1 h
    rw [walk_cons_none P fs sv n rest1 h1 h2] at h
    cases h

/-! ### Entries that `calculate` erases -/

theorem visit_invalid_argument (P : Platform) (fs : List (Nat × Fl)) (sv : List Fl)
    (m : metric_t) (hn : m.name ≠ "AVG") (h : P.stof m.name = StofResult.invalid_argument) :
    visit P fs sv m = Step.erase_next := by
  rw [visit_of_ne P fs sv m hn, h]

theorem visit_outside (P : Platform) (fs : List (Nat × Fl)) (sv : List Fl)
    (m : metric_t) (val : Fl) (hn : m.name ≠ "AVG") (h : P.stof m.name = StofResult.value val)
    (hval : Fl.le val (Fl.lit 0) = true ∨ Fl.le (Fl.lit 1) val = true) :
    visit P fs sv m = Step.erase_stop := by
  rw [visit_of_ne P fs sv m hn, h]
  have : (Fl.le val (Fl.lit 0) || Fl.le (Fl.lit 1) val) = true := by
    rcases hval with h1 | h1 <;> simp [h1]
  simp only [this, if_true]

/-- C5, refuted as stated: the identifiers `2` and `3` are both numbers outside `(0,1)`, yet
after the first cycle (on a window of one sample) the entry `3` is still in the registry: the
cycle ends when it has erased `2`. Likewise, of the non-numeric `abc` and `xyz` the first
cycle erases only `abc`. And the identifier `nan` is read as NaN, for which both comparisons
of line 68 are false: it is an entry that `calculate` has no reason to erase. -/
theorem c5_invalid_counterexample :
    calculate ieee
      { fps_stats := [(0, Fl.lit 60)], run := false, thread_init := false, terminate := false,
        resetting := false, metrics := add_metrics_to_vector ["2", "3"] } =
      Outcome.returned
        { fps_stats := [(0, Fl.lit 60)], run := false, thread_init := false,
          terminate := false, resetting := false,
          metrics := [{ name := "3", value := Fl.lit 0, display_name := "" }] } ∧
    stofIeee "3" = StofResult.value (Fl.lit 3) ∧ Fl.le (Fl.lit 1) (Fl.lit 3) = true ∧
    calculate ieee
      { fps_stats := [(0, Fl.lit 60)], run := false, thread_init := false, terminate := false,
        resetting := false, metrics := add_metrics_to_vector ["abc", "xyz"] } =
      Outcome.returned
        { fps_stats := [(0, Fl.lit 60)], run := false, thread_init := false,
          terminate := false, resetting := false,
          metrics := [{ name := "XYZ", value := Fl.lit 0, display_name := "" }] } ∧
    stofIeee "XYZ" = StofResult.invalid_argument ∧
    stofIeee "NAN" = StofResult.value Fl.nan ∧
    Fl.le Fl.nan (Fl.lit 0) = false ∧ Fl.le (Fl.lit 1) Fl.nan = false ∧
    keeps ieee { name := "NAN", value := Fl.lit 0, display_name := "" } = true := by
  decide!

/-- C5, amended: a cycle that reaches an entry whose identifier is not `AVG` and that
`std::stof` rejects as no number (`std::invalid_argument`) or reads as a value `<= 0` or
`>= 1` removes that entry: if the cycle returns, the names left are, in order, among the
names of the other entries. When the identifier is read as a value `<= 0` or `>= 1` the cycle
ends right there and the entries behind it are left as they were, valid or not. The names
stay among those of the other entries after every later sequence of operations. -/
theorem c5_invalid_removed (P : Platform) (s s1 : fpsMetrics) (pre pre1 post : List metric_t)
    (m : metric_t) (hms : s.metrics = pre ++ m :: post)
    (hpre : walk P s.fps_stats (ascending (s.fps_stats.map Prod.snd)) pre = some pre1)
    (hname : m.name ≠ "AVG")
    (hinv : P.stof m.name = StofResult.invalid_argument ∨
      ∃ val, P.stof m.name = StofResult.value val ∧
        (Fl.le val (Fl.lit 0) = true ∨ Fl.le (Fl.lit 1) val = true))
    (hret : calculate P s = Outcome.returned s1) :
    (s1.metrics.map metric_t.name).Sublist ((pre ++ post).map metric_t.name) ∧
    ((∃ val, P.stof m.name = StofResult.value val ∧
        (Fl.le val (Fl.lit 0) = true ∨ Fl.le (Fl.lit 1) val = true)) →
      s1.metrics = pre1 ++ post) ∧
    (∀ (ops : List Op) (s2 : fpsMetrics), runOps P ops s1 = some s2 →
      (s2.metrics.map metric_t.name).Sublist ((pre ++ post).map metric_t.name)) := by
  have hpre1 := walk_names_sublist P _ _ pre pre1 hpre
  obtain ⟨_, r, hr, rfl⟩ := calculate_returned P s s1 hret
  rw [hms, loop_append_of_walk P _ _ pre pre1 (m :: post) hpre] at hr
  obtain ⟨r1, hr1, rfl⟩ := Outcome.map_eq_returned _ _ _ hr
  have hstop : ∀ val, P.stof m.name = StofResult.value val →
      (Fl.le val (Fl.lit 0) = true ∨ Fl.le (Fl.lit 1) val = true) → r1 = post := by
    intro val hv hval
    rw [loop_cons_erase_stop P _ _ m post (visit_outside P _ _ m val hname hv hval)] at hr1
    cases hr1
    rfl
  have hsub : ((pre1 ++ r1).map metric_t.name).Sublist ((pre ++ post).map metric_t.name) := by
    rw [List.map_append, List.map_append]
    refine List.Sublist.append hpre1 ?_
    rcases hinv with hia | ⟨val, hv, hval⟩
    · have hvis := visit_invalid_argument P s.fps_stats
        (ascending (s.fps_stats.map Prod.snd)) m hname hia
      cases post with
      | nil =>
        rw [loop_erase_next_nil P _ _ m hvis] at hr1
        cases hr1
      | cons n post1 =>
        rw [loop_erase_next_cons P _ _ m n post1 hvis] at hr1
        obtain ⟨r2, hr2, rfl⟩ := Outcome.map_eq_returned _ _ _ hr1
        simp only [List.map_cons]
        exact (loop_names_sublist P _ _ post1 r2 hr2).cons₂ _
    · rw [hstop val hv hval]
  refine ⟨hsub, ?_, ?_⟩
  · rintro ⟨val, hv, hval⟩
    show pre1 ++ r1 = pre1 ++ post
    rw [hstop val hv hval]
  · intro ops s2 h2
    exact (runOps_names_sublist P ops _ s2 h2).trans hsub

/-- C5 amended, at a concrete registry: `AVG`, `2`, `0.5` on the window `[30, 60]`; the cycle
evaluates `AVG`, erases `2` and ends, leaving `0.5` as it was. -/
theorem c5_invalid_removed_witness :
    calculate ieee
      { fps_stats := [(0, Fl.lit 30), (0, Fl.lit 60)], run := false, thread_init := false,
        terminate := false, resetting := false,
        metrics := add_metrics_to_vector ["avg", "2", "0.5"] } =
      Outcome.returned
        { fps_stats := [(0, Fl.lit 30), (0, Fl.lit 60)], run := false, thread_init := false,
          terminate := false, resetting := false,
          metrics := [{ name := "AVG", value := Fl.lit 40, display_name := "AVG" },
                      { name := "0.5", value := Fl.lit 0, display_name := "" }] } ∧
    [{ name := "AVG", value := Fl.lit 40, display_name := "AVG" },
     { name := "0.5", value := Fl.lit 0, display_name := "" }] =
      [({ name := "AVG", value := Fl.lit 40, display_name := "AVG" } : metric_t)] ++
        [{ name := "0.5", value := Fl.lit 0, display_name := "" }] :=
  ⟨by decide!,
   (c5_invalid_removed ieee
    { fps_stats := [(0, Fl.lit 30), (0, Fl.lit 60)], run := false, thread_init := false,
      terminate := false, resetting := false,
      metrics := add_metrics_to_vector ["avg", "2", "0.5"] }
    { fps_stats := [(0, Fl.lit 30), (0, Fl.lit 60)], run := false, thread_init := false,
      terminate := false, resetting := false,
      metrics := [{ name := "AVG", value := Fl.lit 40, display_name := "AVG" },
                  { name := "0.5", value := Fl.lit 0, display_name := "" }] }
    [{ name := "AVG", value := Fl.lit 0, display_name := "" }]
    [{ name := "AVG", value := Fl.lit 40, display_name := "AVG" }]
    [{ name := "0.5", value := Fl.lit 0, display_name := "" }]
    { name := "2", value := Fl.lit 0, display_name := "" }
    (by decide!) (by decide!) (by decide!)
    (Or.inr ⟨Fl.lit 2, by decide!, Or.inr (by decide!)⟩) (by decide!)).2.1
      ⟨Fl.lit 2, by decide!, Or.inr (by decide!)⟩⟩

/-! ### `AVG` over an empty window -/

theorem visit_next_empty (P : Platform) (sv : List Fl) (m m1 : metric_t)
    (h : visit P [] sv m = Step.next m1) :
    m1.name = m.name ∧ (m.name = "AVG" → m1.value = m.value) := by
  refine ⟨visit_next_name P [] sv m m1 h, ?_⟩
  intro hn
  rw [visit_avg P [] sv m hn] at h
  cases h
  rfl

/-- Over an empty window the loop leaves the values of the `AVG` entries as they are. -/
theorem loop_avg_values_empty (P : Platform) (sv : List Fl) (ms : List metric_t) :
    ∀ res, loop P [] sv ms = Outcome.returned res →
      (res.filter (fun m => decide (m.name = "AVG"))).map metric_t.value =
        (ms.filter (fun m => decide (m.name = "AVG"))).map metric_t.value := by
  induction ms using loop.induct P [] sv with
  | case1 =>
    intro res h
    rw [loop] at h
    cases h
    rfl
  | case2 n rest a hv ih =>
    intro res h
    rw [loop_cons_next P [] sv n a rest hv] at h
    obtain ⟨r, hr, rfl⟩ := Outcome.map_eq_returned _ _ _ h
    obtain ⟨hname, hval⟩ := visit_next_empty P sv n a hv
    by_cases hn : n.name = "AVG"
    · have ha : a.name = "AVG" := by rw [hname, hn]
      simp only [List.filter_cons, ha, hn, decide_True, if_true, List.map_cons]
      rw [ih r hr, hval hn]
    · have ha : ¬ a.name = "AVG" := by rw [hname]; exact hn
      simp only [List.filter_cons, ha, hn, decide_False, Bool.false_eq_true, if_false]
      exact ih r hr
  | case3 n rest a hv =>
    intro res h
    rw [loop_cons_stop P [] sv n a rest hv] at h
    cases h
    obtain ⟨hname, hval, hn⟩ := visit_stop_inv P [] sv n a hv
    have ha : ¬ a.name = "AVG" := by rw [hname]; exact hn
    simp only [List.filter_cons, ha, hn, decide_False, Bool.false_eq_true, if_false]
  | case4 n rest hv =>
    intro res h
    rw [loop_cons_erase_stop P [] sv n rest hv] at h
    cases h
    have hn := visit_erase_ne P [] sv n (Or.inl hv)
    simp only [List.filter_cons, hn, decide_False, Bool.false_eq_true, if_false]
  | case5 n hv =>
    intro res h
    rw [loop_erase_next_nil P [] sv n hv] at h
    cases h
  | case6 n hv k rest ih =>
    intro res h
    rw [loop_erase_next_cons P [] sv n k rest hv] at h
    obtain ⟨r, hr, rfl⟩ := Outcome.map_eq_returned _ _ _ h
    have hn := visit_erase_ne P [] sv n (Or.inr hv)
    simp only [List.filter_cons, hn, decide_False, Bool.false_eq_true, if_false]
    by_cases hk : k.name = "AVG"
    · simp only [hk, decide_True, if_true, List.map_cons]
      rw [ih r hr]
    · simp only [hk, decide_False, Bool.false_eq_true, if_false]
      exact ih r hr
  | case7 n rest hv =>
    intro res h
    rw [loop_cons_out_of_range P [] sv n rest hv] at h
    cases h
  | case8 n rest hv =>
    intro res h
    rw [loop_cons_undefined P [] sv n rest hv] at h
    cases h

theorem add_metrics_to_vector_value (values : List String) :
    ∀ m ∈ add_metrics_to_vector values, m.value = Fl.lit 0 := by
  intro m hm
  unfold add_metrics_to_vector at hm
  obtain ⟨v, _, rfl⟩ := List.mem_map.mp hm
  rfl

/-- C8: a cycle over an empty window leaves the value of every `AVG` entry as it was before
the cycle (the `AVG` entries and their values, in order, are the same before and after); every
metric is created with the value 0; so a static engine built from an empty sample list
reports 0 for `AVG`, and the one built from the single identifier `avg` returns with the
registry `AVG = 0`. -/
theorem c8_average_empty_window (P : Platform) :
    (∀ s s1 : fpsMetrics, s.fps_stats = [] → calculate P s = Outcome.returned s1 →
      (s1.metrics.filter (fun m => decide (m.name = "AVG"))).map metric_t.value =
        (s.metrics.filter (fun m => decide (m.name = "AVG"))).map metric_t.value) ∧
    (∀ values : List String, ∀ m ∈ (fpsMetrics.create values).metrics,
      m.value = Fl.num false (some 0)) ∧
    (∀ (values : List String) (s1 : fpsMetrics),
      fpsMetrics.createStatic P values [] = Outcome.returned s1 →
      ∀ m ∈ s1.metrics, m.name = "AVG" → m.value = Fl.num false (some 0)) ∧
    fpsMetrics.createStatic P ["avg"] [] =
      Outcome.returned
        { fps_stats := [], run := false, thread_init := false, terminate := false,
          resetting := false,
          metrics := [{ name := "AVG", value := Fl.num false (some 0), display_name := "AVG" }] } := by
  have hlit : Fl.lit 0 = Fl.num false (some 0) := by decide!
  have hcalc : ∀ s s1 : fpsMetrics, s.fps_stats = [] → calculate P s = Outcome.returned s1 →
      (s1.metrics.filter (fun m => decide (m.name = "AVG"))).map metric_t.value =
        (s.metrics.filter (fun m => decide (m.name = "AVG"))).map metric_t.value := by
    intro s s1 hs h
    obtain ⟨_, r, hr, rfl⟩ := calculate_returned P s s1 h
    rw [hs] at hr
    exact loop_avg_values_empty P _ _ r hr
  refine ⟨hcalc, ?_, ?_, ?_⟩
  · intro values m hm
    rw [← hlit]
    exact add_metrics_to_vector_value values m hm
  · intro values s1 h m hm hn
    have h1 := hcalc _ s1 rfl h
    have hmem : m.value ∈ (s1.metrics.filter (fun m => decide (m.name = "AVG"))).map
        metric_t.value :=
      List.mem_map.mpr ⟨m, List.mem_filter.mpr ⟨hm, by simpa using hn⟩, rfl⟩
    rw [h1] at hmem
    obtain ⟨m0, hm0, hv0⟩ := List.mem_map.mp hmem
    rw [← hv0, ← hlit]
    exact add_metrics_to_vector_value values m0 (List.mem_filter.mp hm0).1
  · have hup : toUpperStr "avg" = "AVG" := by decide
    have hv : visit P [] (ascending []) { name := "AVG", value := Fl.lit 0, display_name := "" } =
        Step.next { name := "AVG", value := Fl.lit 0, display_name := "AVG" } :=
      visit_avg P [] (ascending []) _ rfl
    unfold fpsMetrics.createStatic add_metrics_to_vector
    rw [calculate_of_sortable P _ (by rfl)]
    simp only [List.map_nil, List.map_cons, hup]
    rw [loop_cons_next P [] _ _ _ [] hv, loop, hlit]
    rfl

/-! ### Construction -/

theorem char_toNat_ofNat_small : ∀ k : Nat, k < 256 → (Char.ofNat k).toNat = k := by
  decide!

/-- Two characters that agree once lower-cased agree once upper-cased. -/
theorem toUpper_eq_of_toLower_eq (c d : Char) (h : c.toLower = d.toLower) :
    c.toUpper = d.toUpper := by
  have key : ∀ a b : Char, 65 ≤ a.toNat → a.toNat ≤ 90 → Char.ofNat (a.toNat + 32) = b →
      ¬ (65 ≤ b.toNat ∧ b.toNat ≤ 90) → a.toUpper = b.toUpper := by
    intro a b h1 h2 hb _
    have hbn : b.toNat = a.toNat + 32 := by
      rw [← hb]; exact char_toNat_ofNat_small _ (by omega)
    have ha : a.toUpper = a := by
      unfold Char.toUpper
      simp only []
      rw [if_neg (by omega)]
    have hb2 : b.toUpper = a := by
      unfold Char.toUpper
      simp only []
      rw [if_pos (by omega), hbn, Nat.add_sub_cancel, Char.ofNat_toNat]
    rw [ha, hb2]
  unfold Char.toLower at h
  simp only [] at h
  by_cases hc : 65 ≤ c.toNat ∧ c.toNat ≤ 90
  · by_cases hd : 65 ≤ d.toNat ∧ d.toNat ≤ 90
    · rw [if_pos hc, if_pos hd] at h
      have h1 := congrArg Char.toNat h
      rw [char_toNat_ofNat_small _ (by omega), char_toNat_ofNat_small _ (by omega)] at h1
      have h2 : c = d := by
        rw [← Char.ofNat_toNat c, ← Char.ofNat_toNat d]
        congr 1
        omega
      rw [h2]
    · rw [if_pos hc, if_neg hd] at h
      exact key c d hc.1 hc.2 h hd
  · by_cases hd : 65 ≤ d.toNat ∧ d.toNat ≤ 90
    · rw [if_neg hc, if_pos hd] at h
      exact (key d c hd.1 hd.2 h.symm hc).symm
    · rw [if_neg hc, if_neg hd] at h
      rw [h]

theorem toUpperStr_eq_of_lower_eq (a b : String)
    (h : a.data.map Char.toLower = b.data.map Char.toLower) : toUpperStr a = toUpperStr b := by
  unfold toUpperStr
  congr 1
  have hgen : ∀ l1 l2 : List Char, l1.map Char.toLower = l2.map Char.toLower →
      l1.map Char.toUpper = l2.map Char.toUpper := by
    intro l1
    induction l1 with
    | nil =>
      intro l2 h
      cases l2 with
      | nil => rfl
      | cons y l2 => simp at h
    | cons x l1 ih =>
      intro l2 h
      cases l2 with
      | nil => simp at h
      | cons y l2 =>
        simp only [List.map_cons, List.cons.injEq] at h
        simp only [List.map_cons, toUpper_eq_of_toLower_eq x y h.1, ih l2 h.2]
  exact hgen _ _ h

theorem add_metrics_to_vector_congr (v1 v2 : List String)
    (h : List.Forall₂ (fun a b : String => a.data.map Char.toLower = b.data.map Char.toLower)
      v1 v2) :
    add_metrics_to_vector v1 = add_metrics_to_vector v2 := by
  unfold add_metrics_to_vector
  induction h with
  | nil => rfl
  | cons hab _ ih =>
    simp only [List.map_cons, toUpperStr_eq_of_lower_eq _ _ hab, ih]

/-- C10: constructing an engine from a list of identifiers gives a registry with one entry
per identifier, in the same order, whose name is the identifier with every lower-case letter
replaced by its upper-case letter, whose value is 0 and whose display name is empty; two lists
of identifiers that agree up to letter case (equal once every letter is lower-cased), such as
`avg` and `AVG`, give the same registry, the same engine and, with the same samples, the same
outcome of the static constructor and of a cycle. -/
theorem c10_constructor :
    (∀ values : List String, (fpsMetrics.create values).metrics =
      values.map (fun v =>
        { name := String.mk (v.data.map Char.toUpper), value := Fl.num false (some 0),
          display_name := "" })) ∧
    (∀ values : List String, (fpsMetrics.create values).metrics.length = values.length) ∧
    (∀ c : Char, c.toUpper =
      if 97 ≤ c.toNat ∧ c.toNat ≤ 122 then Char.ofNat (c.toNat - 32) else c) ∧
    (∀ v1 v2 : List String,
      List.Forall₂ (fun a b : String => a.data.map Char.toLower = b.data.map Char.toLower)
        v1 v2 →
      fpsMetrics.create v1 = fpsMetrics.create v2 ∧
      (∀ (P : Platform) (only_fps : List Fl),
        fpsMetrics.createStatic P v1 only_fps = fpsMetrics.createStatic P v2 only_fps) ∧
      (∀ (P : Platform) (window : List (Nat × Fl)),
        calculate P { fpsMetrics.create v1 with fps_stats := window } =
          calculate P { fpsMetrics.create v2 with fps_stats := window })) ∧
    fpsMetrics.create ["avg", "0.01"] = fpsMetrics.create ["AVG", "0.01"] ∧
    (fpsMetrics.create ["avg", "0.01"]).metrics =
      [{ name := "AVG", value := Fl.num false (some 0), display_name := "" },
       { name := "0.01", value := Fl.num false (some 0), display_name := "" }] := by
  have hlit : Fl.lit 0 = Fl.num false (some 0) := by decide!
  refine ⟨?_, ?_, ?_, ?_, by decide!, by decide!⟩
  · intro values
    simp only [fpsMetrics.create, add_metrics_to_vector, toUpperStr, hlit]
  · intro values
    simp only [fpsMetrics.create, add_metrics_to_vector, List.length_map]
  · intro c
    rfl
  · intro v1 v2 h
    have hreg := add_metrics_to_vector_congr v1 v2 h
    refine ⟨?_, ?_, ?_⟩
    · simp only [fpsMetrics.create, hreg]
    · intro P only_fps
      simp only [fpsMetrics.createStatic, hreg]
    · intro P window
      simp only [fpsMetrics.create, hreg]

/-! ### Rounding -/

theorem log2Fuel_spec : ∀ (fuel n : Nat), 0 < n → n ≤ fuel →
    2 ^ log2Fuel fuel n ≤ n ∧ n < 2 ^ (log2Fuel fuel n + 1) := by
  intro fuel
  induction fuel with
  | zero =>
    intro n h0 h1
    omega
  | succ fuel ih =>
    intro n h0 h1
    unfold log2Fuel
    by_cases h2 : n < 2
    · rw [if_pos h2]
      constructor
      · simpa using h0
      · simpa using h2
    · rw [if_neg h2]
      have h3 : 0 < n / 2 := Nat.div_pos (by omega) (by decide)
      have h4 : n / 2 ≤ fuel := by omega
      obtain ⟨ha, hb⟩ := ih (n / 2) h3 h4
      constructor
      · rw [pow_succ]
        have := Nat.div_mul_le_self n 2
        calc 2 ^ log2Fuel fuel (n / 2) * 2 ≤ n / 2 * 2 := Nat.mul_le_mul_right 2 ha
          _ ≤ n := this
      · rw [pow_succ]
        exact (Nat.div_lt_iff_lt_mul (by decide)).mp hb

theorem natLog2_spec (n : Nat) (h : 0 < n) :
    2 ^ natLog2 n ≤ n ∧ n < 2 ^ (natLog2 n + 1) :=
  log2Fuel_spec n n h (Nat.le_refl n)

theorem pow2_eq (k : Int) : pow2 k = (2 : ℚ) ^ k := by
  unfold pow2
  by_cases h : 0 ≤ k
  · rw [if_pos h]
    obtain ⟨n, rfl⟩ := Int.eq_ofNat_of_zero_le h
    simp
  · rw [if_neg h]
    have h1 : 0 ≤ -k := by omega
    obtain ⟨n, hn⟩ := Int.eq_ofNat_of_zero_le h1
    have hk : k = -(n : Int) := by omega
    subst hk
    simp

theorem pow2_pos (k : Int) : 0 < pow2 k := by
  rw [pow2_eq]
  exact zpow_pos (by norm_num) k

theorem pow2_add (a b : Int) : pow2 (a + b) = pow2 a * pow2 b := by
  rw [pow2_eq, pow2_eq, pow2_eq]
  exact zpow_add₀ (by norm_num) a b

theorem pow2_mono {a b : Int} (h : a ≤ b) : pow2 a ≤ pow2 b := by
  rw [pow2_eq, pow2_eq]
  exact zpow_le_zpow_right₀ (by norm_num) h

theorem pow2_natCast (n : Nat) : pow2 (n : Int) = ((2 ^ n : Nat) : ℚ) := by
  rw [pow2_eq]
  simp

theorem ilog2_aux (q : ℚ) (n d : Nat) (hn0 : 0 < n) (hd0 : 0 < d) (hq : q = (n : ℚ) / (d : ℚ)) :
    pow2 ((natLog2 n : Int) - (natLog2 d : Int) - 1) ≤ q ∧
    q < pow2 ((natLog2 n : Int) - (natLog2 d : Int) + 1) := by
  obtain ⟨hn1, hn2⟩ := natLog2_spec n hn0
  obtain ⟨hd1, hd2⟩ := natLog2_spec d hd0
  have hdq : (0 : ℚ) < (d : ℚ) := by exact_mod_cast hd0
  have h3 : (0 : ℚ) < (2 : ℚ) ^ natLog2 d := by positivity
  constructor
  · have e1 : ((natLog2 n : Int) - (natLog2 d : Int) - 1) =
        (natLog2 n : Int) + (-((natLog2 d + 1 : Nat) : Int)) := by push_cast; ring
    rw [e1, pow2_add, pow2_natCast, pow2_eq, zpow_neg, zpow_natCast, ← div_eq_mul_inv, hq]
    have h1 : ((2 ^ natLog2 n : Nat) : ℚ) ≤ (n : ℚ) := by exact_mod_cast hn1
    have h2 : (d : ℚ) ≤ (2 : ℚ) ^ (natLog2 d + 1) := by exact_mod_cast le_of_lt hd2
    exact div_le_div₀ (by positivity) h1 hdq h2
  · have e1 : ((natLog2 n : Int) - (natLog2 d : Int) + 1) =
        ((natLog2 n + 1 : Nat) : Int) + (-((natLog2 d : Nat) : Int)) := by push_cast; ring
    rw [e1, pow2_add, pow2_natCast, pow2_eq, zpow_neg, zpow_natCast, ← div_eq_mul_inv, hq]
    have h1 : (n : ℚ) < ((2 ^ (natLog2 n + 1) : Nat) : ℚ) := by exact_mod_cast hn2
    have h2 : (2 : ℚ) ^ natLog2 d ≤ (d : ℚ) := by exact_mod_cast hd1
    calc (n : ℚ) / (d : ℚ) ≤ (n : ℚ) / (2 : ℚ) ^ natLog2 d :=
          div_le_div_of_nonneg_left (by positivity) h3 h2
      _ < ((2 ^ (natLog2 n + 1) : Nat) : ℚ) / (2 : ℚ) ^ natLog2 d :=
          div_lt_div_of_pos_right h1 h3

/-- The exponent `ilog2 q` is that of the leading binary digit of `q`. -/
theorem ilog2_spec (q : ℚ) (hq : 0 < q) : pow2 (ilog2 q) ≤ q ∧ q < pow2 (ilog2 q + 1) := by
  have hnum : 0 < q.num := Rat.num_pos.mpr hq
  obtain ⟨n, hn⟩ := Int.eq_ofNat_of_zero_le (le_of_lt hnum)
  have hn0 : 0 < n := by
    rw [hn] at hnum
    exact_mod_cast hnum
  have hnat : q.num.toNat = n := by rw [hn]; rfl
  have hqeq : q = (n : ℚ) / (q.den : ℚ) := by
    have h1 : ((q.num : Int) : ℚ) / (q.den : ℚ) = q := Rat.num_div_den q
    have h2 : ((q.num : Int) : ℚ) = (n : ℚ) := by rw [hn]; simp
    rw [h2] at h1
    exact h1.symm
  obtain ⟨hlow, hhigh⟩ := ilog2_aux q n q.den hn0 q.den_pos hqeq
  unfold ilog2
  simp only [hnat]
  by_cases hk : pow2 ((natLog2 n : Int) - (natLog2 q.den : Int)) ≤ q
  · rw [if_pos hk]
    exact ⟨hk, hhigh⟩
  · rw [if_neg hk]
    refine ⟨hlow, ?_⟩
    have : (natLog2 n : Int) - (natLog2 q.den : Int) - 1 + 1 =
        (natLog2 n : Int) - (natLog2 q.den : Int) := by ring
    rw [this]
    exact lt_of_not_le hk

theorem roundHalfEven_le (x : ℚ) (K : Int) (h : x ≤ K) : roundHalfEven x ≤ K := by
  have hf : Rat.floor x ≤ K := by
    have h1 : ((Rat.floor x : Int) : ℚ) ≤ x := Int.floor_le x
    exact_mod_cast le_trans h1 h
  have hstep : ¬ (x - (Rat.floor x : Int) < 1 / 2) → Rat.floor x + 1 ≤ K := by
    intro hd
    have h2 : ((Rat.floor x : Int) : ℚ) < K := by
      have : ((Rat.floor x : Int) : ℚ) < x := by
        by_contra hc
        have : x - (Rat.floor x : Int) ≤ 0 := by linarith [not_lt.mp hc]
        exact hd (by linarith)
      linarith
    have h3 : Rat.floor x < K := by exact_mod_cast h2
    omega
  unfold roundHalfEven
  simp only []
  split
  · exact hf
  · rename_i hd
    split
    · exact hstep hd
    · split
      · exact hf
      · exact hstep hd

theorem le_roundHalfEven (x : ℚ) (K : Int) (h : (K : ℚ) ≤ x) : K ≤ roundHalfEven x := by
  have hf : K ≤ Rat.floor x := Rat.le_floor.mpr h
  unfold roundHalfEven
  simp only []
  split
  · exact hf
  · split
    · omega
    · split
      · exact hf
      · omega

theorem pow2_lt_iff {a b : Int} (h : pow2 a < pow2 b) : a < b := by
  by_contra hc
  exact absurd (pow2_mono (not_lt.mp hc)) (not_le.mpr h)

theorem roundNE_of_pos (prec : Nat) (emin emax : Int) (q : ℚ) (hq : 0 < q) :
    roundNE prec emin emax q =
      if pow2 (emax + 1) ≤
          (roundHalfEven (q / pow2 (max (ilog2 q) emin - ((prec : Int) - 1))) : ℚ) *
            pow2 (max (ilog2 q) emin - ((prec : Int) - 1)) then none
      else some ((roundHalfEven (q / pow2 (max (ilog2 q) emin - ((prec : Int) - 1))) : ℚ) *
            pow2 (max (ilog2 q) emin - ((prec : Int) - 1))) := by
  unfold roundNE
  rw [if_neg (not_le.mpr hq)]

/-- Rounding does not step over a number of the grid above: if `q ≤ c` and `c = k * 2^j` lies
on the grid that `q` is rounded to, the rounded value is at most `c`. -/
theorem roundNE_le (prec : Nat) (emin emax : Int) (q c : ℚ) (k : Nat) (j : Int)
    (hq : 0 < q) (hqc : q ≤ c) (hc : c = (k : ℚ) * pow2 j)
    (hj : max (ilog2 q) emin - ((prec : Int) - 1) ≤ j) (hmax : c < pow2 (emax + 1)) :
    ∃ r, roundNE prec emin emax q = some r ∧ 0 ≤ r ∧ r ≤ c := by
  obtain ⟨t, ht⟩ := Int.eq_ofNat_of_zero_le (Int.sub_nonneg.mpr hj)
  have hu := pow2_pos (max (ilog2 q) emin - ((prec : Int) - 1))
  have hcu : c = (((k * 2 ^ t : Nat) : Int) : ℚ) *
      pow2 (max (ilog2 q) emin - ((prec : Int) - 1)) := by
    have e1 : j = (t : Int) + (max (ilog2 q) emin - ((prec : Int) - 1)) := by omega
    rw [hc, e1, pow2_add, pow2_natCast]
    push_cast
    ring
  have hle : roundHalfEven (q / pow2 (max (ilog2 q) emin - ((prec : Int) - 1))) ≤
      ((k * 2 ^ t : Nat) : Int) := by
    apply roundHalfEven_le
    rw [div_le_iff₀ hu, ← hcu]
    exact hqc
  have hge : (0 : Int) ≤ roundHalfEven (q / pow2 (max (ilog2 q) emin - ((prec : Int) - 1))) := by
    apply le_roundHalfEven
    simp only [Int.cast_zero]
    exact div_nonneg (le_of_lt hq) (le_of_lt hu)
  have hr : (roundHalfEven (q / pow2 (max (ilog2 q) emin - ((prec : Int) - 1))) : ℚ) *
      pow2 (max (ilog2 q) emin - ((prec : Int) - 1)) ≤ c := by
    rw [hcu]
    exact mul_le_mul_of_nonneg_right (by exact_mod_cast hle) (le_of_lt hu)
  refine ⟨_, ?_, ?_, hr⟩
  · rw [roundNE_of_pos prec emin emax q hq, if_neg]
    exact not_le.mpr (lt_of_le_of_lt hr hmax)
  · exact mul_nonneg (by exact_mod_cast hge) (le_of_lt hu)

/-- Rounding does not step over a representable number below: if `c ≤ q` and `c = k * 2^j` is
representable (`k < 2^prec`, `j` not below the finest exponent), every rounded value of `q`
is at least `c`. -/
theorem roundNE_ge (prec : Nat) (emin emax : Int) (q c r : ℚ) (k : Nat) (j : Int)
    (hprec : 1 ≤ prec) (hc0 : 0 < c) (hcq : c ≤ q) (hc : c = (k : ℚ) * pow2 j)
    (hk : k < 2 ^ prec) (hj : emin - ((prec : Int) - 1) ≤ j)
    (hr : roundNE prec emin emax q = some r) : c ≤ r := by
  have hq : 0 < q := lt_of_lt_of_le hc0 hcq
  have hu := pow2_pos (max (ilog2 q) emin - ((prec : Int) - 1))
  rw [roundNE_of_pos prec emin emax q hq] at hr
  split at hr
  · cases hr
  · simp only [Option.some.injEq] at hr
    rw [← hr]
    by_cases hcase : max (ilog2 q) emin - ((prec : Int) - 1) ≤ j
    · obtain ⟨t, ht⟩ := Int.eq_ofNat_of_zero_le (Int.sub_nonneg.mpr hcase)
      have hcu : c = (((k * 2 ^ t : Nat) : Int) : ℚ) *
          pow2 (max (ilog2 q) emin - ((prec : Int) - 1)) := by
        have e1 : j = (t : Int) + (max (ilog2 q) emin - ((prec : Int) - 1)) := by omega
        rw [hc, e1, pow2_add, pow2_natCast]
        push_cast
        ring
      have hle : ((k * 2 ^ t : Nat) : Int) ≤
          roundHalfEven (q / pow2 (max (ilog2 q) emin - ((prec : Int) - 1))) := by
        apply le_roundHalfEven
        rw [le_div_iff₀ hu, ← hcu]
        exact hcq
      rw [hcu]
      exact mul_le_mul_of_nonneg_right (by exact_mod_cast hle) (le_of_lt hu)
    · have hcase1 : j < max (ilog2 q) emin - ((prec : Int) - 1) := not_le.mp hcase
      have hmax : max (ilog2 q) emin = ilog2 q := by
        rcases le_total (ilog2 q) emin with h | h
        · rw [max_eq_right h] at hcase1
          omega
        · exact max_eq_left h
      rw [hmax] at hcase1 ⊢
      have hle : (((2 ^ (prec - 1) : Nat) : Int)) ≤
          roundHalfEven (q / pow2 (ilog2 q - ((prec : Int) - 1))) := by
        apply le_roundHalfEven
        rw [le_div_iff₀ (pow2_pos _)]
        have e1 : (((2 ^ (prec - 1) : Nat) : Int) : ℚ) = pow2 ((prec - 1 : Nat) : Int) := by
          rw [pow2_natCast]
          push_cast
          rfl
        rw [e1, ← pow2_add]
        have e2 : ((prec - 1 : Nat) : Int) + (ilog2 q - ((prec : Int) - 1)) = ilog2 q := by
          omega
        rw [e2]
        exact (ilog2_spec q hq).1
      have hstep : c < (((2 ^ (prec - 1) : Nat) : Int) : ℚ) *
          pow2 (ilog2 q - ((prec : Int) - 1)) := by
        have e1 : (((2 ^ (prec - 1) : Nat) : Int) : ℚ) = pow2 ((prec - 1 : Nat) : Int) := by
          rw [pow2_natCast]
          push_cast
          rfl
        rw [e1, ← pow2_add]
        have e2 : ((prec - 1 : Nat) : Int) + (ilog2 q - ((prec : Int) - 1)) = ilog2 q := by
          omega
        rw [e2, hc]
        have h1 : (k : ℚ) < pow2 (prec : Int) := by
          rw [pow2_natCast]
          exact_mod_cast hk
        have h2 : pow2 (prec : Int) * pow2 j ≤ pow2 (ilog2 q) := by
          rw [← pow2_add]
          exact pow2_mono (by omega)
        calc (k : ℚ) * pow2 j < pow2 (prec : Int) * pow2 j :=
              mul_lt_mul_of_pos_right h1 (pow2_pos j)
          _ ≤ pow2 (ilog2 q) := h2
      exact le_trans (le_of_lt hstep)
        (mul_le_mul_of_nonneg_right (by exact_mod_cast hle) (le_of_lt (pow2_pos _)))

/-! ### The metric `AVG` -/

theorem lit_of_nonneg (q : ℚ) (h : 0 ≤ q) : Fl.lit q = Fl.num false (some q) := by
  unfold Fl.lit
  rw [decide_eq_false (not_lt.mpr h), abs_of_nonneg h]

theorem exact_div (a b : ℚ) (hb : b ≠ 0) :
    Fl.div exactArith.round32 (Fl.num false (some a)) (Fl.num false (some b)) =
      Fl.num false (some (a / b)) := by
  simp only [Fl.div, if_neg hb]
  rfl

theorem exact_add (a b : ℚ) (ha : 0 ≤ a) (hb : 0 ≤ b) :
    Fl.add exactArith.round32 (Fl.num false (some a)) (Fl.num false (some b)) =
      Fl.num false (some (a + b)) := by
  have hab : 0 ≤ a + b := add_nonneg ha hb
  simp only [Fl.add, Bool.false_eq_true, if_false, Bool.and_self]
  split
  · rename_i h0
    rw [h0]
  · simp only [Fl.round, decide_eq_false (not_lt.mpr hab), abs_of_nonneg hab]
    rfl

theorem exact_foldl (vs : List (Nat × ℚ)) (hpos : ∀ p ∈ vs, 0 < p.2) :
    ∀ a : ℚ, 0 ≤ a →
      (vs.map (fun p => (p.1, Fl.num false (some p.2)))).foldl
        (fun acc p => Fl.add exactArith.round32 acc
          (Fl.div exactArith.round32 (Fl.lit 1000) p.2)) (Fl.num false (some a)) =
        Fl.num false (some (a + (vs.map (fun p => 1000 / p.2)).sum)) := by
  induction vs with
  | nil =>
    intro a _
    simp
  | cons v vs ih =>
    intro a ha
    have hv : 0 < v.2 := hpos v (List.mem_cons_self _ _)
    have hterm : (0 : ℚ) ≤ 1000 / v.2 := div_nonneg (by norm_num) (le_of_lt hv)
    simp only [List.map_cons, List.foldl_cons, List.sum_cons]
    rw [lit_of_nonneg 1000 (by norm_num), exact_div 1000 v.2 (ne_of_gt hv),
      exact_add a _ ha hterm]
    have := ih (fun p hp => hpos p (List.mem_cons_of_mem _ hp)) (a + 1000 / v.2)
      (add_nonneg ha hterm)
    rw [lit_of_nonneg 1000 (by norm_num)] at this
    rw [this, add_assoc]

theorem sum_pos_of_pos (vs : List (Nat × ℚ)) (hne : vs ≠ []) (hpos : ∀ p ∈ vs, 0 < p.2)
    (c : ℚ) (hc : 0 < c) : 0 < (vs.map (fun p => c / p.2)).sum := by
  induction vs with
  | nil => exact absurd rfl hne
  | cons v vs ih =>
    have hv : 0 < v.2 := hpos v (List.mem_cons_self _ _)
    simp only [List.map_cons, List.sum_cons]
    by_cases hvs : vs = []
    · subst hvs
      simpa using div_pos hc hv
    · exact add_pos (div_pos hc hv) (ih hvs (fun p hp => hpos p (List.mem_cons_of_mem _ hp)))

/-- In exact arithmetic the average of positive samples is `1000 / (mean of 1000 / v)`. -/
theorem exact_average (vs : List (Nat × ℚ)) (hne : vs ≠ []) (hpos : ∀ p ∈ vs, 0 < p.2) :
    average exactArith (vs.map (fun p => (p.1, Fl.num false (some p.2)))) =
      Fl.num false (some (1000 / ((vs.map (fun p => 1000 / p.2)).sum / (vs.length : ℚ)))) := by
  have hS := sum_pos_of_pos vs hne hpos 1000 (by norm_num)
  have hlen : (0 : ℚ) < (vs.length : ℚ) := by
    have : 0 < vs.length := List.length_pos.mpr hne
    exact_mod_cast this
  unfold average
  simp only [List.length_map]
  rw [lit_of_nonneg 0 (le_refl 0), exact_foldl vs hpos 0 (le_refl 0), zero_add]
  have hof : Fl.ofNat exactArith.round32 vs.length = Fl.num false (some (vs.length : ℚ)) := rfl
  rw [hof, exact_div _ _ (ne_of_gt hlen), lit_of_nonneg 1000 (by norm_num),
    exact_div _ _ (ne_of_gt (div_pos hS hlen))]

theorem harmonic_mean_eq (vs : List (Nat × ℚ)) (hne : vs ≠ []) (hpos : ∀ p ∈ vs, 0 < p.2) :
    1000 / ((vs.map (fun p => 1000 / p.2)).sum / (vs.length : ℚ)) =
      (vs.length : ℚ) / (vs.map (fun p => 1 / p.2)).sum := by
  have hT := sum_pos_of_pos vs hne hpos 1 (by norm_num)
  have hsum : (vs.map (fun p => 1000 / p.2)).sum = 1000 * (vs.map (fun p => 1 / p.2)).sum := by
    clear hne hpos hT
    induction vs with
    | nil => simp
    | cons v vs ih =>
      simp only [List.map_cons, List.sum_cons, ih]
      ring
  have hlen : (0 : ℚ) < (vs.length : ℚ) := by
    have : 0 < vs.length := List.length_pos.mpr hne
    exact_mod_cast this
  rw [hsum]
  field_simp
  ring

theorem calculate_of_walk (P : Platform) (s : fpsMetrics) (pre pre1 rest : List metric_t)
    (hsort : sortable (s.fps_stats.map Prod.snd) = true)
    (hms : s.metrics = pre ++ rest)
    (hpre : walk P s.fps_stats (ascending (s.fps_stats.map Prod.snd)) pre = some pre1) :
    calculate P s =
      (loop P s.fps_stats (ascending (s.fps_stats.map Prod.snd)) rest).map
        (fun ms => { s with metrics := pre1 ++ ms }) := by
  rw [calculate_of_sortable P s hsort, hms, loop_append_of_walk P _ _ pre pre1 rest hpre,
    Outcome.map_map]

/-- A cycle that reaches an `AVG` entry over a window that is not empty gives it the display
name `AVG` and the value `average`, and goes on with the next entry. -/
theorem calculate_avg (P : Platform) (s : fpsMetrics) (pre pre1 post : List metric_t)
    (m : metric_t) (hsort : sortable (s.fps_stats.map Prod.snd) = true)
    (hms : s.metrics = pre ++ m :: post) (hne : s.fps_stats ≠ [])
    (hpre : walk P s.fps_stats (ascending (s.fps_stats.map Prod.snd)) pre = some pre1)
    (hname : m.name = "AVG") :
    calculate P s =
      (loop P s.fps_stats (ascending (s.fps_stats.map Prod.snd)) post).map
        (fun ms => { s with metrics :=
          pre1 ++ { m with display_name := "AVG", value := average P s.fps_stats } :: ms }) := by
  have hemp : s.fps_stats.isEmpty = false := by
    cases hfs : s.fps_stats with
    | nil => exact absurd hfs hne
    | cons a l => rfl
  have hv : visit P s.fps_stats (ascending (s.fps_stats.map Prod.snd)) m =
      Step.next { m with display_name := "AVG", value := average P s.fps_stats } := by
    rw [visit_avg P s.fps_stats (ascending (s.fps_stats.map Prod.snd)) m hname, hemp]
    simp only [Bool.false_eq_true, if_false, hname]
  rw [calculate_of_walk P s pre pre1 (m :: post) hsort hms hpre, loop_cons_next P _ _ m _ post hv,
    Outcome.map_map]

/-- C1, refuted as stated: on the window `[60, 60, 60]` a cycle of the binary32 engine sets
`AVG` to `15728641 / 262144 = 60.000003814697265625`, not to 60 (the quotient `1000.f / 60`
is rounded, and so is the final quotient). -/
theorem c1_average_counterexample :
    calculate ieee
      { fps_stats := [(1, Fl.lit 60), (2, Fl.lit 60), (3, Fl.lit 60)], run := false,
        thread_init := false, terminate := false, resetting := false,
        metrics := add_metrics_to_vector ["AVG"] } =
      Outcome.returned
        { fps_stats := [(1, Fl.lit 60), (2, Fl.lit 60), (3, Fl.lit 60)], run := false,
          thread_init := false, terminate := false, resetting := false,
          metrics := [{ name := "AVG", value := Fl.num false (some (15728641 / 262144)),
                        display_name := "AVG" }] } ∧
    Fl.feq (Fl.num false (some (15728641 / 262144))) (Fl.lit 60) = false ∧
    (15728641 / 262144 : ℚ) = 60 + 1 / 262144 := by
  decide!

/-- C1, amended: a cycle that reaches the metric `AVG` over a window that is not empty (and
that `std::sort` can order, as every window of positive values is) sets its
value to `1000.f / (sum / size)`, where `sum` accumulates `1000.f / value` over the window,
every operation being a `float` operation. In exact arithmetic (no rounding) this is, for
positive samples, `1000 / ((sum of 1000 / v_i) / N)`, the harmonic mean `N / (sum of
1 / v_i)`, which is 40 on `[30, 60]` and 60 on `[60, 60, 60]`. In binary32 arithmetic each
operation rounds: the window `[30, 60]` gives exactly 40, the window `[60, 60, 60]` gives
`60 + 2^-18`. -/
theorem c1_average :
    (∀ (P : Platform) (s : fpsMetrics) (pre pre1 post : List metric_t) (m : metric_t),
      sortable (s.fps_stats.map Prod.snd) = true →
      s.metrics = pre ++ m :: post → s.fps_stats ≠ [] →
      walk P s.fps_stats (ascending (s.fps_stats.map Prod.snd)) pre = some pre1 →
      m.name = "AVG" →
      calculate P s =
        (loop P s.fps_stats (ascending (s.fps_stats.map Prod.snd)) post).map
          (fun ms => { s with metrics :=
            pre1 ++ { m with display_name := "AVG", value := average P s.fps_stats } :: ms })) ∧
    (∀ vs : List (Nat × ℚ), vs ≠ [] → (∀ p ∈ vs, 0 < p.2) →
      sortable ((vs.map (fun p => (p.1, Fl.num false (some p.2)))).map Prod.snd) = true ∧
      average exactArith (vs.map (fun p => (p.1, Fl.num false (some p.2)))) =
        Fl.num false (some (1000 / ((vs.map (fun p => 1000 / p.2)).sum / (vs.length : ℚ)))) ∧
      1000 / ((vs.map (fun p => 1000 / p.2)).sum / (vs.length : ℚ)) =
        (vs.length : ℚ) / (vs.map (fun p => 1 / p.2)).sum) ∧
    average exactArith [(1, Fl.num false (some 30)), (2, Fl.num false (some 60))] =
      Fl.num false (some 40) ∧
    average exactArith [(1, Fl.num false (some 60)), (2, Fl.num false (some 60)),
      (3, Fl.num false (some 60))] = Fl.num false (some 60) ∧
    average ieee [(1, Fl.num false (some 30)), (2, Fl.num false (some 60))] =
      Fl.num false (some 40) ∧
    average ieee [(1, Fl.num false (some 60)), (2, Fl.num false (some 60)),
      (3, Fl.num false (some 60))] = Fl.num false (some (60 + 1 / 262144)) := by
  refine ⟨calculate_avg, ?_, by decide!, by decide!, by decide!, by decide!⟩
  intro vs hne hpos
  refine ⟨?_, exact_average vs hne hpos, harmonic_mean_eq vs hne hpos⟩
  have h := sortable_of_rat (vs.map Prod.snd)
  simpa only [List.map_map, Function.comp_def] using h

/-- C1 amended, at a concrete engine: the registry `AVG` over the window `[30, 60]`. -/
theorem c1_average_witness :
    calculate ieee
      { fps_stats := [(1, Fl.lit 30), (2, Fl.lit 60)], run := false, thread_init := false,
        terminate := false, resetting := false,
        metrics := [{ name := "AVG", value := Fl.lit 0, display_name := "" }] } =
      Outcome.returned
        { fps_stats := [(1, Fl.lit 30), (2, Fl.lit 60)], run := false, thread_init := false,
          terminate := false, resetting := false,
          metrics := [{ name := "AVG", value := Fl.lit 40, display_name := "AVG" }] } :=
  (c1_average.1 ieee
    { fps_stats := [(1, Fl.lit 30), (2, Fl.lit 60)], run := false, thread_init := false,
      terminate := false, resetting := false,
      metrics := [{ name := "AVG", value := Fl.lit 0, display_name := "" }] }
    [] [] [] { name := "AVG", value := Fl.lit 0, display_name := "" } (by decide!) rfl
    (by decide) rfl rfl).trans (by decide!)

/-! ### Percentiles -/

theorem le_total_of_ne_nan (a b : Fl) (ha : a ≠ Fl.nan) (hb : b ≠ Fl.nan) :
    Fl.le a b = true ∨ Fl.le b a = true := by
  cases a with
  | nan => exact absurd rfl ha
  | num s x =>
    cases b with
    | nan => exact absurd rfl hb
    | num t y =>
      simp only [Fl.le, decide_eq_true_eq]
      rcases lt_trichotomy (Fl.key s x).1 (Fl.key t y).1 with h | h | h
      · exact Or.inl (Or.inl h)
      · rcases le_total (Fl.key s x).2 (Fl.key t y).2 with h2 | h2
        · exact Or.inl (Or.inr ⟨h, h2⟩)
        · exact Or.inr (Or.inr ⟨h.symm, h2⟩)
      · exact Or.inr (Or.inl h)

theorem le_trans_fl (a b c : Fl) (hab : Fl.le a b = true) (hbc : Fl.le b c = true) :
    Fl.le a c = true := by
  cases a with
  | nan => simp [Fl.le] at hab
  | num s x =>
    cases b with
    | nan => simp [Fl.le] at hab
    | num t y =>
      cases c with
      | nan => simp [Fl.le] at hbc
      | num u z =>
        simp only [Fl.le, decide_eq_true_eq] at hab hbc ⊢
        rcases hab with h1 | ⟨h1, h2⟩
        · rcases hbc with h3 | ⟨h3, _⟩
          · exact Or.inl (lt_trans h1 h3)
          · exact Or.inl (h3 ▸ h1)
        · rcases hbc with h3 | ⟨h3, h4⟩
          · exact Or.inl (h1 ▸ h3)
          · exact Or.inr ⟨h1.trans h3, le_trans h2 h4⟩

theorem ascending_perm (vs : List Fl) : (ascending vs).Perm vs :=
  List.perm_insertionSort _ vs

theorem ascending_length (vs : List Fl) : (ascending vs).length = vs.length :=
  List.length_insertionSort _ vs

theorem orderedInsert_pairwise (a : Fl) (l : List Fl) (ha : a ≠ Fl.nan)
    (hl : ∀ b ∈ l, b ≠ Fl.nan) (hs : l.Pairwise (fun x y => Fl.le x y = true)) :
    (l.orderedInsert (fun x y => Fl.le x y = true) a).Pairwise (fun x y => Fl.le x y = true) := by
  induction l with
  | nil => simp
  | cons b l ih =>
    have hb : b ≠ Fl.nan := hl b (List.mem_cons_self _ _)
    have hl1 : ∀ c ∈ l, c ≠ Fl.nan := fun c hc => hl c (List.mem_cons_of_mem _ hc)
    obtain ⟨hbl, hsl⟩ := List.pairwise_cons.mp hs
    simp only [List.orderedInsert]
    split
    · rename_i hab
      refine List.pairwise_cons.mpr ⟨?_, hs⟩
      intro x hx
      rcases List.mem_cons.mp hx with rfl | hx
      · exact hab
      · exact le_trans_fl a b x hab (hbl x hx)
    · rename_i hab
      have hba : Fl.le b a = true := by
        rcases le_total_of_ne_nan a b ha hb with h | h
        · exact absurd h hab
        · exact h
      refine List.pairwise_cons.mpr ⟨?_, ih hl1 hsl⟩
      intro x hx
      rcases (List.mem_orderedInsert _).mp hx with rfl | hx
      · exact hba
      · exact hbl x hx

/-- The sorted values are in ascending order when the window holds no NaN. -/
theorem ascending_sorted (vs : List Fl) (h : ∀ v ∈ vs, v ≠ Fl.nan) :
    (ascending vs).Pairwise (fun x y => Fl.le x y = true) := by
  induction vs with
  | nil => exact List.Pairwise.nil
  | cons v vs ih =>
    have hv : v ≠ Fl.nan := h v (List.mem_cons_self _ _)
    have hvs : ∀ c ∈ vs, c ≠ Fl.nan := fun c hc => h c (List.mem_cons_of_mem _ hc)
    show ((ascending vs).orderedInsert (fun x y => Fl.le x y = true) v).Pairwise _
    refine orderedInsert_pairwise v (ascending vs) hv ?_ (ih hvs)
    intro b hb
    exact hvs b ((ascending_perm vs).subset hb)

theorem lt_le_trans_fl (a b c : Fl) (hab : Fl.lt a b = true) (hbc : Fl.le b c = true) :
    Fl.lt a c = true := by
  cases a with
  | nan => simp [Fl.lt] at hab
  | num s x =>
    cases b with
    | nan => simp [Fl.lt] at hab
    | num t y =>
      cases c with
      | nan => simp [Fl.le] at hbc
      | num u z =>
        simp only [Fl.lt, Fl.le, decide_eq_true_eq] at hab hbc ⊢
        rcases hab with h1 | ⟨h1, h2⟩
        · rcases hbc with h3 | ⟨h3, _⟩
          · exact Or.inl (lt_trans h1 h3)
          · exact Or.inl (by rw [← h3]; exact h1)
        · rcases hbc with h3 | ⟨h3, h4⟩
          · exact Or.inl (by rw [h1]; exact h3)
          · exact Or.inr ⟨h1.trans h3, lt_of_lt_of_le h2 h4⟩

theorem le_of_lt_fl (a b : Fl) (h : Fl.lt a b = true) : Fl.le a b = true := by
  cases a with
  | nan => simp [Fl.lt] at h
  | num s x =>
    cases b with
    | nan => simp [Fl.lt] at h
    | num t y =>
      simp only [Fl.lt, Fl.le, decide_eq_true_eq] at h ⊢
      rcases h with h1 | ⟨h1, h2⟩
      · exact Or.inl h1
      · exact Or.inr ⟨h1, le_of_lt h2⟩

theorem lt_irrefl_fl (a : Fl) : Fl.lt a a = false := by
  cases a with
  | nan => rfl
  | num s x =>
    simp only [Fl.lt, decide_eq_false_iff_not]
    intro h
    rcases h with h | ⟨_, h⟩
    · exact absurd h (lt_irrefl _)
    · exact absurd h (lt_irrefl _)

theorem not_lt_of_le_fl (a b : Fl) (h : Fl.le a b = true) : Fl.lt b a = false := by
  cases hba : Fl.lt b a with
  | false => rfl
  | true =>
    have := lt_le_trans_fl b a b hba h
    rw [lt_irrefl_fl] at this
    cases this

/-- In the sorted values no element exceeds a later one, whatever the window holds: the
insertion passes a new value over the elements it is not `<=` to. -/
theorem ascending_not_gt (vs : List Fl) :
    (ascending vs).Pairwise (fun x y => Fl.lt y x = false) := by
  have hins : ∀ (a : Fl) (l : List Fl), l.Pairwise (fun x y => Fl.lt y x = false) →
      (l.orderedInsert (fun x y => Fl.le x y = true) a).Pairwise
        (fun x y => Fl.lt y x = false) := by
    intro a l
    induction l with
    | nil =>
      intro _
      simp
    | cons b l ih =>
      intro hs
      rw [List.pairwise_cons] at hs
      rw [List.orderedInsert]
      split
      · rename_i hab
        rw [List.pairwise_cons]
        refine ⟨?_, List.pairwise_cons.mpr hs⟩
        intro x hx
        rcases List.mem_cons.mp hx with hx | hx
        · rw [hx]
          exact not_lt_of_le_fl a b hab
        · cases hxa : Fl.lt x a with
          | false => rfl
          | true =>
            have := lt_le_trans_fl x a b hxa hab
            rw [hs.1 x hx] at this
            cases this
      · rename_i hab
        rw [List.pairwise_cons]
        refine ⟨?_, ih hs.2⟩
        intro x hx
        rw [List.mem_orderedInsert] at hx
        rcases hx with hx | hx
        · rw [hx]
          cases hlt : Fl.lt a b with
          | false => rfl
          | true => exact absurd (le_of_lt_fl a b hlt) hab
        · exact hs.1 x hx
  unfold ascending
  induction vs with
  | nil => simp
  | cons v vs ih =>
    rw [List.insertionSort]
    exact hins v _ ih

/-- The ascending values of a list that can be ordered: of two places, the earlier holds the
same value as the later or a smaller one. -/
theorem ascending_strict (vs : List Fl) (h : sortable vs = true) :
    (ascending vs).Pairwise (fun x y => x = y ∨ Fl.lt x y = true) := by
  rw [sortable_iff] at h
  refine List.Pairwise.imp_of_mem ?_ (ascending_not_gt vs)
  intro x y hx hy hxy
  have hx1 := (ascending_perm vs).subset hx
  have hy1 := (ascending_perm vs).subset hy
  rcases h x hx1 y hy1 with h1 | h1 | h1
  · exact Or.inl h1
  · exact Or.inr h1
  · rw [hxy] at h1
    cases h1

theorem visit_percentile (P : Platform) (fs : List (Nat × Fl)) (sv : List Fl) (m : metric_t)
    (val : Fl) (label : String) (idx : Nat) (hn : m.name ≠ "AVG")
    (hs : P.stof m.name = StofResult.value val)
    (h0 : Fl.le val (Fl.lit 0) = false) (h1 : Fl.le (Fl.lit 1) val = false)
    (hl : percentLabel P val = some label) (hi : percentileIndex P val sv.length = some idx)
    (h : idx < sv.length) :
    visit P fs sv m = Step.next { m with display_name := label, value := sv[idx] } := by
  rw [visit_of_ne P fs sv m hn, hs]
  simp only [h0, h1, Bool.or_self, Bool.false_eq_true, if_false, hl, hi, dif_pos h]

theorem visit_percentile_stop (P : Platform) (fs : List (Nat × Fl)) (sv : List Fl)
    (m : metric_t) (val : Fl) (label : String) (idx : Nat) (hn : m.name ≠ "AVG")
    (hs : P.stof m.name = StofResult.value val)
    (h0 : Fl.le val (Fl.lit 0) = false) (h1 : Fl.le (Fl.lit 1) val = false)
    (hl : percentLabel P val = some label) (hi : percentileIndex P val sv.length = some idx)
    (h : ¬ idx < sv.length) :
    visit P fs sv m = Step.stop { m with display_name := label } := by
  rw [visit_of_ne P fs sv m hn, hs]
  simp only [h0, h1, Bool.or_self, Bool.false_eq_true, if_false, hl, hi, dif_neg h]

/-- A fraction strictly between 0 and 1 passes the range check of line 68. -/
theorem range_check_of_fraction (p : ℚ) (hp0 : 0 < p) (hp1 : p < 1) :
    Fl.le (Fl.num false (some p)) (Fl.lit 0) = false ∧
    Fl.le (Fl.lit 1) (Fl.num false (some p)) = false := by
  rw [lit_of_nonneg 0 (le_refl 0), lit_of_nonneg 1 (by norm_num)]
  constructor
  · simp only [Fl.le, Fl.key, Bool.false_eq_true, if_false, decide_eq_false_iff_not]
    intro h
    rcases h with h | ⟨_, h⟩
    · exact absurd h (lt_irrefl _)
    · exact absurd h (not_le.mpr hp0)
  · simp only [Fl.le, Fl.key, Bool.false_eq_true, if_false, decide_eq_false_iff_not]
    intro h
    rcases h with h | ⟨_, h⟩
    · exact absurd h (lt_irrefl _)
    · exact absurd h (not_le.mpr hp1)

/-- In exact arithmetic the index of line 81 is `floor (p * N) - 1` as soon as `p * N ≥ 1`. -/
theorem exact_percentileIndex (P : Platform) (hP : P.round32 = some) (p : ℚ) (N : Nat)
    (hp1 : p < 1) (hN : N < 2 ^ 64) (h1 : 1 ≤ ⌊p * (N : ℚ)⌋) :
    percentileIndex P (Fl.num false (some p)) N = some (⌊p * (N : ℚ)⌋ - 1).toNat := by
  have hpN : (1 : ℚ) ≤ p * (N : ℚ) := by
    have h2 : ((1 : Int) : ℚ) ≤ p * (N : ℚ) := Int.le_floor.mp h1
    simpa using h2
  have hx : (0 : ℚ) ≤ p * (N : ℚ) + -1 := by linarith
  have hfl : ⌊p * (N : ℚ) + -1⌋ = ⌊p * (N : ℚ)⌋ - 1 := by
    have : p * (N : ℚ) + -1 = p * (N : ℚ) - 1 := by ring
    rw [this, Int.floor_sub_one]
  have hN0 : (0 : ℚ) ≤ (N : ℚ) := Nat.cast_nonneg N
  have hlt : ⌊p * (N : ℚ)⌋ - 1 < (2 : Int) ^ 64 := by
    have h3 : p * (N : ℚ) ≤ (N : ℚ) := by nlinarith
    have h4 : ⌊p * (N : ℚ)⌋ ≤ (N : Int) := by
      have := Int.floor_le (p * (N : ℚ))
      have h5 : ((⌊p * (N : ℚ)⌋ : Int) : ℚ) ≤ ((N : Int) : ℚ) := by
        push_cast
        linarith
      exact_mod_cast h5
    have h6 : (N : Int) < (2 : Int) ^ 64 := by exact_mod_cast hN
    omega
  unfold percentileIndex
  rw [hP, lit_of_nonneg 1 (by norm_num)]
  simp only [Fl.ofNat, Fl.mul, Fl.sub, Fl.neg, Fl.add, Bool.xor_false, Bool.not_false,
    Bool.false_eq_true, if_false, if_true, Bool.false_and]
  split
  · rename_i h0
    simp only [Fl.toUInt64, Fl.trunc, Bool.false_eq_true, if_false]
    have hz : ⌊p * (N : ℚ)⌋ - 1 = 0 := by
      rw [← hfl, h0]
      simp
    rw [hz]
    have hf0 : Rat.floor 0 = 0 := (Int.floor_zero : ⌊(0 : ℚ)⌋ = 0)
    rw [hf0]
    rfl
  · simp only [Fl.round, decide_eq_false (not_lt.mpr hx), abs_of_nonneg hx, Fl.toUInt64,
      Fl.trunc, Bool.false_eq_true, if_false]
    have : Rat.floor (p * (N : ℚ) + -1) = ⌊p * (N : ℚ)⌋ - 1 := hfl
    rw [this, Int.emod_eq_of_lt (by omega) hlt]

/-- The display name of a percentile when the platform rounds `p * 100` to a value between 0
and 100 and converts the integers up to 100 exactly: no decimals when the product is an
integer, one decimal otherwise. -/
theorem percentLabel_of_fraction (P : Platform)
    (hP : ∀ q : ℚ, 0 < q → q < 100 → ∃ a, P.round32 q = some a ∧ 0 ≤ a ∧ a ≤ 100)
    (hI : ∀ i : Nat, i ≤ 100 → P.round32 (i : ℚ) = some (i : ℚ))
    (p : ℚ) (hp0 : 0 < p) (hp1 : p < 1) :
    ∃ pct : ℚ, P.round32 (p * 100) = some pct ∧ 0 ≤ pct ∧ pct ≤ 100 ∧
      percentLabel P (Fl.num false (some p)) =
        some ((if pct = (⌊pct⌋ : ℚ) then fmtFixed 0 (Fl.num false (some pct))
               else fmtFixed 1 (Fl.num false (some pct))) ++ "%") := by
  obtain ⟨a, ha, ha0, ha100⟩ := hP (p * 100) (by linarith) (by linarith)
  refine ⟨a, ha, ha0, ha100, ?_⟩
  have hfl0 : 0 ≤ ⌊a⌋ := Int.floor_nonneg.mpr ha0
  have hfl100 : ⌊a⌋ ≤ 100 := by
    have h1 : ((⌊a⌋ : Int) : ℚ) ≤ ((100 : Int) : ℚ) := by
      have := Int.floor_le a
      push_cast
      linarith
    exact_mod_cast h1
  obtain ⟨n, hn⟩ := Int.eq_ofNat_of_zero_le hfl0
  have hn100 : n ≤ 100 := by omega
  have hmul : Fl.mul P.round32 (Fl.num false (some p)) (Fl.lit 100) = Fl.num false (some a) := by
    rw [lit_of_nonneg 100 (by norm_num)]
    simp only [Fl.mul, Bool.xor_false, ha]
  have htoInt : Fl.toInt (Fl.num false (some a)) = some ⌊a⌋ := by
    have hf : Rat.floor a = ⌊a⌋ := rfl
    simp only [Fl.toInt, Fl.trunc, Bool.false_eq_true, if_false, hf]
    rw [if_pos]
    constructor
    · have : -(2 : Int) ^ 31 ≤ 0 := by norm_num
      omega
    · have : (100 : Int) < (2 : Int) ^ 31 := by norm_num
      omega
  have hofInt : Fl.ofInt P.round32 ⌊a⌋ = Fl.num false (some ((⌊a⌋ : Int) : ℚ)) := by
    have hnn : (0 : ℚ) ≤ ((⌊a⌋ : Int) : ℚ) := by exact_mod_cast hfl0
    simp only [Fl.ofInt, Fl.round, decide_eq_false (not_lt.mpr hnn), abs_of_nonneg hnn]
    rw [hn]
    have := hI n hn100
    simpa using this
  unfold percentLabel
  simp only [hmul, htoInt, hofInt]
  by_cases hint : a = (⌊a⌋ : ℚ)
  · have hfeq : Fl.feq (Fl.num false (some a)) (Fl.num false (some ((⌊a⌋ : Int) : ℚ))) = true := by
      simp only [Fl.feq, Fl.key, Bool.false_eq_true, if_false, decide_eq_true_eq]
      rw [← hint]
    rw [hfeq, if_pos hint]
    rfl
  · have hfeq : Fl.feq (Fl.num false (some a)) (Fl.num false (some ((⌊a⌋ : Int) : ℚ))) = false := by
      simp only [Fl.feq, Fl.key, Bool.false_eq_true, if_false, decide_eq_false_iff_not]
      intro h
      exact hint (Prod.mk.inj h).2
    rw [hfeq, if_neg hint]
    rfl

theorem exact_round_fraction (P : Platform) (hP : P.round32 = some) :
    (∀ q : ℚ, 0 < q → q < 100 → ∃ a, P.round32 q = some a ∧ 0 ≤ a ∧ a ≤ 100) ∧
    (∀ i : Nat, i ≤ 100 → P.round32 (i : ℚ) = some (i : ℚ)) := by
  rw [hP]
  exact ⟨fun q h0 h1 => ⟨q, rfl, le_of_lt h0, le_of_lt h1⟩, fun i _ => rfl⟩

theorem binary32_small_nat : ∀ i : Nat, i ≤ 100 → binary32 (i : ℚ) = some (i : ℚ) := by
  decide!

theorem binary32_round_fraction (P : Platform) (hP : P.round32 = binary32) :
    (∀ q : ℚ, 0 < q → q < 100 → ∃ a, P.round32 q = some a ∧ 0 ≤ a ∧ a ≤ 100) ∧
    (∀ i : Nat, i ≤ 100 → P.round32 (i : ℚ) = some (i : ℚ)) := by
  rw [hP]
  refine ⟨?_, binary32_small_nat⟩
  intro q h0 h1
  have hlog : ilog2 q < 7 := by
    apply pow2_lt_iff
    calc pow2 (ilog2 q) ≤ q := (ilog2_spec q h0).1
      _ < 100 := h1
      _ < pow2 7 := by decide!
  have hc : (100 : ℚ) = ((25 : Nat) : ℚ) * pow2 2 := by decide!
  have hj : max (ilog2 q) (-126) - (((24 : Nat) : Int) - 1) ≤ 2 := by
    rcases le_total (ilog2 q) (-126) with h | h
    · rw [max_eq_right h]
      norm_num
    · rw [max_eq_left h]
      push_cast
      omega
  exact roundNE_le 24 (-126) 127 q 100 25 2 h0 (le_of_lt h1) hc hj (by decide!)

theorem sorted_length (s : fpsMetrics) :
    (ascending (s.fps_stats.map Prod.snd)).length = s.fps_stats.length := by
  rw [ascending_length, List.length_map]

/-- A cycle that reaches a percentile whose fraction passes the range check and whose index is
in range gives it its display name and the sorted value at that index, and goes on with the
next entry. -/
theorem calculate_percentile (P : Platform) (s : fpsMetrics) (pre pre1 post : List metric_t)
    (m : metric_t) (val : Fl) (label : String) (idx : Nat)
    (hsort : sortable (s.fps_stats.map Prod.snd) = true)
    (hms : s.metrics = pre ++ m :: post)
    (hpre : walk P s.fps_stats (ascending (s.fps_stats.map Prod.snd)) pre = some pre1)
    (hname : m.name ≠ "AVG") (hs : P.stof m.name = StofResult.value val)
    (h0 : Fl.le val (Fl.lit 0) = false) (h1 : Fl.le (Fl.lit 1) val = false)
    (hl : percentLabel P val = some label)
    (hi : percentileIndex P val s.fps_stats.length = some idx)
    (h : idx < (ascending (s.fps_stats.map Prod.snd)).length) :
    calculate P s =
      (loop P s.fps_stats (ascending (s.fps_stats.map Prod.snd)) post).map
        (fun ms => { s with metrics :=
          pre1 ++ { m with display_name := label,
                           value := (ascending (s.fps_stats.map Prod.snd))[idx] } :: ms }) := by
  rw [← sorted_length s] at hi
  have hv := visit_percentile P s.fps_stats _ m val label idx hname hs h0 h1 hl hi h
  rw [calculate_of_walk P s pre pre1 (m :: post) hsort hms hpre, loop_cons_next P _ _ m _ post hv,
    Outcome.map_map]

/-! ### Display names -/

theorem visit_percentile_undefined (P : Platform) (fs : List (Nat × Fl)) (sv : List Fl)
    (m : metric_t) (val : Fl) (label : String) (hn : m.name ≠ "AVG")
    (hs : P.stof m.name = StofResult.value val)
    (h0 : Fl.le val (Fl.lit 0) = false) (h1 : Fl.le (Fl.lit 1) val = false)
    (hl : percentLabel P val = some label) (hi : percentileIndex P val sv.length = none) :
    visit P fs sv m = Step.undefined := by
  rw [visit_of_ne P fs sv m hn, hs]
  simp only [h0, h1, Bool.or_self, Bool.false_eq_true, if_false, hl, hi]

theorem getElem?_append_cons (l1 l2 : List metric_t) (m : metric_t) :
    (l1 ++ m :: l2)[l1.length]? = some m := by
  rw [List.getElem?_append_right (Nat.le_refl _)]
  simp

/-- After a cycle that reached a percentile with a fraction in `(0,1)` and returned, the entry
is still there, under its name, with the label `label` that `percentLabel` yields. -/
theorem calculate_percentile_label (P : Platform) (s s1 : fpsMetrics)
    (pre pre1 post : List metric_t) (m : metric_t) (val : Fl) (label : String)
    (hms : s.metrics = pre ++ m :: post)
    (hpre : walk P s.fps_stats (ascending (s.fps_stats.map Prod.snd)) pre = some pre1)
    (hname : m.name ≠ "AVG") (hs : P.stof m.name = StofResult.value val)
    (h0 : Fl.le val (Fl.lit 0) = false) (h1 : Fl.le (Fl.lit 1) val = false)
    (hl : percentLabel P val = some label) (hret : calculate P s = Outcome.returned s1) :
    ∃ m1, s1.metrics[pre1.length]? = some m1 ∧ m1.name = m.name ∧ m1.display_name = label := by
  have hsort := (calculate_returned P s s1 hret).1
  rw [calculate_of_walk P s pre pre1 (m :: post) hsort hms hpre] at hret
  obtain ⟨r, hr, rfl⟩ := Outcome.map_eq_returned _ _ _ hret
  cases hi : percentileIndex P val (ascending (s.fps_stats.map Prod.snd)).length with
  | none =>
    rw [loop_cons_undefined P _ _ m post
      (visit_percentile_undefined P _ _ m val label hname hs h0 h1 hl hi)] at hr
    cases hr
  | some idx =>
    by_cases h : idx < (ascending (s.fps_stats.map Prod.snd)).length
    · rw [loop_cons_next P _ _ m _ post
        (visit_percentile P _ _ m val label idx hname hs h0 h1 hl hi h)] at hr
      obtain ⟨r2, _, rfl⟩ := Outcome.map_eq_returned _ _ _ hr
      exact ⟨_, getElem?_append_cons pre1 r2 _, rfl, rfl⟩
    · rw [loop_cons_stop P _ _ m _ post
        (visit_percentile_stop P _ _ m val label idx hname hs h0 h1 hl hi h)] at hr
      cases hr
      exact ⟨_, getElem?_append_cons pre1 post _, rfl, rfl⟩

/-- C9, refuted as stated. (1) The identifier `0.3`: `pct = 0.3 * 100` is the integer 30, and
30 with no decimals is `30`; yet the binary32 cycle gives the display name `30.0%`, because
the `float` nearest `0.3` times 100 is rounded to `30 + 2^-19`, which is not an integer.
(2) With `p` read as the `float` that `std::stof` returns: for the identifier `0.01` the
product `p * 100` is `134217725 / 134217728`, not an integer, yet the display name is `1%`,
with no decimals, because the `float` product is rounded to 1. -/
theorem c9_display_label_counterexample :
    (stofIeee "0.3" = StofResult.value (Fl.num false (some (5033165 / 16777216))) ∧
     (3 / 10 : ℚ) * 100 = 30 ∧ fmtFixed 0 (Fl.lit 30) ++ "%" = "30%" ∧
     Fl.mul binary32 (Fl.num false (some (5033165 / 16777216))) (Fl.lit 100) =
       Fl.num false (some (30 + 1 / 524288)) ∧
     calculate ieee
       { fps_stats := [(1, Fl.lit 30), (2, Fl.lit 60)], run := false, thread_init := false,
         terminate := false, resetting := false,
         metrics := add_metrics_to_vector ["0.3"] } =
       Outcome.returned
         { fps_stats := [(1, Fl.lit 30), (2, Fl.lit 60)], run := false, thread_init := false,
           terminate := false, resetting := false,
           metrics := [{ name := "0.3", value := Fl.lit 30, display_name := "30.0%" }] }) ∧
    (stofIeee "0.01" = StofResult.value (Fl.num false (some (5368709 / 536870912))) ∧
     (5368709 / 536870912 : ℚ) * 100 = 134217725 / 134217728 ∧
     ⌊(134217725 / 134217728 : ℚ)⌋ = 0 ∧
     Fl.mul binary32 (Fl.num false (some (5368709 / 536870912))) (Fl.lit 100) =
       Fl.num false (some 1) ∧
     calculate ieee
       { fps_stats := [(1, Fl.lit 30), (2, Fl.lit 60)], run := false, thread_init := false,
         terminate := false, resetting := false,
         metrics := add_metrics_to_vector ["0.01"] } =
       Outcome.returned
         { fps_stats := [(1, Fl.lit 30), (2, Fl.lit 60)], run := false, thread_init := false,
           terminate := false, resetting := false,
           metrics := [{ name := "0.01", value := Fl.lit 30, display_name := "1%" }] }) := by
  decide!

/-- C9, amended: after a cycle that reached a percentile whose name `std::stof` reads as the
`float` `p` in `(0,1)`, its display name derives from the `float` product `pct` of `p` and
100 (line 73), rounded as `float` products are: `pct` printed with no decimals and `%` when
that `float` is an integer, with one decimal and `%` otherwise; this holds in binary32 and
in exact arithmetic. A reached `AVG` entry gets the display name `AVG`. In binary32 the
identifiers `0.01`, `0.001` and `0.3` get the display names `1%`, `0.1%` and `30.0%`; in
exact arithmetic they get `1%`, `0.1%` and `30%`. -/
theorem c9_display_label :
    (∀ (P : Platform), (P.round32 = binary32 ∨ P.round32 = some) →
      ∀ (s s1 : fpsMetrics) (pre pre1 post : List metric_t) (m : metric_t) (p : ℚ),
      s.metrics = pre ++ m :: post →
      walk P s.fps_stats (ascending (s.fps_stats.map Prod.snd)) pre = some pre1 →
      m.name ≠ "AVG" → P.stof m.name = StofResult.value (Fl.num false (some p)) →
      0 < p → p < 1 → calculate P s = Outcome.returned s1 →
      ∃ (pct : ℚ) (m1 : metric_t), P.round32 (p * 100) = some pct ∧
        s1.metrics[pre1.length]? = some m1 ∧ m1.name = m.name ∧
        m1.display_name =
          (if pct = (⌊pct⌋ : ℚ) then fmtFixed 0 (Fl.num false (some pct))
           else fmtFixed 1 (Fl.num false (some pct))) ++ "%") ∧
    (∀ (P : Platform) (s s1 : fpsMetrics) (pre pre1 post : List metric_t) (m : metric_t),
      s.metrics = pre ++ m :: post →
      walk P s.fps_stats (ascending (s.fps_stats.map Prod.snd)) pre = some pre1 →
      m.name = "AVG" → calculate P s = Outcome.returned s1 →
      ∃ m1, s1.metrics[pre1.length]? = some m1 ∧ m1.name = "AVG" ∧ m1.display_name = "AVG") ∧
    calculate ieee
      { fps_stats := [(1, Fl.lit 30), (2, Fl.lit 60)], run := false, thread_init := false,
        terminate := false, resetting := false,
        metrics := add_metrics_to_vector ["0.01", "0.001", "avg"] } =
      Outcome.returned
        { fps_stats := [(1, Fl.lit 30), (2, Fl.lit 60)], run := false, thread_init := false,
          terminate := false, resetting := false,
          metrics := [{ name := "0.01", value := Fl.lit 30, display_name := "1%" },
                      { name := "0.001", value := Fl.lit 30, display_name := "0.1%" },
                      { name := "AVG", value := Fl.lit 40, display_name := "AVG" }] } ∧
    calculate exactArith
      { fps_stats := [(1, Fl.lit 30), (2, Fl.lit 60)], run := false, thread_init := false,
        terminate := false, resetting := false,
        metrics := add_metrics_to_vector ["0.01", "0.001", "avg"] } =
      Outcome.returned
        { fps_stats := [(1, Fl.lit 30), (2, Fl.lit 60)], run := false, thread_init := false,
          terminate := false, resetting := false,
          metrics := [{ name := "0.01", value := Fl.lit 30, display_name := "1%" },
                      { name := "0.001", value := Fl.lit 30, display_name := "0.1%" },
                      { name := "AVG", value := Fl.lit 40, display_name := "AVG" }] } ∧
    calculate ieee
      { fps_stats := [(1, Fl.lit 30), (2, Fl.lit 60)], run := false, thread_init := false,
        terminate := false, resetting := false,
        metrics := add_metrics_to_vector ["0.3"] } =
      Outcome.returned
        { fps_stats := [(1, Fl.lit 30), (2, Fl.lit 60)], run := false, thread_init := false,
          terminate := false, resetting := false,
          metrics := [{ name := "0.3", value := Fl.lit 30, display_name := "30.0%" }] } ∧
    calculate exactArith
      { fps_stats := [(1, Fl.lit 30), (2, Fl.lit 60)], run := false, thread_init := false,
        terminate := false, resetting := false,
        metrics := add_metrics_to_vector ["0.3"] } =
      Outcome.returned
        { fps_stats := [(1, Fl.lit 30), (2, Fl.lit 60)], run := false, thread_init := false,
          terminate := false, resetting := false,
          metrics := [{ name := "0.3", value := Fl.lit 30, display_name := "30%" }] } ∧
    fmtFixed 0 (Fl.lit 1) = "1" ∧ fmtFixed 1 (Fl.lit (1 / 10)) = "0.1" ∧
    fmtFixed 1 (Fl.lit (25 / 2)) = "12.5" ∧ fmtFixed 0 (Fl.lit 50) = "50" := by
  refine ⟨?_, ?_, by decide!, by decide!, by decide!, by decide!, by decide!, by decide!,
    by decide!, by decide!⟩
  · intro P hP s s1 pre pre1 post m p hms hpre hname hs hp0 hp1 hret
    obtain ⟨hr0, hr1⟩ := range_check_of_fraction p hp0 hp1
    have hround : (∀ q : ℚ, 0 < q → q < 100 → ∃ a, P.round32 q = some a ∧ 0 ≤ a ∧ a ≤ 100) ∧
        (∀ i : Nat, i ≤ 100 → P.round32 (i : ℚ) = some (i : ℚ)) := by
      rcases hP with h | h
      · exact binary32_round_fraction P h
      · exact exact_round_fraction P h
    obtain ⟨pct, hpct, _, _, hl⟩ := percentLabel_of_fraction P hround.1 hround.2 p hp0 hp1
    obtain ⟨m1, hm1, hn1, hd1⟩ :=
      calculate_percentile_label P s s1 pre pre1 post m _ _ hms hpre hname hs hr0 hr1 hl hret
    exact ⟨pct, m1, hpct, hm1, hn1, hd1⟩
  · intro P s s1 pre pre1 post m hms hpre hname hret
    have hsort := (calculate_returned P s s1 hret).1
    rw [calculate_of_walk P s pre pre1 (m :: post) hsort hms hpre,
      loop_cons_next P _ _ m _ post (visit_avg P _ _ m hname)] at hret
    obtain ⟨r, hr, rfl⟩ := Outcome.map_eq_returned _ _ _ hret
    obtain ⟨r2, _, rfl⟩ := Outcome.map_eq_returned _ _ _ hr
    exact ⟨_, getElem?_append_cons pre1 r2 _, hname, hname⟩

/-- C9 amended, at a concrete engine: the identifier `0.001` over two samples in binary32. -/
theorem c9_display_label_witness :
    ∃ (pct : ℚ) (m1 : metric_t), binary32 ((8589935 / 8589934592 : ℚ) * 100) = some pct ∧
      [({ name := "0.001", value := Fl.lit 30, display_name := "0.1%" } : metric_t)][0]? =
        some m1 ∧
      m1.name = "0.001" ∧
      m1.display_name =
        (if pct = (⌊pct⌋ : ℚ) then fmtFixed 0 (Fl.num false (some pct))
         else fmtFixed 1 (Fl.num false (some pct))) ++ "%" :=
  c9_display_label.1 ieee (Or.inl rfl)
    { fps_stats := [(1, Fl.lit 30), (2, Fl.lit 60)], run := false, thread_init := false,
      terminate := false, resetting := false,
      metrics := [{ name := "0.001", value := Fl.lit 0, display_name := "" }] }
    { fps_stats := [(1, Fl.lit 30), (2, Fl.lit 60)], run := false, thread_init := false,
      terminate := false, resetting := false,
      metrics := [{ name := "0.001", value := Fl.lit 30, display_name := "0.1%" }] }
    [] [] [] { name := "0.001", value := Fl.lit 0, display_name := "" }
    (8589935 / 8589934592) rfl rfl (by decide) (by decide!) (by norm_num) (by norm_num)
    (by decide!)

/-! ### The samples in the window -/

theorem update_resetting (P : Platform) (s : fpsMetrics) (now : Nat) (fps : Fl)
    (h : s.resetting = true) : update P s now fps = s := by
  unfold update
  rw [if_pos h]

/-- A sample in the window after `update` was there before, or is the one just stored, which
happens only for an `fps` above the literal `0.0001`. -/
theorem update_window_mem (P : Platform) (s : fpsMetrics) (now : Nat) (fps : Fl)
    (e : Nat × Fl) (he : e ∈ (update P s now fps).fps_stats) :
    e ∈ s.fps_stats ∨
      (Fl.lt (Fl.round P.round64 (1 / 10000)) fps = true ∧ e = (now, Fl.narrow P.round32 fps)) := by
  by_cases hr : s.resetting = true
  · rw [update_resetting P s now fps hr] at he
    exact Or.inl he
  · have hr1 : s.resetting = false := by simpa using hr
    have hmem : e ∈ s.fps_stats ++ (if Fl.lt (Fl.round P.round64 (1 / 10000)) fps then
        [(now, Fl.narrow P.round32 fps)] else []) := by
      rcases Nat.lt_or_ge now 60000000000 with hnow | hnow
      · rw [update_stats_early P s now fps hr1 hnow] at he
        exact he
      · rw [update_stats_late P s now fps hr1 hnow] at he
        exact (List.mem_filter.mp he).1
    rcases List.mem_append.mp hmem with h | h
    · exact Or.inl h
    · by_cases hlt : Fl.lt (Fl.round P.round64 (1 / 10000)) fps = true
      · rw [if_pos hlt] at h
        exact Or.inr ⟨hlt, List.mem_singleton.mp h⟩
      · rw [if_neg hlt] at h
        cases h

/-- An `fps` that is not above the literal `0.0001` is not stored. -/
theorem update_no_store (P : Platform) (s : fpsMetrics) (now : Nat) (fps : Fl)
    (h : Fl.lt (Fl.round P.round64 (1 / 10000)) fps = false) :
    (update P s now fps).fps_stats.Sublist s.fps_stats := by
  by_cases hr : s.resetting = true
  · rw [update_resetting P s now fps hr]
  · have hr1 : s.resetting = false := by simpa using hr
    rcases Nat.lt_or_ge now 60000000000 with hnow | hnow
    · rw [update_stats_early P s now fps hr1 hnow, h]
      simp
    · rw [update_stats_late P s now fps hr1 hnow, h]
      simp only [Bool.false_eq_true, if_false, List.append_nil]
      exact List.filter_sublist _

theorem not_lt_of_le (a : Fl) (x E : ℚ) (hE : x ≤ E)
    (h : Fl.le a (Fl.num false (some x)) = true) : Fl.lt (Fl.num false (some E)) a = false := by
  cases a with
  | nan => rfl
  | num s m =>
    simp only [Fl.le, Fl.key, Bool.false_eq_true, if_false, decide_eq_true_eq] at h
    simp only [Fl.lt, Fl.key, Bool.false_eq_true, if_false, decide_eq_false_iff_not]
    intro hlt
    rcases h with h | ⟨h1, h2⟩
    · rcases hlt with h3 | ⟨h3, _⟩
      · exact absurd (lt_trans h h3) (lt_irrefl _)
      · rw [← h3] at h
        exact absurd h (lt_irrefl _)
    · rcases hlt with h3 | ⟨_, h4⟩
      · rw [h1] at h3
        exact absurd h3 (lt_irrefl _)
      · linarith

theorem calculate_fps_stats (P : Platform) (s s1 : fpsMetrics)
    (h : calculate P s = Outcome.returned s1) : s1.fps_stats = s.fps_stats := by
  obtain ⟨_, r, _, rfl⟩ := calculate_returned P s s1 h
  rfl

theorem thread_step_fps_stats (P : Platform) (s s1 : fpsMetrics)
    (h : thread_step P s = Outcome.returned s1) : s1.fps_stats = s.fps_stats := by
  unfold thread_step at h
  split at h
  · cases h
    rfl
  · split at h
    · cases h
      rfl
    · obtain ⟨r, hr, rfl⟩ := Outcome.map_eq_returned _ _ _ h
      exact calculate_fps_stats P s r hr

/-- A property of the sample values that every newly stored sample has is kept by every
sequence of operations. -/
theorem runOps_window_inv (P : Platform) (Q : Fl → Prop) (ops : List Op) :
    (∀ now fps, Op.update now fps ∈ ops → Fl.lt (Fl.round P.round64 (1 / 10000)) fps = true →
      Q (Fl.narrow P.round32 fps)) →
    ∀ s s1 : fpsMetrics, runOps P ops s = some s1 → (∀ e ∈ s.fps_stats, Q e.2) →
      ∀ e ∈ s1.fps_stats, Q e.2 := by
  induction ops with
  | nil =>
    intro _ s s1 h hs
    simp only [runOps, Option.some.injEq] at h
    subst h
    exact hs
  | cons op ops ih =>
    intro hnew s s1 h hs
    simp only [runOps] at h
    split at h
    · rename_i s2 hs2
      refine ih (fun now fps hm => hnew now fps (List.mem_cons_of_mem _ hm)) s2 s1 h ?_
      cases op with
      | update now fps =>
        simp only [Op.apply, Option.some.injEq] at hs2
        subst hs2
        intro e he
        rcases update_window_mem P s now fps e he with h1 | ⟨hlt, rfl⟩
        · exact hs e h1
        · exact hnew now fps (List.mem_cons_self _ _) hlt
      | update_thread =>
        simp only [Op.apply, Option.some.injEq] at hs2
        subst hs2
        unfold update_thread
        split <;> exact hs
      | reset_metrics =>
        simp only [Op.apply] at hs2
        unfold reset_metrics at hs2
        split at hs2
        · cases hs2
        · cases hs2
          intro e he
          cases he
      | thread_step =>
        simp only [Op.apply] at hs2
        split at hs2
        · rename_i s3 hs3
          cases hs2
          rw [thread_step_fps_stats P s s2 hs3]
          exact hs
        · cases hs2
    · cases h

/-- In binary32 a stored sample, the conversion of a `double` above the literal `0.0001`, is at
least `13743895 / 2^37`, the `float` nearest to `0.0001`. -/
theorem binary32_stored (fps : Fl) (hwf : ∀ sg a, fps = Fl.num sg (some a) → 0 ≤ a)
    (h : Fl.lt (Fl.round binary64 (1 / 10000)) fps = true) :
    Fl.le (Fl.lit (13743895 / 137438953472)) (Fl.narrow binary32 fps) = true ∧
    Fl.lt (Fl.lit 0) (Fl.narrow binary32 fps) = true := by
  have heps : Fl.round binary64 (1 / 10000) =
      Fl.num false (some (7378697629483821 / 73786976294838206464)) := by decide!
  have hc : Fl.lit (13743895 / 137438953472) = Fl.num false (some (13743895 / 137438953472)) :=
    lit_of_nonneg _ (by norm_num)
  rw [heps] at h
  rw [hc, lit_of_nonneg 0 (le_refl 0)]
  cases fps with
  | nan => simp [Fl.lt] at h
  | num sg m =>
    cases m with
    | none =>
      cases sg with
      | true => simp [Fl.lt, Fl.key] at h
      | false => exact ⟨by decide!, by decide!⟩
    | some a =>
      have ha : 0 ≤ a := hwf sg a rfl
      cases sg with
      | true =>
        simp only [Fl.lt, Fl.key, if_true, Bool.false_eq_true, if_false, decide_eq_true_eq] at h
        rcases h with h | ⟨_, h⟩
        · exact absurd h (lt_irrefl _)
        · have : (0 : ℚ) < 7378697629483821 / 73786976294838206464 := by norm_num
          linarith
      | false =>
        simp only [Fl.lt, Fl.key, Bool.false_eq_true, if_false, decide_eq_true_eq] at h
        have hlt : (7378697629483821 / 73786976294838206464 : ℚ) < a := by
          rcases h with h | ⟨_, h⟩
          · exact absurd h (lt_irrefl _)
          · exact h
        have hca : (13743895 / 137438953472 : ℚ) ≤ a := by
          have : (13743895 / 137438953472 : ℚ) < 7378697629483821 / 73786976294838206464 := by
            norm_num
          linarith
        simp only [Fl.narrow]
        cases hb : binary32 a with
        | none => exact ⟨by decide!, by decide!⟩
        | some r =>
          have hcr : (13743895 / 137438953472 : ℚ) ≤ r :=
            roundNE_ge 24 (-126) 127 a (13743895 / 137438953472) r 13743895 (-37)
              (by norm_num) (by norm_num) hca (by decide!) (by norm_num) (by norm_num) hb
          have hr0 : (0 : ℚ) < r := lt_of_lt_of_le (by norm_num) hcr
          constructor
          · simp only [Fl.le, Fl.key, Bool.false_eq_true, if_false, decide_eq_true_eq]
            exact Or.inr ⟨trivial, hcr⟩
          · simp only [Fl.lt, Fl.key, Bool.false_eq_true, if_false, decide_eq_true_eq]
            exact Or.inr ⟨trivial, hr0⟩

theorem exact_stored (fps : Fl) (h : Fl.lt (Fl.round some (1 / 10000)) fps = true) :
    Fl.lt (Fl.lit (1 / 10000)) (Fl.narrow some fps) = true := by
  have h1 : Fl.narrow some fps = fps := by
    cases fps with
    | nan => rfl
    | num sg m =>
      cases m <;> rfl
  rw [h1]
  exact h

/-- C7, refuted as stated: the `double` next above the literal `0.0001` passes the test
`fps > 0.0001` and is stored as the `float` `13743895 / 2^37 = 0.0000999999974737875...`,
which is below `0.0001`. -/
theorem c7_window_values_counterexample :
    binary64 (3689348814741911 / 36893488147419103232) =
      some (3689348814741911 / 36893488147419103232) ∧
    (1 / 10000 : ℚ) < 3689348814741911 / 36893488147419103232 ∧
    (update ieee (fpsMetrics.create ["avg"]) 5
      (Fl.num false (some (3689348814741911 / 36893488147419103232)))).fps_stats =
      [(5, Fl.num false (some (13743895 / 137438953472)))] ∧
    (13743895 / 137438953472 : ℚ) < 1 / 10000 ∧
    Fl.lt (Fl.lit (1 / 10000)) (Fl.num false (some (13743895 / 137438953472))) = false := by
  decide!

/-- C7, amended: `update` with `fps <= 0.0001` stores no sample, and `update` while a reset is
in progress changes nothing; in a live engine every sample held after any sequence of
operations is the `float` conversion of an `fps` above the literal `0.0001`. In exact
arithmetic its value is greater than `0.0001`. In binary32 it is at least `13743895 / 2^37`,
the `float` nearest to `0.0001` (which is below `0.0001`), hence greater than 0, so that
`1000.f / value` never divides by zero. -/
theorem c7_window_values :
    (∀ (P : Platform), (P.round64 = binary64 ∨ P.round64 = some) →
      ∀ (s : fpsMetrics) (now : Nat) (fps : Fl), Fl.le fps (Fl.lit (1 / 10000)) = true →
        (update P s now fps).fps_stats.Sublist s.fps_stats) ∧
    (∀ (P : Platform) (s : fpsMetrics) (now : Nat) (fps : Fl), s.resetting = true →
      update P s now fps = s) ∧
    (∀ (P : Platform), P.round32 = some → P.round64 = some →
      ∀ (ops : List Op) (values : List String) (s1 : fpsMetrics),
        runOps P ops (fpsMetrics.create values) = some s1 →
        ∀ e ∈ s1.fps_stats, Fl.lt (Fl.lit (1 / 10000)) e.2 = true) ∧
    (∀ (P : Platform), P.round32 = binary32 → P.round64 = binary64 →
      ∀ (ops : List Op) (values : List String) (s1 : fpsMetrics),
        (∀ now sg a, Op.update now (Fl.num sg (some a)) ∈ ops → 0 ≤ a) →
        runOps P ops (fpsMetrics.create values) = some s1 →
        ∀ e ∈ s1.fps_stats, Fl.le (Fl.lit (13743895 / 137438953472)) e.2 = true ∧
          Fl.lt (Fl.lit 0) e.2 = true) ∧
    binary32 (1 / 10000) = some (13743895 / 137438953472) ∧
    (0 : ℚ) < 13743895 / 137438953472 ∧ (13743895 / 137438953472 : ℚ) < 1 / 10000 := by
  refine ⟨?_, update_resetting, ?_, ?_, by decide!, by norm_num, by norm_num⟩
  · intro P hP s now fps hle
    apply update_no_store
    have h1 : Fl.lit (1 / 10000) = Fl.num false (some (1 / 10000)) :=
      lit_of_nonneg _ (by norm_num)
    rw [h1] at hle
    rcases hP with h | h
    · rw [h]
      have heps : Fl.round binary64 (1 / 10000) =
          Fl.num false (some (7378697629483821 / 73786976294838206464)) := by decide!
      rw [heps]
      exact not_lt_of_le fps _ _ (by norm_num) hle
    · rw [h]
      have heps : Fl.round some (1 / 10000) = Fl.num false (some (1 / 10000)) := by decide!
      rw [heps]
      exact not_lt_of_le fps _ _ (le_refl _) hle
  · intro P h32 h64 ops values s1 hrun e he
    refine runOps_window_inv P (fun v => Fl.lt (Fl.lit (1 / 10000)) v = true) ops ?_
      (fpsMetrics.create values) s1 hrun ?_ e he
    · intro now fps _ hlt
      rw [h32]
      rw [h64] at hlt
      exact exact_stored fps hlt
    · intro e0 he0
      cases he0
  · intro P h32 h64 ops values s1 hwf hrun e he
    refine runOps_window_inv P
      (fun v => Fl.le (Fl.lit (13743895 / 137438953472)) v = true ∧ Fl.lt (Fl.lit 0) v = true)
      ops ?_ (fpsMetrics.create values) s1 hrun ?_ e he
    · intro now fps hmem hlt
      rw [h32]
      rw [h64] at hlt
      refine binary32_stored fps ?_ hlt
      intro sg a hfps
      rw [hfps] at hmem
      exact hwf now sg a hmem
    · intro e0 he0
      cases he0

/-- C7 amended, at a concrete run of a binary32 engine: three calls of `update`, the first
with an `fps` that is too small, then a pending cycle. -/
theorem c7_window_values_witness :
    ∀ e ∈ [((20 : Nat), Fl.num false (some 60)), (30, Fl.num false (some (1 / 2)))],
      Fl.le (Fl.lit (13743895 / 137438953472)) e.2 = true ∧ Fl.lt (Fl.lit 0) e.2 = true :=
  c7_window_values.2.2.2.1 ieee rfl rfl
    [Op.update 10 (Fl.num false (some (1 / 16384))), Op.update 20 (Fl.num false (some 60)),
     Op.update 30 (Fl.num false (some (1 / 2))), Op.update_thread, Op.thread_step]
    ["avg"]
    { fps_stats := [(20, Fl.num false (some 60)), (30, Fl.num false (some (1 / 2)))],
      run := false, thread_init := false, terminate := false, resetting := false,
      metrics := [{ name := "AVG", value := Fl.num false (some (8319281 / 8388608)),
                    display_name := "AVG" }] }
    (by
      intro now sg a h
      simp only [List.mem_cons, Op.update.injEq, Fl.num.injEq, Option.some.injEq,
        List.mem_singleton, reduceCtorEq, List.not_mem_nil, or_false] at h
      rcases h with ⟨_, _, rfl⟩ | ⟨_, _, rfl⟩ | ⟨_, _, rfl⟩ <;> norm_num)
    (by decide!)

/-! ### A window too large for `float` -/

theorem ascending_two_blocks (n1 n2 : Nat) :
    ascending (List.replicate n1 (Fl.num false (some 1)) ++
        List.replicate n2 (Fl.num false (some 2))) =
      List.replicate n1 (Fl.num false (some 1)) ++ List.replicate n2 (Fl.num false (some 2)) := by
  apply List.Sorted.insertionSort_eq
  have h11 : Fl.le (Fl.num false (some 1)) (Fl.num false (some 1)) = true := by decide!
  have h12 : Fl.le (Fl.num false (some 1)) (Fl.num false (some 2)) = true := by decide!
  have h22 : Fl.le (Fl.num false (some 2)) (Fl.num false (some 2)) = true := by decide!
  refine List.pairwise_append.mpr ⟨?_, ?_, ?_⟩
  · exact List.pairwise_replicate.mpr (Or.inr h11)
  · exact List.pairwise_replicate.mpr (Or.inr h22)
  · intro a ha b hb
    rw [List.eq_of_mem_replicate ha, List.eq_of_mem_replicate hb]
    exact h12

theorem sortable_two_blocks (n1 n2 : Nat) :
    sortable (List.replicate n1 (Fl.num false (some 1)) ++
        List.replicate n2 (Fl.num false (some 2))) = true := by
  have h := sortable_of_rat (List.replicate n1 1 ++ List.replicate n2 2)
  simpa only [List.map_append, List.map_replicate] using h

/-- The percentile `0.5` over a window of `n1` samples 1 followed by `n2` samples 2, when the
index falls into the first block. -/
theorem calculate_two_blocks (n1 n2 idx : Nat)
    (hidx : percentileIndex ieee (Fl.num false (some (1 / 2))) (n1 + n2) = some idx)
    (h1 : idx < n1) :
    calculate ieee
      { fps_stats := List.replicate n1 (0, Fl.num false (some 1)) ++
          List.replicate n2 (0, Fl.num false (some 2)),
        run := false, thread_init := false, terminate := false, resetting := false,
        metrics := [{ name := "0.5", value := Fl.num false (some 0), display_name := "" }] } =
      Outcome.returned
        { fps_stats := List.replicate n1 (0, Fl.num false (some 1)) ++
            List.replicate n2 (0, Fl.num false (some 2)),
          run := false, thread_init := false, terminate := false, resetting := false,
          metrics := [{ name := "0.5", value := Fl.num false (some 1), display_name := "50%" }] } := by
  have hmap : (List.replicate n1 ((0 : Nat), Fl.num false (some 1)) ++
      List.replicate n2 ((0 : Nat), Fl.num false (some 2))).map Prod.snd =
      List.replicate n1 (Fl.num false (some 1)) ++ List.replicate n2 (Fl.num false (some 2)) := by
    simp only [List.map_append, List.map_replicate]
  have hlen : (List.replicate n1 ((0 : Nat), Fl.num false (some 1)) ++
      List.replicate n2 ((0 : Nat), Fl.num false (some 2))).length = n1 + n2 := by
    simp only [List.length_append, List.length_replicate]
  have hlt : idx < (ascending ((List.replicate n1 ((0 : Nat), Fl.num false (some 1)) ++
      List.replicate n2 ((0 : Nat), Fl.num false (some 2))).map Prod.snd)).length := by
    rw [ascending_length, List.length_map, hlen]
    omega
  have hget : (ascending ((List.replicate n1 ((0 : Nat), Fl.num false (some 1)) ++
      List.replicate n2 ((0 : Nat), Fl.num false (some 2))).map Prod.snd))[idx] =
      Fl.num false (some 1) := by
    have h2 : idx < (List.replicate n1 (Fl.num false (some 1))).length := by
      rw [List.length_replicate]
      exact h1
    simp only [hmap, ascending_two_blocks, List.getElem_append_left h2, List.getElem_replicate]
  have h := calculate_percentile ieee
    { fps_stats := List.replicate n1 (0, Fl.num false (some 1)) ++
        List.replicate n2 (0, Fl.num false (some 2)),
      run := false, thread_init := false, terminate := false, resetting := false,
      metrics := [{ name := "0.5", value := Fl.num false (some 0), display_name := "" }] }
    [] [] [] { name := "0.5", value := Fl.num false (some 0), display_name := "" }
    (Fl.num false (some (1 / 2))) "50%" idx (by rw [hmap]; exact sortable_two_blocks n1 n2)
    rfl rfl (by decide) (by decide!) (by decide!)
    (by decide!) (by decide!) (by rw [hlen]; exact hidx) hlt
  rw [h, hget]
  rfl

theorem ascending_two_blocks_get (n1 n2 k : Nat) (h1 : n1 ≤ k) (h2 : k < n1 + n2) :
    (ascending ((List.replicate n1 ((0 : Nat), Fl.num false (some 1)) ++
      List.replicate n2 ((0 : Nat), Fl.num false (some 2))).map Prod.snd))[k]? =
      some (Fl.num false (some 2)) := by
  simp only [List.map_append, List.map_replicate, ascending_two_blocks]
  rw [List.getElem?_append_right (by rw [List.length_replicate]; exact h1),
    List.length_replicate, List.getElem?_replicate, if_pos (by omega)]

/-- C2, refuted as stated, on two inputs. (1) With `p * N` read as the exact product: the
identifier `0.699999988` is read as the `float` `11744051 / 2^24`; on a window of 10 samples
`floor (p * N) - 1` is 5, for this `float` and for the decimal fraction alike, and the sorted
sample at position 5 is 6; yet the binary32 cycle sets the metric to 7, the sample at position
6, because the `float` product `p * 10` is rounded to 7. (2) Also with `p * N` read as the
`float` product: for `p = 0.5` and a window of `33554436 = 2^25 + 4` samples (`2^24 + 1`
samples 1, then `2^24 + 3` samples 2) the product is exactly `16777218`, so
`floor (p * N) - 1` is `16777217`, where the sorted window holds 2; the cycle sets the metric
to 1, the sample at position `16777216`, because the `float` difference `16777218 - 1` is
rounded to `16777216`. -/
theorem c2_percentile_counterexample :
    (stofIeee "0.699999988" = StofResult.value (Fl.num false (some (11744051 / 16777216))) ∧
     ⌊(11744051 / 16777216 : ℚ) * 10⌋ - 1 = 5 ∧
     ⌊(699999988 / 1000000000 : ℚ) * 10⌋ - 1 = 5 ∧
     (ascending [Fl.lit 3, Fl.lit 1, Fl.lit 2, Fl.lit 10, Fl.lit 9, Fl.lit 8, Fl.lit 7,
       Fl.lit 6, Fl.lit 5, Fl.lit 4])[5]? = some (Fl.lit 6) ∧
     calculate ieee
       { fps_stats := [(1, Fl.lit 3), (2, Fl.lit 1), (3, Fl.lit 2), (4, Fl.lit 10),
           (5, Fl.lit 9), (6, Fl.lit 8), (7, Fl.lit 7), (8, Fl.lit 6), (9, Fl.lit 5),
           (10, Fl.lit 4)],
         run := false, thread_init := false, terminate := false, resetting := false,
         metrics := add_metrics_to_vector ["0.699999988"] } =
       Outcome.returned
         { fps_stats := [(1, Fl.lit 3), (2, Fl.lit 1), (3, Fl.lit 2), (4, Fl.lit 10),
             (5, Fl.lit 9), (6, Fl.lit 8), (7, Fl.lit 7), (8, Fl.lit 6), (9, Fl.lit 5),
             (10, Fl.lit 4)],
           run := false, thread_init := false, terminate := false, resetting := false,
           metrics := [{ name := "0.699999988", value := Fl.lit 7, display_name := "70%" }] }) ∧
    (stofIeee "0.5" = StofResult.value (Fl.num false (some (1 / 2))) ∧
     ⌊(1 / 2 : ℚ) * 33554436⌋ - 1 = 16777217 ∧
     (ascending ((List.replicate 16777217 ((0 : Nat), Fl.num false (some 1)) ++
       List.replicate 16777219 ((0 : Nat), Fl.num false (some 2))).map Prod.snd))[16777217]? =
       some (Fl.num false (some 2)) ∧
     calculate ieee
       { fps_stats := List.replicate 16777217 (0, Fl.num false (some 1)) ++
           List.replicate 16777219 (0, Fl.num false (some 2)),
         run := false, thread_init := false, terminate := false, resetting := false,
         metrics := [{ name := "0.5", value := Fl.num false (some 0), display_name := "" }] } =
       Outcome.returned
         { fps_stats := List.replicate 16777217 (0, Fl.num false (some 1)) ++
             List.replicate 16777219 (0, Fl.num false (some 2)),
           run := false, thread_init := false, terminate := false, resetting := false,
           metrics := [{ name := "0.5", value := Fl.num false (some 1),
                         display_name := "50%" }] }) := by
  have hidx : percentileIndex ieee (Fl.num false (some (1 / 2))) (16777217 + 16777219) =
      some 16777216 := by decide!
  exact ⟨by decide!, by decide!, by decide!,
    ascending_two_blocks_get 16777217 16777219 16777217 (by norm_num) (by norm_num),
    calculate_two_blocks 16777217 16777219 16777216 hidx (by norm_num)⟩

/-! ### A percentile whose index is out of range -/

/-- A cycle that reaches a percentile whose index is not below the number of samples writes
the display name of that entry and returns: the entry keeps its value, the entries behind it
are not looked at. -/
theorem calculate_percentile_stop (P : Platform) (s : fpsMetrics)
    (pre pre1 post : List metric_t) (m : metric_t) (val : Fl) (label : String) (idx : Nat)
    (hsort : sortable (s.fps_stats.map Prod.snd) = true)
    (hms : s.metrics = pre ++ m :: post)
    (hpre : walk P s.fps_stats (ascending (s.fps_stats.map Prod.snd)) pre = some pre1)
    (hname : m.name ≠ "AVG") (hs : P.stof m.name = StofResult.value val)
    (h0 : Fl.le val (Fl.lit 0) = false) (h1 : Fl.le (Fl.lit 1) val = false)
    (hl : percentLabel P val = some label)
    (hi : percentileIndex P val s.fps_stats.length = some idx)
    (h : s.fps_stats.length ≤ idx) :
    calculate P s =
      Outcome.returned { s with metrics := pre1 ++ { m with display_name := label } :: post } := by
  rw [← sorted_length s] at hi h
  have hv := visit_percentile_stop P s.fps_stats _ m val label idx hname hs h0 h1 hl hi
    (Nat.not_lt.mpr h)
  rw [calculate_of_walk P s pre pre1 (m :: post) hsort hms hpre, loop_cons_stop P _ _ m _ post hv]
  rfl

/-- C15: when a cycle evaluates the percentile at some position (`std::sort` has ordered the
window, the iterator reaches the entry, its name is read as a value that passes the range
check, the display name and the index are computed) and the index is not below the number of
samples, `calculate` returns at once.
The entry keeps its name and its value (only its display name is written), and every entry
behind it is in the registry exactly as before: same name, value and display name, none
removed, whatever its name is. On an empty window every index is out of range. -/
theorem c15_out_of_range_stops (P : Platform) (s : fpsMetrics)
    (pre pre1 post : List metric_t) (m : metric_t) (val : Fl) (label : String) (idx : Nat)
    (hms : s.metrics = pre ++ m :: post)
    (hpre : walk P s.fps_stats (ascending (s.fps_stats.map Prod.snd)) pre = some pre1)
    (hname : m.name ≠ "AVG") (hs : P.stof m.name = StofResult.value val)
    (h0 : Fl.le val (Fl.lit 0) = false) (h1 : Fl.le (Fl.lit 1) val = false)
    (hl : percentLabel P val = some label)
    (hi : percentileIndex P val s.fps_stats.length = some idx)
    (h : (sortable (s.fps_stats.map Prod.snd) = true ∧ s.fps_stats.length ≤ idx) ∨
      s.fps_stats = []) :
    calculate P s =
      Outcome.returned
        { s with metrics :=
            pre1 ++ { name := m.name, value := m.value, display_name := label } :: post } := by
  have hle : s.fps_stats.length ≤ idx := by
    rcases h with h | h
    · exact h.2
    · rw [h]
      exact Nat.zero_le _
  have hsort : sortable (s.fps_stats.map Prod.snd) = true := by
    rcases h with h | h
    · exact h.1
    · rw [h]
      rfl
  exact calculate_percentile_stop P s pre pre1 post m val label idx hsort hms hpre hname hs h0
    h1 hl hi hle

/-- C15 at a concrete engine: the registry `AVG, 0.5, 2, abc` over an empty window. The
cycle stops at `0.5`; the entries `2` and `abc` stay although neither is a valid name. -/
theorem c15_out_of_range_stops_witness :
    calculate ieee
      { fps_stats := [], run := false, thread_init := false, terminate := false,
        resetting := false,
        metrics := [{ name := "AVG", value := Fl.lit 0, display_name := "" },
                    { name := "0.5", value := Fl.lit 7, display_name := "" },
                    { name := "2", value := Fl.lit 8, display_name := "x" },
                    { name := "ABC", value := Fl.lit 9, display_name := "y" }] } =
      Outcome.returned
        { fps_stats := [], run := false, thread_init := false, terminate := false,
          resetting := false,
          metrics := [{ name := "AVG", value := Fl.lit 0, display_name := "AVG" },
                      { name := "0.5", value := Fl.lit 7, display_name := "50%" },
                      { name := "2", value := Fl.lit 8, display_name := "x" },
                      { name := "ABC", value := Fl.lit 9, display_name := "y" }] } :=
  c15_out_of_range_stops ieee
    { fps_stats := [], run := false, thread_init := false, terminate := false,
      resetting := false,
      metrics := [{ name := "AVG", value := Fl.lit 0, display_name := "" },
                  { name := "0.5", value := Fl.lit 7, display_name := "" },
                  { name := "2", value := Fl.lit 8, display_name := "x" },
                  { name := "ABC", value := Fl.lit 9, display_name := "y" }] }
    [{ name := "AVG", value := Fl.lit 0, display_name := "" }]
    [{ name := "AVG", value := Fl.lit 0, display_name := "AVG" }]
    [{ name := "2", value := Fl.lit 8, display_name := "x" },
     { name := "ABC", value := Fl.lit 9, display_name := "y" }]
    { name := "0.5", value := Fl.lit 7, display_name := "" }
    (Fl.num false (some (1 / 2))) "50%" 18446744073709551615
    rfl (by decide!) (by decide) (by decide!) (by decide!) (by decide!) (by decide!) (by decide!)
    (Or.inr rfl)

/-! ### Entries a cycle keeps -/

theorem keeps_of_name_eq (P : Platform) (m m1 : metric_t) (h : m1.name = m.name) :
    keeps P m1 = keeps P m := by
  unfold keeps
  rw [h]

theorem visit_erase_stop_keeps (P : Platform) (fs : List (Nat × Fl)) (sv : List Fl)
    (m : metric_t) (h : visit P fs sv m = Step.erase_stop) : keeps P m = false := by
  have hn := visit_erase_ne P fs sv m (Or.inl h)
  rw [visit_of_ne P fs sv m hn] at h
  unfold keeps
  rw [decide_eq_false hn, Bool.false_or]
  cases hs : P.stof m.name with
  | invalid_argument => rfl
  | out_of_range => rfl
  | value val =>
    rw [hs] at h
    dsimp only at h ⊢
    split at h
    · rename_i hr
      rw [hr]
      rfl
    · split at h
      · cases h
      · split at h
        · cases h
        · split at h <;> cases h

theorem visit_erase_next_keeps (P : Platform) (fs : List (Nat × Fl)) (sv : List Fl)
    (m : metric_t) (h : visit P fs sv m = Step.erase_next) : keeps P m = false := by
  have hn := visit_erase_ne P fs sv m (Or.inr h)
  rw [visit_of_ne P fs sv m hn] at h
  unfold keeps
  rw [decide_eq_false hn, Bool.false_or]
  cases hs : P.stof m.name with
  | invalid_argument => rfl
  | out_of_range => rfl
  | value val =>
    rw [hs] at h
    dsimp only at h
    split at h
    · cases h
    · split at h
      · cases h
      · split at h
        · cases h
        · split at h <;> cases h

/-- The entries `calculate` has no reason to erase are, by name and in order, the same after
the loop as before it. -/
theorem loop_keeps (P : Platform) (fs : List (Nat × Fl)) (sv : List Fl) (ms : List metric_t) :
    ∀ res, loop P fs sv ms = Outcome.returned res →
      ((res.filter (keeps P)).map metric_t.name) = ((ms.filter (keeps P)).map metric_t.name) := by
  induction ms using loop.induct P fs sv with
  | case1 =>
    intro res h
    rw [loop] at h
    cases h
    rfl
  | case2 n rest a hv ih =>
    intro res h
    rw [loop_cons_next P fs sv n a rest hv] at h
    obtain ⟨r, hr, rfl⟩ := Outcome.map_eq_returned _ _ _ h
    have hname := visit_next_name P fs sv n a hv
    simp only [List.filter_cons, keeps_of_name_eq P n a hname]
    split
    · simp only [List.map_cons, hname, ih r hr]
    · exact ih r hr
  | case3 n rest a hv =>
    intro res h
    rw [loop_cons_stop P fs sv n a rest hv] at h
    cases h
    have hname := (visit_stop_inv P fs sv n a hv).1
    simp only [List.filter_cons, keeps_of_name_eq P n a hname]
    split
    · simp only [List.map_cons, hname]
    · rfl
  | case4 n rest hv =>
    intro res h
    rw [loop_cons_erase_stop P fs sv n rest hv] at h
    cases h
    simp only [List.filter_cons, visit_erase_stop_keeps P fs sv n hv, Bool.false_eq_true,
      if_false]
  | case5 n hv =>
    intro res h
    rw [loop_erase_next_nil P fs sv n hv] at h
    cases h
  | case6 n hv k rest ih =>
    intro res h
    rw [loop_erase_next_cons P fs sv n k rest hv] at h
    obtain ⟨r, hr, rfl⟩ := Outcome.map_eq_returned _ _ _ h
    simp only [List.filter_cons, visit_erase_next_keeps P fs sv n hv, Bool.false_eq_true,
      if_false]
    split
    · simp only [List.map_cons, ih r hr]
    · exact ih r hr
  | case7 n rest hv =>
    intro res h
    rw [loop_cons_out_of_range P fs sv n rest hv] at h
    cases h
  | case8 n rest hv =>
    intro res h
    rw [loop_cons_undefined P fs sv n rest hv] at h
    cases h

/-- An entry named `AVG`, and an entry whose name `std::stof` reads as a fraction strictly
between 0 and 1, is one that `keeps` holds of. -/
theorem keeps_of_valid (P : Platform) (m : metric_t)
    (h : m.name = "AVG" ∨
      ∃ p : ℚ, 0 < p ∧ p < 1 ∧ P.stof m.name = StofResult.value (Fl.num false (some p))) :
    keeps P m = true := by
  unfold keeps
  rcases h with h | ⟨p, hp0, hp1, hs⟩
  · rw [decide_eq_true h, Bool.true_or]
  · obtain ⟨h0, h1⟩ := range_check_of_fraction p hp0 hp1
    rw [hs]
    simp only [h0, h1, Bool.or_self, Bool.not_false, Bool.or_true]

/-- C20: a cycle never removes a valid entry. When `calculate` returns, the entries whose
name is `AVG` or is read by `std::stof` as a value that passes the range check of line 68
(every fraction strictly between 0 and 1 does) are, by name and in order, the same in the
registry after the cycle as before it; and the names after the cycle are an order-preserving
subsequence of the names before it, so the surviving entries keep their relative order. -/
theorem c20_valid_entries_kept (P : Platform) (s s1 : fpsMetrics)
    (h : calculate P s = Outcome.returned s1) :
    (s1.metrics.filter (keeps P)).map metric_t.name =
      (s.metrics.filter (keeps P)).map metric_t.name ∧
    (s1.metrics.map metric_t.name).Sublist (s.metrics.map metric_t.name) ∧
    (∀ m ∈ s.metrics, (m.name = "AVG" ∨
      ∃ p : ℚ, 0 < p ∧ p < 1 ∧ P.stof m.name = StofResult.value (Fl.num false (some p))) →
      keeps P m = true ∧ m.name ∈ s1.metrics.map metric_t.name) := by
  have hk : (s1.metrics.filter (keeps P)).map metric_t.name =
      (s.metrics.filter (keeps P)).map metric_t.name := by
    obtain ⟨_, r, hr, rfl⟩ := calculate_returned P s s1 h
    exact loop_keeps P _ _ _ r hr
  refine ⟨hk, calculate_names_sublist P s s1 h, ?_⟩
  intro m hm hv
  have hkm := keeps_of_valid P m hv
  refine ⟨hkm, ?_⟩
  have h1 : m.name ∈ (s.metrics.filter (keeps P)).map metric_t.name :=
    List.mem_map.mpr ⟨m, List.mem_filter.mpr ⟨hm, hkm⟩, rfl⟩
  rw [← hk] at h1
  obtain ⟨m1, hm1, hn⟩ := List.mem_map.mp h1
  exact List.mem_map.mpr ⟨m1, (List.mem_filter.mp hm1).1, hn⟩

/-- C20 at a concrete engine: of `abc, 0.5, 2, avg` the cycle erases `abc`, steps over `0.5`,
erases `2` and returns; the valid entries `0.5` and `AVG` are both still there, in order. -/
theorem c20_valid_entries_kept_witness :
    calculate ieee
      { fps_stats := [(0, Fl.lit 60)], run := false, thread_init := false, terminate := false,
        resetting := false,
        metrics := [{ name := "ABC", value := Fl.lit 0, display_name := "" },
                    { name := "0.5", value := Fl.lit 0, display_name := "" },
                    { name := "2", value := Fl.lit 0, display_name := "" },
                    { name := "AVG", value := Fl.lit 0, display_name := "" }] } =
      Outcome.returned
        { fps_stats := [(0, Fl.lit 60)], run := false, thread_init := false, terminate := false,
          resetting := false,
          metrics := [{ name := "0.5", value := Fl.lit 0, display_name := "" },
                      { name := "AVG", value := Fl.lit 0, display_name := "" }] } ∧
    (([{ name := "0.5", value := Fl.lit 0, display_name := "" },
       { name := "AVG", value := Fl.lit 0, display_name := "" }] : List metric_t).filter
        (keeps ieee)).map metric_t.name =
      (([{ name := "ABC", value := Fl.lit 0, display_name := "" },
         { name := "0.5", value := Fl.lit 0, display_name := "" },
         { name := "2", value := Fl.lit 0, display_name := "" },
         { name := "AVG", value := Fl.lit 0, display_name := "" }] : List metric_t).filter
        (keeps ieee)).map metric_t.name :=
  ⟨by decide!,
    (c20_valid_entries_kept ieee
      { fps_stats := [(0, Fl.lit 60)], run := false, thread_init := false, terminate := false,
        resetting := false,
        metrics := [{ name := "ABC", value := Fl.lit 0, display_name := "" },
                    { name := "0.5", value := Fl.lit 0, display_name := "" },
                    { name := "2", value := Fl.lit 0, display_name := "" },
                    { name := "AVG", value := Fl.lit 0, display_name := "" }] }
      { fps_stats := [(0, Fl.lit 60)], run := false, thread_init := false, terminate := false,
        resetting := false,
        metrics := [{ name := "0.5", value := Fl.lit 0, display_name := "" },
                    { name := "AVG", value := Fl.lit 0, display_name := "" }] }
      (by decide!)).1⟩

/-! ### `reset_metrics` forgets the window -/

theorem update_congr (P : Platform) (s1 s2 : fpsMetrics) (now : Nat) (fps : Fl)
    (hw : s1.fps_stats = s2.fps_stats) (hr : s1.resetting = s2.resetting) :
    (update P s1 now fps).fps_stats = (update P s2 now fps).fps_stats := by
  unfold update
  rw [hw, hr]
  split
  · exact hw
  · dsimp only
    split <;> rfl

theorem update_thread_fps_stats (s : fpsMetrics) :
    (update_thread s).fps_stats = s.fps_stats := by
  unfold update_thread
  split <;> rfl

/-- The window and the registry a cycle leaves depend on the window and the registry it
starts from, not on the flags. -/
theorem calculate_congr (P : Platform) (s1 s2 : fpsMetrics)
    (hw : s1.fps_stats = s2.fps_stats) (hm : s1.metrics = s2.metrics) :
    (calculate P s1).map (fun s => (s.fps_stats, s.metrics)) =
      (calculate P s2).map (fun s => (s.fps_stats, s.metrics)) := by
  cases hs : sortable (s2.fps_stats.map Prod.snd) with
  | false =>
    rw [calculate_of_not_sortable P s2 hs, calculate_of_not_sortable P s1 (by rw [hw]; exact hs)]
  | true =>
    rw [calculate_of_sortable P s2 hs, calculate_of_sortable P s1 (by rw [hw]; exact hs),
      Outcome.map_map, Outcome.map_map, hw, hm]

/-- C11: take two engines with the same registry and any two windows, neither with a cycle
pending (`run` is false, so `reset_metrics` comes back). After `reset_metrics`, then
`update (t, v)`, then one cycle, both have the same window (the sample `(t, v)` alone if it
is stored, nothing otherwise) and the same registry: names, values and display names. The
cycle may be the call of `calculate` or the wake-up of the worker after `update_thread`. -/
theorem c11_reset_forgets (P : Platform) (s1 s2 : fpsMetrics) (t : Nat) (v : Fl)
    (hm : s1.metrics = s2.metrics) (h1 : s1.run = false) (h2 : s2.run = false) :
    ∃ r1 r2 : fpsMetrics, reset_metrics s1 = some r1 ∧ reset_metrics s2 = some r2 ∧
      r1.fps_stats = [] ∧ r2.fps_stats = [] ∧
      (update P r1 t v).fps_stats = (update P r2 t v).fps_stats ∧
      (update P r1 t v).fps_stats =
        (if Fl.lt (Fl.round P.round64 (1 / 10000)) v then [(t, Fl.narrow P.round32 v)] else []) ∧
      (calculate P (update P r1 t v)).map (fun s => (s.fps_stats, s.metrics)) =
        (calculate P (update P r2 t v)).map (fun s => (s.fps_stats, s.metrics)) ∧
      (s1.terminate = false → s2.terminate = false →
        (thread_step P (update_thread (update P r1 t v))).map
            (fun s => (s.fps_stats, s.metrics)) =
          (thread_step P (update_thread (update P r2 t v))).map
            (fun s => (s.fps_stats, s.metrics))) := by
  refine ⟨{ s1 with fps_stats := [], resetting := false },
    { s2 with fps_stats := [], resetting := false }, ?_, ?_, rfl, rfl, ?_, ?_, ?_, ?_⟩
  · unfold reset_metrics
    rw [h1]
    rfl
  · unfold reset_metrics
    rw [h2]
    rfl
  · exact update_congr P _ _ t v rfl rfl
  · unfold update
    dsimp only
    rw [if_neg (by decide)]
    by_cases hs : Fl.lt (Fl.round P.round64 (1 / 10000)) v = true
    · simp only [hs, if_true, List.nil_append]
      split
      · rw [List.filter_cons_of_pos]
        · rfl
        · simp
      · rfl
    · simp only [hs, Bool.false_eq_true, if_false]
      split <;> rfl
  · exact calculate_congr P _ _ (update_congr P _ _ t v rfl rfl)
      (by rw [update_metrics, update_metrics]; exact hm)
  · intro ht1 ht2
    have hc := calculate_congr P
      (update_thread (update P { s1 with fps_stats := [], resetting := false } t v))
      (update_thread (update P { s2 with fps_stats := [], resetting := false } t v))
      (by rw [update_thread_fps_stats, update_thread_fps_stats]
          exact update_congr P _ _ t v rfl rfl)
      (by rw [update_thread_metrics, update_thread_metrics, update_metrics, update_metrics]
          exact hm)
    have hres : ∀ s : fpsMetrics, s.run = false → s.terminate = false →
        thread_step P (update_thread (update P { s with fps_stats := [], resetting := false } t v))
          = (calculate P (update_thread
              (update P { s with fps_stats := [], resetting := false } t v))).map
              (fun s1 => { s1 with run := false }) := by
      intro s _ hst
      have hu : (update P { s with fps_stats := [], resetting := false } t v).resetting
          = false := by
        unfold update
        dsimp only
        rw [if_neg (by decide)]
        split <;> rfl
      have hte : (update P { s with fps_stats := [], resetting := false } t v).terminate
          = false := by
        unfold update
        dsimp only
        rw [if_neg (by decide)]
        split <;> exact hst
      unfold thread_step update_thread
      rw [hu]
      simp only [Bool.false_eq_true, if_false, Bool.not_true, hte]
    rw [hres s1 h1 ht1, hres s2 h2 ht2, Outcome.map_map, Outcome.map_map]
    exact hc

/-- C11 at two concrete engines: the registry `AVG`, the windows `[30]` and `[60, 60]`; after
the reset and `update (5, 30)` both hold the window `[(5, 30)]` and the same metric. -/
theorem c11_reset_forgets_witness :
    ∃ r1 r2 : fpsMetrics,
      reset_metrics
        { fps_stats := [(1, Fl.lit 30)], run := false, thread_init := true, terminate := false,
          resetting := false,
          metrics := [{ name := "AVG", value := Fl.lit 0, display_name := "" }] } = some r1 ∧
      reset_metrics
        { fps_stats := [(2, Fl.lit 60), (3, Fl.lit 60)], run := false, thread_init := true,
          terminate := false, resetting := false,
          metrics := [{ name := "AVG", value := Fl.lit 0, display_name := "" }] } = some r2 ∧
      r1.fps_stats = [] ∧ r2.fps_stats = [] ∧
      (update ieee r1 5 (Fl.lit 30)).fps_stats = (update ieee r2 5 (Fl.lit 30)).fps_stats ∧
      (update ieee r1 5 (Fl.lit 30)).fps_stats =
        (if Fl.lt (Fl.round ieee.round64 (1 / 10000)) (Fl.lit 30)
          then [(5, Fl.narrow ieee.round32 (Fl.lit 30))] else []) ∧
      (calculate ieee (update ieee r1 5 (Fl.lit 30))).map (fun s => (s.fps_stats, s.metrics)) =
        (calculate ieee (update ieee r2 5 (Fl.lit 30))).map
          (fun s => (s.fps_stats, s.metrics)) ∧
      (false = false → false = false →
        (thread_step ieee (update_thread (update ieee r1 5 (Fl.lit 30)))).map
            (fun s => (s.fps_stats, s.metrics)) =
          (thread_step ieee (update_thread (update ieee r2 5 (Fl.lit 30)))).map
            (fun s => (s.fps_stats, s.metrics))) :=
  c11_reset_forgets ieee
    { fps_stats := [(1, Fl.lit 30)], run := false, thread_init := true, terminate := false,
      resetting := false,
      metrics := [{ name := "AVG", value := Fl.lit 0, display_name := "" }] }
    { fps_stats := [(2, Fl.lit 60), (3, Fl.lit 60)], run := false, thread_init := true,
      terminate := false, resetting := false,
      metrics := [{ name := "AVG", value := Fl.lit 0, display_name := "" }] }
    5 (Fl.lit 30) rfl rfl rfl

/-! ### The window is ordered by timestamp -/

/-- The window after `update` is a sublist of the window before followed by at most the new
sample, stamped `now`. -/
theorem update_window_sublist (P : Platform) (s : fpsMetrics) (now : Nat) (fps : Fl) :
    ∃ tail : List (Nat × Fl), (∀ e ∈ tail, e.1 = now) ∧
      (update P s now fps).fps_stats.Sublist (s.fps_stats ++ tail) := by
  by_cases hr : s.resetting = true
  · rw [update_resetting P s now fps hr]
    exact ⟨[], by simp, by simp⟩
  · have hr1 : s.resetting = false := by simpa using hr
    refine ⟨if Fl.lt (Fl.round P.round64 (1 / 10000)) fps then
        [(now, Fl.narrow P.round32 fps)] else [], ?_, ?_⟩
    · intro e he
      split at he
      · rw [List.mem_singleton] at he
        rw [he]
      · cases he
    · rcases Nat.lt_or_ge now 60000000000 with hnow | hnow
      · rw [update_stats_early P s now fps hr1 hnow]
      · rw [update_stats_late P s now fps hr1 hnow]
        exact List.filter_sublist _

theorem pairwise_le_last (l : List (Nat × Fl)) (now : Nat)
    (hs : l.Pairwise (fun a b => a.1 ≤ b.1)) (hlast : ∀ e ∈ l.getLast?, e.1 ≤ now) :
    ∀ e ∈ l, e.1 ≤ now := by
  intro e he
  cases hx : l.getLast? with
  | none =>
    rw [List.getLast?_eq_none_iff] at hx
    rw [hx] at he
    cases he
  | some x =>
    have hxn : x.1 ≤ now := hlast x (by rw [hx]; exact rfl)
    have hl := List.dropLast_append_getLast? x (by rw [hx]; exact rfl)
    rw [← hl] at hs he
    rw [List.pairwise_append] at hs
    rcases List.mem_append.mp he with h | h
    · exact le_trans (hs.2.2 e h x (List.mem_singleton_self x)) hxn
    · rw [List.mem_singleton] at h
      rw [h]
      exact hxn

/-- An ordered window stays ordered under `update` with a timestamp not below any stored. -/
theorem update_sorted (P : Platform) (s : fpsMetrics) (now : Nat) (fps : Fl)
    (hs : s.fps_stats.Pairwise (fun a b => a.1 ≤ b.1)) (hle : ∀ e ∈ s.fps_stats, e.1 ≤ now) :
    (update P s now fps).fps_stats.Pairwise (fun a b => a.1 ≤ b.1) ∧
    ∀ e ∈ (update P s now fps).fps_stats, e.1 ≤ now := by
  obtain ⟨tail, htail, hsub⟩ := update_window_sublist P s now fps
  have hall : ∀ e ∈ s.fps_stats ++ tail, e.1 ≤ now := by
    intro e he
    rcases List.mem_append.mp he with h | h
    · exact hle e h
    · exact le_of_eq (htail e h)
  refine ⟨List.Pairwise.sublist hsub ?_, fun e he => hall e (hsub.subset he)⟩
  rw [List.pairwise_append]
  refine ⟨hs, ?_, ?_⟩
  · rw [List.pairwise_iff_forall_sublist]
    intro a b hab
    have ha : a ∈ tail := hab.subset (List.mem_cons_self _ _)
    have hb : b ∈ tail := hab.subset (List.mem_cons_of_mem _ (List.mem_singleton_self _))
    rw [htail a ha, htail b hb]
  · intro a ha b hb
    rw [htail b hb]
    exact hle a ha

theorem runOps_sorted (P : Platform) (ops : List Op) :
    ∀ s s1 : fpsMetrics, s.fps_stats.Pairwise (fun a b => a.1 ≤ b.1) →
      (∀ e ∈ s.fps_stats, ∀ t ∈ ops.filterMap Op.stamp, e.1 ≤ t) →
      (ops.filterMap Op.stamp).Pairwise (fun a b => a ≤ b) →
      runOps P ops s = some s1 → s1.fps_stats.Pairwise (fun a b => a.1 ≤ b.1) := by
  induction ops with
  | nil =>
    intro s s1 hs _ _ h
    simp only [runOps, Option.some.injEq] at h
    subst h
    exact hs
  | cons op ops ih =>
    intro s s1 hs hle hts h
    simp only [runOps] at h
    split at h
    · rename_i s2 hs2
      cases op with
      | update now fps =>
        simp only [Op.apply, Option.some.injEq] at hs2
        subst hs2
        simp only [List.filterMap_cons, Op.stamp, List.pairwise_cons] at hts
        have hnow : ∀ e ∈ s.fps_stats, e.1 ≤ now := fun e he =>
          hle e he now (by simp [List.filterMap_cons, Op.stamp])
        obtain ⟨h1, h2⟩ := update_sorted P s now fps hs hnow
        exact ih _ s1 h1 (fun e he t ht => le_trans (h2 e he) (hts.1 t ht)) hts.2 h
      | update_thread =>
        simp only [Op.apply, Option.some.injEq] at hs2
        subst hs2
        simp only [List.filterMap_cons, Op.stamp] at hts hle
        rw [← update_thread_fps_stats s] at hs hle
        exact ih _ s1 hs hle hts h
      | reset_metrics =>
        simp only [Op.apply] at hs2
        unfold FpsMetrics.reset_metrics at hs2
        split at hs2
        · cases hs2
        · simp only [Option.some.injEq] at hs2
          subst hs2
          simp only [List.filterMap_cons, Op.stamp] at hts
          exact ih _ s1 List.Pairwise.nil (fun e he => by cases he) hts h
      | thread_step =>
        simp only [Op.apply] at hs2
        split at hs2
        · rename_i s3 hs3
          simp only [Option.some.injEq] at hs2
          subst hs2
          have hw := thread_step_fps_stats P s s3 hs3
          simp only [List.filterMap_cons, Op.stamp] at hts hle
          rw [← hw] at hs hle
          exact ih _ s1 hs hle hts h
        · cases hs2
    · cases h

/-- C16: (1) if the window is ordered by non-decreasing timestamp and `update` is called with
`now` not below the timestamp of the last stored sample, the window after `update` is again
ordered by non-decreasing timestamp, and no stored timestamp exceeds `now`. (2) Hence
after every sequence of calls (`update`, `reset_metrics`, and also `update_thread` and the
wake-ups of the worker) in which the timestamps of the `update` calls never decrease, started
on an empty window, the window is ordered. (3) The same from any ordered window whose
timestamps are not above the first `update`. -/
theorem c16_window_sorted (P : Platform) :
    (∀ (s : fpsMetrics) (now : Nat) (fps : Fl),
      s.fps_stats.Pairwise (fun a b => a.1 ≤ b.1) →
      (∀ e ∈ s.fps_stats.getLast?, e.1 ≤ now) →
      (update P s now fps).fps_stats.Pairwise (fun a b => a.1 ≤ b.1) ∧
      ∀ e ∈ (update P s now fps).fps_stats, e.1 ≤ now) ∧
    (∀ (ops : List Op) (values : List String) (s1 : fpsMetrics),
      (ops.filterMap Op.stamp).Pairwise (fun a b => a ≤ b) →
      runOps P ops (fpsMetrics.create values) = some s1 →
      s1.fps_stats.Pairwise (fun a b => a.1 ≤ b.1)) ∧
    (∀ (ops : List Op) (s s1 : fpsMetrics),
      s.fps_stats.Pairwise (fun a b => a.1 ≤ b.1) →
      (∀ e ∈ s.fps_stats, ∀ t ∈ ops.filterMap Op.stamp, e.1 ≤ t) →
      (ops.filterMap Op.stamp).Pairwise (fun a b => a ≤ b) →
      runOps P ops s = some s1 → s1.fps_stats.Pairwise (fun a b => a.1 ≤ b.1)) := by
  refine ⟨?_, ?_, runOps_sorted P⟩
  · intro s now fps hs hlast
    exact update_sorted P s now fps hs (pairwise_le_last s.fps_stats now hs hlast)
  · intro ops values s1 hts h
    exact runOps_sorted P ops (fpsMetrics.create values) s1 List.Pairwise.nil
      (fun e he => by cases he) hts h

/-- C16 at a concrete call: the ordered window `1, 70000000000` and `update` at
`70000000001`, which stores the sample and prunes the one stamped `1`. -/
theorem c16_window_sorted_witness :
    (update ieee
      { fps_stats := [(1, Fl.lit 60), (70000000000, Fl.lit 50)], run := false,
        thread_init := true, terminate := false, resetting := false, metrics := [] }
      70000000001 (Fl.lit 40)).fps_stats.Pairwise (fun a b => a.1 ≤ b.1) ∧
    ∀ e ∈ (update ieee
      { fps_stats := [(1, Fl.lit 60), (70000000000, Fl.lit 50)], run := false,
        thread_init := true, terminate := false, resetting := false, metrics := [] }
      70000000001 (Fl.lit 40)).fps_stats, e.1 ≤ 70000000001 :=
  (c16_window_sorted ieee).1
    { fps_stats := [(1, Fl.lit 60), (70000000000, Fl.lit 50)], run := false,
      thread_init := true, terminate := false, resetting := false, metrics := [] }
    70000000001 (Fl.lit 40) (by decide) (by decide)

/-! ### The worker and its trigger -/

theorem update_thread_idem (s : fpsMetrics) : update_thread (update_thread s) = update_thread s := by
  unfold update_thread
  by_cases h : s.resetting = true
  · simp only [h, if_true]
  · simp only [h, Bool.false_eq_true, if_false]

theorem update_thread_iterate (k : Nat) (s : fpsMetrics) :
    Nat.iterate update_thread (k + 1) s = update_thread s := by
  induction k with
  | zero => rfl
  | succ n ih =>
    rw [Function.iterate_succ_apply', ih, update_thread_idem]

/-- C13: on the flags `run`, `terminate`, `resetting`. (1) For every `k ≥ 1`, `k` calls of
`update_thread` with no worker step in between leave the state that one call leaves; on an
engine that is not resetting that state has `run` set and nothing else changed. (2) The
worker step that follows a pending request: with `terminate` clear it runs `calculate` once,
on that state, and clears `run`, so that the worker then blocks until the next request; with
`terminate` set it runs no cycle and leaves the loop. (3) With no request pending the worker
stays blocked. -/
theorem c13_trigger_collapses (P : Platform) (s : fpsMetrics) (k : Nat) (hk : 1 ≤ k) :
    Nat.iterate update_thread k s = update_thread s ∧
    (s.resetting = false → update_thread s = { s with run := true }) ∧
    (s.resetting = true → update_thread s = s) ∧
    ((Nat.iterate update_thread k s).run = true →
      (s.terminate = false →
        thread_wake P (Nat.iterate update_thread k s) =
          Wake.cycled ((calculate P (update_thread s)).map (fun s1 => { s1 with run := false })) ∧
        ∀ s1, calculate P (update_thread s) = Outcome.returned s1 →
          ({ s1 with run := false } : fpsMetrics).run = false ∧
          thread_wake P { s1 with run := false } = Wake.blocked) ∧
      (s.terminate = true →
        thread_wake P (Nat.iterate update_thread k s) = Wake.exited)) ∧
    ((Nat.iterate update_thread k s).run = false →
      thread_wake P (Nat.iterate update_thread k s) = Wake.blocked) := by
  obtain ⟨n, rfl⟩ : ∃ n, k = n + 1 := ⟨k - 1, by omega⟩
  rw [update_thread_iterate]
  have hterm : (update_thread s).terminate = s.terminate := by
    unfold update_thread
    split <;> rfl
  refine ⟨rfl, ?_, ?_, ?_, ?_⟩
  · intro hr
    unfold update_thread
    rw [hr]
    rfl
  · intro hr
    unfold update_thread
    rw [hr]
    rfl
  · intro hrun
    constructor
    · intro ht
      constructor
      · unfold thread_wake
        rw [hrun, hterm, ht]
        rfl
      · intro s1 _
        exact ⟨rfl, rfl⟩
    · intro ht
      unfold thread_wake
      rw [hrun, hterm, ht]
      rfl
  · intro hrun
    unfold thread_wake
    rw [hrun]
    rfl

/-- C13 at a concrete engine: three calls of `update_thread` on an idle engine. -/
theorem c13_trigger_collapses_witness :
    Nat.iterate update_thread 3
      { fps_stats := [(1, Fl.lit 125)], run := false, thread_init := true, terminate := false,
        resetting := false,
        metrics := [{ name := "AVG", value := Fl.lit 0, display_name := "" }] } =
      { fps_stats := [(1, Fl.lit 125)], run := true, thread_init := true, terminate := false,
        resetting := false,
        metrics := [{ name := "AVG", value := Fl.lit 0, display_name := "" }] } ∧
    thread_wake ieee (Nat.iterate update_thread 3
      { fps_stats := [(1, Fl.lit 125)], run := false, thread_init := true, terminate := false,
        resetting := false,
        metrics := [{ name := "AVG", value := Fl.lit 0, display_name := "" }] }) =
      Wake.cycled (Outcome.returned
        { fps_stats := [(1, Fl.lit 125)], run := false, thread_init := true, terminate := false,
          resetting := false,
          metrics := [{ name := "AVG", value := Fl.lit 125, display_name := "AVG" }] }) :=
  ⟨((c13_trigger_collapses ieee
      { fps_stats := [(1, Fl.lit 125)], run := false, thread_init := true, terminate := false,
        resetting := false,
        metrics := [{ name := "AVG", value := Fl.lit 0, display_name := "" }] } 3
      (by decide)).1).trans rfl,
   (((c13_trigger_collapses ieee
      { fps_stats := [(1, Fl.lit 125)], run := false, thread_init := true, terminate := false,
        resetting := false,
        metrics := [{ name := "AVG", value := Fl.lit 0, display_name := "" }] } 3
      (by decide)).2.2.2.1 rfl).1 rfl).1.trans (by decide!)⟩

/-! ### Failures that leave `calculate` -/

/-- A cycle that reaches an identifier on which `std::stof` throws `std::out_of_range` is left
by that exception: the handler of line 86 names `std::invalid_argument` only. -/
theorem calculate_stof_out_of_range (P : Platform) (s : fpsMetrics)
    (pre pre1 post : List metric_t) (m : metric_t)
    (hsort : sortable (s.fps_stats.map Prod.snd) = true) (hms : s.metrics = pre ++ m :: post)
    (hpre : walk P s.fps_stats (ascending (s.fps_stats.map Prod.snd)) pre = some pre1)
    (hname : m.name ≠ "AVG") (hs : P.stof m.name = StofResult.out_of_range) :
    calculate P s = Outcome.out_of_range := by
  have hv : visit P s.fps_stats (ascending (s.fps_stats.map Prod.snd)) m =
      Step.out_of_range := by
    rw [visit_of_ne P _ _ m hname, hs]
  rw [calculate_of_walk P s pre pre1 (m :: post) hsort hms hpre,
    loop_cons_out_of_range P _ _ m post hv]
  rfl

/-- C12, the code at the failing inputs. The identifier `1e39` is a numeral above the largest
`float`: `std::stof` throws `std::out_of_range`, the handler of line 86 catches
`std::invalid_argument` only, and the exception leaves `calculate`, whatever the window
is; the same from the static constructor. The identifier `abc` alone is not a number: the
handler erases the entry, `erase` returns `end()`, and line 91 increments that iterator,
which is undefined. With an entry behind it (`abc, avg`) the handler does what the claim
says and the cycle returns. -/
theorem c12_escaping_failure :
    stofIeee "1E39" = StofResult.out_of_range ∧
    calculate ieee
      { fps_stats := [(0, Fl.lit 60)], run := false, thread_init := false, terminate := false,
        resetting := false, metrics := add_metrics_to_vector ["avg", "1e39"] } =
      Outcome.out_of_range ∧
    fpsMetrics.createStatic ieee ["1e39"] [] = Outcome.out_of_range ∧
    stofIeee "ABC" = StofResult.invalid_argument ∧
    calculate ieee
      { fps_stats := [(0, Fl.lit 60)], run := false, thread_init := false, terminate := false,
        resetting := false, metrics := add_metrics_to_vector ["abc"] } =
      Outcome.undefined ∧
    calculate ieee
      { fps_stats := [(0, Fl.lit 60)], run := false, thread_init := false, terminate := false,
        resetting := false, metrics := add_metrics_to_vector ["abc", "avg"] } =
      Outcome.returned
        { fps_stats := [(0, Fl.lit 60)], run := false, thread_init := false,
          terminate := false, resetting := false,
          metrics := [{ name := "AVG", value := Fl.lit 0, display_name := "" }] } := by
  decide!

/-! ### The index of a percentile when `p * N` is below 1 -/

/-- In exact arithmetic, for `p * N < 1`, the `float` difference `p * N - 1` of line 81 lies
in `[-1, 0)`: truncated toward zero it is 0, unless `p * N = 0`, where it is `-1` and the
conversion to `uint64_t` wraps to `2^64 - 1`. -/
theorem exact_percentileIndex_small (P : Platform) (hP : P.round32 = some) (p : ℚ) (N : Nat)
    (hp0 : 0 ≤ p) (h : p * (N : ℚ) < 1) :
    percentileIndex P (Fl.num false (some p)) N =
      some (if p * (N : ℚ) = 0 then 18446744073709551615 else 0) := by
  have hN0 : (0 : ℚ) ≤ (N : ℚ) := Nat.cast_nonneg N
  have hpN : (0 : ℚ) ≤ p * (N : ℚ) := mul_nonneg hp0 hN0
  have hx : p * (N : ℚ) + -1 < 0 := by linarith
  have hx0 : ¬ p * (N : ℚ) + -1 = 0 := ne_of_lt hx
  have habs : |p * (N : ℚ) + -1| = 1 - p * (N : ℚ) := by
    rw [abs_of_neg hx]
    ring
  unfold percentileIndex
  rw [hP, lit_of_nonneg 1 (by norm_num)]
  simp only [Fl.ofNat, Fl.mul, Fl.sub, Fl.neg, Fl.add, Bool.xor_false, Bool.not_false,
    Bool.false_eq_true, if_false, if_true, Bool.false_and, hx0, Fl.round, decide_eq_true hx,
    habs, Fl.toUInt64, Fl.trunc]
  by_cases hz : p * (N : ℚ) = 0
  · rw [if_pos hz, hz]
    have hf : Rat.floor (1 - 0) = 1 := by
      have : ((1 : ℚ) - 0) = ((1 : Int) : ℚ) := by norm_num
      rw [this]
      exact (Int.floor_intCast (1 : Int) : ⌊((1 : Int) : ℚ)⌋ = 1)
    rw [hf]
    rfl
  · rw [if_neg hz]
    have hpos : 0 < p * (N : ℚ) := lt_of_le_of_ne hpN (Ne.symm hz)
    have hf : Rat.floor (1 - p * (N : ℚ)) = 0 := by
      have : ⌊1 - p * (N : ℚ)⌋ = 0 := by
        rw [Int.floor_eq_iff]
        constructor
        · simp only [Int.cast_zero]
          linarith
        · simp only [Int.cast_zero]
          linarith
      exact this
    rw [hf]
    rfl

/-- C14, refuted as stated: for `p = 0.01` and `N = 3` the floor of `p * N` is 0 and
`(floor (p * N) - 1) mod 2^64` is `2^64 - 1`, but the index the code computes is 0, in exact
arithmetic and in binary32 alike, and the metric is assigned the smallest sample, 40. -/
theorem c14_index_counterexample :
    (⌊(1 / 100 : ℚ) * ((3 : Nat) : ℚ)⌋ - 1) % (2 : Int) ^ 64 = 18446744073709551615 ∧
    percentileIndex exactArith (Fl.num false (some (1 / 100))) 3 = some 0 ∧
    stofIeee "0.01" = StofResult.value (Fl.num false (some (5368709 / 536870912))) ∧
    percentileIndex ieee (Fl.num false (some (5368709 / 536870912))) 3 = some 0 ∧
    calculate ieee
      { fps_stats := [(0, Fl.lit 60), (0, Fl.lit 50), (0, Fl.lit 40)], run := false,
        thread_init := false, terminate := false, resetting := false,
        metrics := add_metrics_to_vector ["0.01"] } =
      Outcome.returned
        { fps_stats := [(0, Fl.lit 60), (0, Fl.lit 50), (0, Fl.lit 40)], run := false,
          thread_init := false, terminate := false, resetting := false,
          metrics := [{ name := "0.01", value := Fl.lit 40, display_name := "1%" }] } ∧
    calculate exactArith
      { fps_stats := [(0, Fl.lit 60), (0, Fl.lit 50), (0, Fl.lit 40)], run := false,
        thread_init := false, terminate := false, resetting := false,
        metrics := add_metrics_to_vector ["0.01"] } =
      Outcome.returned
        { fps_stats := [(0, Fl.lit 60), (0, Fl.lit 50), (0, Fl.lit 40)], run := false,
          thread_init := false, terminate := false, resetting := false,
          metrics := [{ name := "0.01", value := Fl.lit 40, display_name := "1%" }] } := by
  decide!

/-! ### The average lies between the smallest and the largest sample -/

theorem sum_inv_le (vs : List (Nat × ℚ)) (a : ℚ) (ha : 0 < a) (h : ∀ p ∈ vs, a ≤ p.2) :
    a * (vs.map (fun p => 1 / p.2)).sum ≤ (vs.length : ℚ) := by
  induction vs with
  | nil => simp
  | cons v vs ih =>
    have hv : a ≤ v.2 := h v (List.mem_cons_self _ _)
    have hvpos : 0 < v.2 := lt_of_lt_of_le ha hv
    have h1 : a * (1 / v.2) ≤ 1 := by
      rw [mul_one_div, div_le_one hvpos]
      exact hv
    have h2 := ih (fun p hp => h p (List.mem_cons_of_mem _ hp))
    simp only [List.map_cons, List.sum_cons, List.length_cons, Nat.cast_add, Nat.cast_one,
      mul_add]
    linarith

theorem sum_inv_ge (vs : List (Nat × ℚ)) (b : ℚ) (hpos : ∀ p ∈ vs, 0 < p.2)
    (h : ∀ p ∈ vs, p.2 ≤ b) :
    (vs.length : ℚ) ≤ b * (vs.map (fun p => 1 / p.2)).sum := by
  induction vs with
  | nil => simp
  | cons v vs ih =>
    have hv : v.2 ≤ b := h v (List.mem_cons_self _ _)
    have hvpos : 0 < v.2 := hpos v (List.mem_cons_self _ _)
    have h1 : 1 ≤ b * (1 / v.2) := by
      rw [mul_one_div, one_le_div hvpos]
      exact hv
    have h2 := ih (fun p hp => hpos p (List.mem_cons_of_mem _ hp))
      (fun p hp => h p (List.mem_cons_of_mem _ hp))
    simp only [List.map_cons, List.sum_cons, List.length_cons, Nat.cast_add, Nat.cast_one,
      mul_add]
    linarith

/-- C19: for a window that is not empty and holds strictly positive samples, the value
`average` computes in exact arithmetic (the value a cycle assigns to `AVG`) is a number `h`
that is at least every lower bound and at most every upper bound of the samples, so it lies
between the smallest and the largest sample; on a window whose samples all equal `v` it is
`v`. -/
theorem c19_average_between (vs : List (Nat × ℚ)) (hne : vs ≠ []) (hpos : ∀ p ∈ vs, 0 < p.2) :
    ∃ h : ℚ,
      average exactArith (vs.map (fun p => (p.1, Fl.num false (some p.2)))) =
        Fl.num false (some h) ∧
      (∀ a : ℚ, (∀ p ∈ vs, a ≤ p.2) → a ≤ h) ∧
      (∀ b : ℚ, (∀ p ∈ vs, p.2 ≤ b) → h ≤ b) ∧
      (∃ lo ∈ vs, ∃ hi ∈ vs, lo.2 ≤ h ∧ h ≤ hi.2 ∧ ∀ p ∈ vs, lo.2 ≤ p.2 ∧ p.2 ≤ hi.2) ∧
      (∀ v : ℚ, (∀ p ∈ vs, p.2 = v) → h = v) := by
  have hT := sum_pos_of_pos vs hne hpos 1 (by norm_num)
  have hlen : (0 : ℚ) < (vs.length : ℚ) := by
    have : 0 < vs.length := List.length_pos.mpr hne
    exact_mod_cast this
  have hlow : ∀ a : ℚ, (∀ p ∈ vs, a ≤ p.2) →
      a ≤ (vs.length : ℚ) / (vs.map (fun p => 1 / p.2)).sum := by
    intro a ha
    rcases le_or_lt a 0 with h0 | h0
    · exact le_trans h0 (le_of_lt (div_pos hlen hT))
    · rw [le_div_iff₀ hT]
      exact sum_inv_le vs a h0 ha
  have hup : ∀ b : ℚ, (∀ p ∈ vs, p.2 ≤ b) →
      (vs.length : ℚ) / (vs.map (fun p => 1 / p.2)).sum ≤ b := by
    intro b hb
    rw [div_le_iff₀ hT]
    exact sum_inv_ge vs b hpos hb
  have hmin : ∃ lo ∈ vs, ∀ p ∈ vs, lo.2 ≤ p.2 := by
    clear hT hlen hlow hup hpos
    induction vs with
    | nil => exact absurd rfl hne
    | cons v vs ih =>
      by_cases hvs : vs = []
      · subst hvs
        exact ⟨v, List.mem_cons_self _ _, fun p hp => by
          rw [List.mem_singleton] at hp
          rw [hp]⟩
      · obtain ⟨lo, hlo, hall⟩ := ih hvs
        rcases le_total v.2 lo.2 with h | h
        · refine ⟨v, List.mem_cons_self _ _, fun p hp => ?_⟩
          rcases List.mem_cons.mp hp with hp | hp
          · rw [hp]
          · exact le_trans h (hall p hp)
        · refine ⟨lo, List.mem_cons_of_mem _ hlo, fun p hp => ?_⟩
          rcases List.mem_cons.mp hp with hp | hp
          · rw [hp]
            exact h
          · exact hall p hp
  have hmax : ∃ hi ∈ vs, ∀ p ∈ vs, p.2 ≤ hi.2 := by
    clear hT hlen hlow hup hpos hmin
    induction vs with
    | nil => exact absurd rfl hne
    | cons v vs ih =>
      by_cases hvs : vs = []
      · subst hvs
        exact ⟨v, List.mem_cons_self _ _, fun p hp => by
          rw [List.mem_singleton] at hp
          rw [hp]⟩
      · obtain ⟨hi, hhi, hall⟩ := ih hvs
        rcases le_total hi.2 v.2 with h | h
        · refine ⟨v, List.mem_cons_self _ _, fun p hp => ?_⟩
          rcases List.mem_cons.mp hp with hp | hp
          · rw [hp]
          · exact le_trans (hall p hp) h
        · refine ⟨hi, List.mem_cons_of_mem _ hhi, fun p hp => ?_⟩
          rcases List.mem_cons.mp hp with hp | hp
          · rw [hp]
            exact h
          · exact hall p hp
  refine ⟨(vs.length : ℚ) / (vs.map (fun p => 1 / p.2)).sum, ?_, hlow, hup, ?_, ?_⟩
  · rw [exact_average vs hne hpos, harmonic_mean_eq vs hne hpos]
  · obtain ⟨lo, hlo, hlall⟩ := hmin
    obtain ⟨hi, hhi, hhall⟩ := hmax
    exact ⟨lo, hlo, hi, hhi, hlow lo.2 hlall, hup hi.2 hhall,
      fun p hp => ⟨hlall p hp, hhall p hp⟩⟩
  · intro v hv
    exact le_antisymm (hup v (fun p hp => le_of_eq (hv p hp)))
      (hlow v (fun p hp => le_of_eq (hv p hp).symm))

/-- C19 at a concrete window: on `[30, 60]` the exact average is 40, between 30 and 60. -/
theorem c19_average_between_witness :
    ∃ h : ℚ,
      average exactArith
        (([(1, 30), (2, 60)] : List (Nat × ℚ)).map
          (fun p => (p.1, Fl.num false (some p.2)))) = Fl.num false (some h) ∧
      (∀ a : ℚ, (∀ p ∈ ([(1, 30), (2, 60)] : List (Nat × ℚ)), a ≤ p.2) → a ≤ h) ∧
      (∀ b : ℚ, (∀ p ∈ ([(1, 30), (2, 60)] : List (Nat × ℚ)), p.2 ≤ b) → h ≤ b) ∧
      (∃ lo ∈ ([(1, 30), (2, 60)] : List (Nat × ℚ)),
        ∃ hi ∈ ([(1, 30), (2, 60)] : List (Nat × ℚ)),
          lo.2 ≤ h ∧ h ≤ hi.2 ∧
          ∀ p ∈ ([(1, 30), (2, 60)] : List (Nat × ℚ)), lo.2 ≤ p.2 ∧ p.2 ≤ hi.2) ∧
      (∀ v : ℚ, (∀ p ∈ ([(1, 30), (2, 60)] : List (Nat × ℚ)), p.2 = v) → h = v) :=
  c19_average_between [(1, 30), (2, 60)] (by decide)
    (by
      intro p hp
      simp only [List.mem_cons, List.mem_singleton, List.not_mem_nil, or_false] at hp
      rcases hp with hp | hp <;> rw [hp] <;> norm_num)

/-! ### The static constructor and the live engine -/

/-- The average reads the values of the window, not the timestamps. -/
theorem average_congr (P : Platform) (fs gs : List (Nat × Fl))
    (h : fs.map Prod.snd = gs.map Prod.snd) : average P fs = average P gs := by
  have hfold : ∀ (l : List (Nat × Fl)) (acc : Fl),
      l.foldl (fun acc p => Fl.add P.round32 acc (Fl.div P.round32 (Fl.lit 1000) p.2)) acc =
        (l.map Prod.snd).foldl
          (fun acc v => Fl.add P.round32 acc (Fl.div P.round32 (Fl.lit 1000) v)) acc := by
    intro l
    induction l with
    | nil => intro acc; rfl
    | cons x l ih =>
      intro acc
      simp only [List.foldl_cons, List.map_cons]
      exact ih _
  have hlen : fs.length = gs.length := by
    have := congrArg List.length h
    simpa using this
  unfold average
  simp only []
  rw [hfold fs, hfold gs, h, hlen]

theorem visit_congr (P : Platform) (fs gs : List (Nat × Fl)) (sv : List Fl) (m : metric_t)
    (h : fs.map Prod.snd = gs.map Prod.snd) : visit P fs sv m = visit P gs sv m := by
  have hemp : fs.isEmpty = gs.isEmpty := by
    cases fs with
    | nil =>
      cases gs with
      | nil => rfl
      | cons b gs => simp at h
    | cons a fs =>
      cases gs with
      | nil => simp at h
      | cons b gs => rfl
  by_cases hn : m.name = "AVG"
  · rw [visit_avg P fs sv m hn, visit_avg P gs sv m hn, hemp, average_congr P fs gs h]
  · rw [visit_of_ne P fs sv m hn, visit_of_ne P gs sv m hn]

theorem loop_congr (P : Platform) (fs gs : List (Nat × Fl)) (sv : List Fl)
    (h : fs.map Prod.snd = gs.map Prod.snd) (ms : List metric_t) :
    loop P fs sv ms = loop P gs sv ms := by
  induction ms using loop.induct P fs sv with
  | case1 => simp only [loop]
  | case2 n rest a hv ih =>
    rw [loop_cons_next P fs sv n a rest hv,
      loop_cons_next P gs sv n a rest (by rw [← visit_congr P fs gs sv n h]; exact hv), ih]
  | case3 n rest a hv =>
    rw [loop_cons_stop P fs sv n a rest hv,
      loop_cons_stop P gs sv n a rest (by rw [← visit_congr P fs gs sv n h]; exact hv)]
  | case4 n rest hv =>
    rw [loop_cons_erase_stop P fs sv n rest hv,
      loop_cons_erase_stop P gs sv n rest (by rw [← visit_congr P fs gs sv n h]; exact hv)]
  | case5 n hv =>
    rw [loop_erase_next_nil P fs sv n hv,
      loop_erase_next_nil P gs sv n (by rw [← visit_congr P fs gs sv n h]; exact hv)]
  | case6 n hv k rest ih =>
    rw [loop_erase_next_cons P fs sv n k rest hv,
      loop_erase_next_cons P gs sv n k rest (by rw [← visit_congr P fs gs sv n h]; exact hv),
      ih]
  | case7 n rest hv =>
    rw [loop_cons_out_of_range P fs sv n rest hv,
      loop_cons_out_of_range P gs sv n rest (by rw [← visit_congr P fs gs sv n h]; exact hv)]
  | case8 n rest hv =>
    rw [loop_cons_undefined P fs sv n rest hv,
      loop_cons_undefined P gs sv n rest (by rw [← visit_congr P fs gs sv n h]; exact hv)]

/-- The registry a cycle leaves depends on the registry it starts from and on the values of
the window in their order, not on the timestamps nor on the flags. -/
theorem calculate_congr_values (P : Platform) (s1 s2 : fpsMetrics)
    (hw : s1.fps_stats.map Prod.snd = s2.fps_stats.map Prod.snd)
    (hm : s1.metrics = s2.metrics) :
    (calculate P s1).map fpsMetrics.metrics = (calculate P s2).map fpsMetrics.metrics := by
  cases hs : sortable (s2.fps_stats.map Prod.snd) with
  | false =>
    rw [calculate_of_not_sortable P s2 hs, calculate_of_not_sortable P s1 (by rw [hw]; exact hs)]
  | true =>
    rw [calculate_of_sortable P s2 hs, calculate_of_sortable P s1 (by rw [hw]; exact hs),
      Outcome.map_map, Outcome.map_map, hw, hm, loop_congr P s1.fps_stats s2.fps_stats _ hw]

/-- Feeding samples that all pass the threshold, none of them more than a minute after a
sample held or fed, appends them to the window in order, narrowed to `float`. -/
theorem feed_window (P : Platform) (samples : List (Nat × Fl)) :
    ∀ s : fpsMetrics, s.resetting = false →
      (∀ x ∈ samples, Fl.lt (Fl.round P.round64 (1 / 10000)) x.2 = true) →
      (∀ x ∈ samples,
        ∀ e ∈ s.fps_stats ++ samples.map (fun y => (y.1, Fl.narrow P.round32 y.2)),
          x.1 ≤ e.1 + 60000000000) →
      (feed P s samples).fps_stats =
          s.fps_stats ++ samples.map (fun y => (y.1, Fl.narrow P.round32 y.2)) ∧
        (feed P s samples).metrics = s.metrics := by
  induction samples with
  | nil =>
    intro s _ _ _
    simp [feed]
  | cons x xs ih =>
    intro s hr hgt hspan
    have hx : Fl.lt (Fl.round P.round64 (1 / 10000)) x.2 = true :=
      hgt x (List.mem_cons_self _ _)
    have hstep : (update P s x.1 x.2).fps_stats =
        s.fps_stats ++ [(x.1, Fl.narrow P.round32 x.2)] := by
      rcases Nat.lt_or_ge x.1 60000000000 with hnow | hnow
      · rw [update_stats_early P s x.1 x.2 hr hnow, hx]
        rfl
      · rw [update_stats_late P s x.1 x.2 hr hnow, hx]
        simp only [if_true]
        rw [List.filter_eq_self]
        intro e he
        have h1 := hspan x (List.mem_cons_self _ _) e (by
          rcases List.mem_append.mp he with h | h
          · exact List.mem_append_left _ h
          · rw [List.mem_singleton] at h
            rw [h]
            exact List.mem_append_right _ (List.mem_cons_self _ _))
        exact decide_eq_true (by omega)
    have hr1 : (update P s x.1 x.2).resetting = false := by
      unfold update
      rw [hr]
      simp only [Bool.false_eq_true, if_false]
      split <;> rfl
    have hwin : (update P s x.1 x.2).fps_stats ++
        xs.map (fun y => (y.1, Fl.narrow P.round32 y.2)) =
        s.fps_stats ++ (x :: xs).map (fun y => (y.1, Fl.narrow P.round32 y.2)) := by
      rw [hstep, List.append_assoc]
      rfl
    obtain ⟨h1, h2⟩ := ih (update P s x.1 x.2) hr1
      (fun y hy => hgt y (List.mem_cons_of_mem _ hy))
      (fun y hy e he => hspan y (List.mem_cons_of_mem _ hy) e (by rw [← hwin]; exact he))
    have hfeed : feed P s (x :: xs) = feed P (update P s x.1 x.2) xs := rfl
    rw [hfeed, h1, h2, update_metrics, hwin]
    exact ⟨rfl, rfl⟩

theorem ilog2_unique (q : ℚ) (k : Int) (h1 : pow2 k ≤ q) (h2 : q < pow2 (k + 1)) :
    ilog2 q = k := by
  have hq : 0 < q := lt_of_lt_of_le (pow2_pos k) h1
  obtain ⟨h3, h4⟩ := ilog2_spec q hq
  have h5 : ilog2 q < k + 1 := pow2_lt_iff (lt_of_le_of_lt h3 h2)
  have h6 : k < ilog2 q + 1 := pow2_lt_iff (lt_of_le_of_lt h1 h4)
  omega

/-- No `float` lies above `0.0001` and at or below the `double` literal `0.0001`: between
`13743895 / 2^37` and `13743896 / 2^37` there is no `float`. -/
theorem binary32_above_literal (v : Fl) (hfloat : Fl.narrow binary32 v = v)
    (h : Fl.lt (Fl.lit (1 / 10000)) v = true) :
    Fl.lt (Fl.round binary64 (1 / 10000)) v = true := by
  have heps : Fl.round binary64 (1 / 10000) =
      Fl.num false (some (7378697629483821 / 73786976294838206464)) := by decide!
  rw [heps]
  rw [lit_of_nonneg (1 / 10000) (by norm_num)] at h
  cases v with
  | nan => simp [Fl.lt] at h
  | num sg m =>
    cases m with
    | none =>
      cases sg with
      | true => simp [Fl.lt, Fl.key] at h
      | false => decide!
    | some a =>
      simp only [Fl.narrow, Fl.num.injEq, true_and] at hfloat
      have ha0 : 0 ≤ a := by
        by_contra hneg
        have hle : a ≤ 0 := le_of_lt (not_le.mp hneg)
        have h0 : binary32 a = some 0 := by
          unfold binary32 roundNE
          rw [if_pos hle]
        rw [h0, Option.some.injEq] at hfloat
        rw [← hfloat] at hneg
        exact hneg (le_refl 0)
      cases sg with
      | true =>
        simp only [Fl.lt, Fl.key, if_true, Bool.false_eq_true, if_false, decide_eq_true_eq] at h
        rcases h with h | ⟨_, h⟩
        · exact absurd h (lt_irrefl _)
        · linarith
      | false =>
        simp only [Fl.lt, Fl.key, Bool.false_eq_true, if_false, decide_eq_true_eq] at h
        have hlt : (1 / 10000 : ℚ) < a := by
          rcases h with h | ⟨_, h⟩
          · exact absurd h (lt_irrefl _)
          · exact h
        simp only [Fl.lt, Fl.key, Bool.false_eq_true, if_false, decide_eq_true_eq]
        refine Or.inr ⟨trivial, ?_⟩
        by_contra hcon
        have hle : a ≤ 7378697629483821 / 73786976294838206464 := not_lt.mp hcon
        have hapos : 0 < a := lt_trans (by norm_num) hlt
        have hp14 : pow2 (-14) = 1 / 16384 := by decide!
        have hp13 : pow2 (-14 + 1) = 1 / 8192 := by decide!
        have hp37 : pow2 (-37) = 1 / 137438953472 := by decide!
        have hlog : ilog2 a = -14 :=
          ilog2_unique a (-14) (by rw [hp14]; linarith) (by rw [hp13]; linarith)
        have hr := roundNE_of_pos 24 (-126) 127 a hapos
        have hexp : max (ilog2 a) (-126) - (((24 : Nat) : Int) - 1) = -37 := by
          rw [hlog]
          decide
        rw [hexp, hp37] at hr
        have hb : binary32 a = roundNE 24 (-126) 127 a := rfl
        rw [hb, hr] at hfloat
        split at hfloat
        · cases hfloat
        · rw [Option.some.injEq] at hfloat
          have h1 : ((13743895 : Int) : ℚ) * (1 / 137438953472) <
              (roundHalfEven (a / (1 / 137438953472)) : ℚ) * (1 / 137438953472) := by
            rw [hfloat]
            push_cast
            linarith
          have h2 : (roundHalfEven (a / (1 / 137438953472)) : ℚ) * (1 / 137438953472) <
              ((13743896 : Int) : ℚ) * (1 / 137438953472) := by
            rw [hfloat]
            push_cast
            linarith
          have hu : (0 : ℚ) < 1 / 137438953472 := by norm_num
          have h3 : (13743895 : Int) < roundHalfEven (a / (1 / 137438953472)) := by
            exact_mod_cast lt_of_mul_lt_mul_right h1 (le_of_lt hu)
          have h4 : roundHalfEven (a / (1 / 137438953472)) < (13743896 : Int) := by
            exact_mod_cast lt_of_mul_lt_mul_right h2 (le_of_lt hu)
          omega

theorem feed_create (P : Platform) (values : List String) (samples : List (Nat × Fl))
    (hgt : ∀ x ∈ samples, Fl.lt (Fl.round P.round64 (1 / 10000)) x.2 = true)
    (hfloat : ∀ x ∈ samples, Fl.narrow P.round32 x.2 = x.2)
    (hord : samples.Pairwise (fun a b => a.1 ≤ b.1))
    (hspan : ∀ l ∈ samples.getLast?, ∀ x ∈ samples, l.1 ≤ x.1 + 60000000000) :
    (feed P (fpsMetrics.create values) samples).fps_stats = samples ∧
    (calculate P (feed P (fpsMetrics.create values) samples)).map fpsMetrics.metrics =
      (fpsMetrics.createStatic P values (samples.map Prod.snd)).map fpsMetrics.metrics := by
  have hnarrow : samples.map (fun y => (y.1, Fl.narrow P.round32 y.2)) = samples := by
    have hid : ∀ y ∈ samples, (fun y : Nat × Fl => (y.1, Fl.narrow P.round32 y.2)) y = id y := by
      intro y hy
      simp only [id, hfloat y hy]
    rw [List.map_congr_left hid, List.map_id]
  have hsp : ∀ x ∈ samples,
      ∀ e ∈ (fpsMetrics.create values).fps_stats ++
        samples.map (fun y => (y.1, Fl.narrow P.round32 y.2)), x.1 ≤ e.1 + 60000000000 := by
    intro x hx e he
    rw [hnarrow] at he
    have he1 : e ∈ samples := he
    cases hl : samples.getLast? with
    | none =>
      rw [List.getLast?_eq_none_iff] at hl
      rw [hl] at hx
      cases hx
    | some l =>
      have hlast := hspan l (by rw [hl]; exact rfl) e he1
      have hxl := pairwise_le_last samples l.1 hord
        (fun z hz => by
          rw [hl] at hz
          cases hz
          exact le_refl _) x hx
      omega
  obtain ⟨hw, hm⟩ := feed_window P samples (fpsMetrics.create values) rfl hgt hsp
  rw [hnarrow] at hw
  have hw1 : (feed P (fpsMetrics.create values) samples).fps_stats = samples := hw
  refine ⟨hw1, ?_⟩
  unfold fpsMetrics.createStatic
  apply calculate_congr_values
  · rw [hw1, List.map_map]
    simp only [List.map_map]
    apply List.map_congr_left
    intro x _
    rfl
  · rw [hm]
    rfl

/-- C17: take any identifiers and any samples whose values are `float`s greater than
`0.0001`, with timestamps that never decrease and are all within one minute of the last one
(so that no `update` prunes). The live engine built from the identifiers and fed the samples
in order through `update` holds exactly these samples, and one cycle on it gives the same
result, with the same registry (names, values, display names), as the static constructor on
the identifiers and the values. (1) On every platform, with `greater than 0.0001` read as the
test `fps > 0.0001` of line 130; (2) in binary32 / binary64 and (3) in exact arithmetic, with
`greater than 0.0001` read as the real comparison. -/
theorem c17_static_equals_live :
    (∀ (P : Platform) (values : List String) (samples : List (Nat × Fl)),
      (∀ x ∈ samples, Fl.lt (Fl.round P.round64 (1 / 10000)) x.2 = true) →
      (∀ x ∈ samples, Fl.narrow P.round32 x.2 = x.2) →
      samples.Pairwise (fun a b => a.1 ≤ b.1) →
      (∀ l ∈ samples.getLast?, ∀ x ∈ samples, l.1 ≤ x.1 + 60000000000) →
      (feed P (fpsMetrics.create values) samples).fps_stats = samples ∧
      (calculate P (feed P (fpsMetrics.create values) samples)).map fpsMetrics.metrics =
        (fpsMetrics.createStatic P values (samples.map Prod.snd)).map fpsMetrics.metrics) ∧
    (∀ (values : List String) (samples : List (Nat × Fl)),
      (∀ x ∈ samples, Fl.lt (Fl.lit (1 / 10000)) x.2 = true) →
      (∀ x ∈ samples, Fl.narrow binary32 x.2 = x.2) →
      samples.Pairwise (fun a b => a.1 ≤ b.1) →
      (∀ l ∈ samples.getLast?, ∀ x ∈ samples, l.1 ≤ x.1 + 60000000000) →
      (calculate ieee (feed ieee (fpsMetrics.create values) samples)).map fpsMetrics.metrics =
        (fpsMetrics.createStatic ieee values (samples.map Prod.snd)).map fpsMetrics.metrics) ∧
    (∀ (values : List String) (samples : List (Nat × Fl)),
      (∀ x ∈ samples, Fl.lt (Fl.lit (1 / 10000)) x.2 = true) →
      samples.Pairwise (fun a b => a.1 ≤ b.1) →
      (∀ l ∈ samples.getLast?, ∀ x ∈ samples, l.1 ≤ x.1 + 60000000000) →
      (calculate exactArith (feed exactArith (fpsMetrics.create values) samples)).map
          fpsMetrics.metrics =
        (fpsMetrics.createStatic exactArith values (samples.map Prod.snd)).map
          fpsMetrics.metrics) := by
  refine ⟨feed_create, ?_, ?_⟩
  · intro values samples hgt hfloat hord hspan
    exact (feed_create ieee values samples
      (fun x hx => binary32_above_literal x.2 (hfloat x hx) (hgt x hx)) hfloat hord hspan).2
  · intro values samples hgt hord hspan
    have hn : ∀ v : Fl, Fl.narrow some v = v := by
      intro v
      cases v with
      | nan => rfl
      | num sg m => cases m <;> rfl
    exact (feed_create exactArith values samples (fun x hx => hgt x hx)
      (fun x _ => hn x.2) hord hspan).2

/-- C17 at a concrete engine in binary32: the identifiers `avg, 0.5` and the values 30, 60,
fed at the timestamps 1 and 2. -/
theorem c17_static_equals_live_witness :
    (calculate ieee (feed ieee (fpsMetrics.create ["avg", "0.5"])
        [(1, Fl.lit 30), (2, Fl.lit 60)])).map fpsMetrics.metrics =
      (fpsMetrics.createStatic ieee ["avg", "0.5"] [Fl.lit 30, Fl.lit 60]).map
        fpsMetrics.metrics ∧
    (fpsMetrics.createStatic ieee ["avg", "0.5"] [Fl.lit 30, Fl.lit 60]).map
        fpsMetrics.metrics =
      Outcome.returned [{ name := "AVG", value := Fl.lit 40, display_name := "AVG" },
                        { name := "0.5", value := Fl.lit 30, display_name := "50%" }] :=
  ⟨c17_static_equals_live.2.1 ["avg", "0.5"] [(1, Fl.lit 30), (2, Fl.lit 60)]
    (by decide!) (by decide!) (by decide) (by decide), by decide!⟩

/-! ### Rounding is monotone -/

theorem roundHalfEven_mono (x y : ℚ) (h : x ≤ y) : roundHalfEven x ≤ roundHalfEven y := by
  have hfx : ((Rat.floor x : Int) : ℚ) ≤ x := Int.floor_le x
  have hfy : ((Rat.floor y : Int) : ℚ) ≤ y := Int.floor_le y
  have hxf : x < ((Rat.floor x : Int) : ℚ) + 1 := Int.lt_floor_add_one x
  have hff : Rat.floor x ≤ Rat.floor y := Int.floor_mono h
  rcases lt_or_eq_of_le hff with hlt | heq
  · have h1 : roundHalfEven x ≤ Rat.floor x + 1 := by
      apply roundHalfEven_le
      push_cast
      linarith
    have h2 : Rat.floor y ≤ roundHalfEven y := le_roundHalfEven y _ hfy
    omega
  · unfold roundHalfEven
    simp only []
    rw [← heq]
    split_ifs <;> first | omega | (exfalso; linarith)

theorem ilog2_mono (x y : ℚ) (hx : 0 < x) (h : x ≤ y) : ilog2 x ≤ ilog2 y := by
  obtain ⟨h1, _⟩ := ilog2_spec x hx
  obtain ⟨_, h4⟩ := ilog2_spec y (lt_of_lt_of_le hx h)
  have : ilog2 x < ilog2 y + 1 := pow2_lt_iff (lt_of_le_of_lt (le_trans h1 h) h4)
  omega

theorem roundNE_nonneg (prec : Nat) (emin emax : Int) (q r : ℚ)
    (h : roundNE prec emin emax q = some r) : 0 ≤ r := by
  unfold roundNE at h
  split at h
  · cases h
    exact le_refl 0
  · simp only [] at h
    split at h
    · cases h
    · rename_i hq _
      cases h
      have hu := pow2_pos (max (ilog2 q) emin - ((prec : Int) - 1))
      have hge : (0 : Int) ≤
          roundHalfEven (q / pow2 (max (ilog2 q) emin - ((prec : Int) - 1))) := by
        apply le_roundHalfEven
        simp only [Int.cast_zero]
        exact div_nonneg (le_of_lt (not_le.mp hq)) (le_of_lt hu)
      exact mul_nonneg (by exact_mod_cast hge) (le_of_lt hu)

/-- Round to nearest is monotone: if `x ≤ y` and the rounding of `y` is finite, so is the
rounding of `x`, and it is not larger. -/
theorem roundNE_mono (prec : Nat) (emin emax : Int) (hprec : 1 ≤ prec) (x y b : ℚ)
    (h : x ≤ y) (hb : roundNE prec emin emax y = some b) :
    ∃ a, roundNE prec emin emax x = some a ∧ 0 ≤ a ∧ a ≤ b := by
  have hb0 := roundNE_nonneg prec emin emax y b hb
  rcases le_or_lt x 0 with hx | hx
  · refine ⟨0, ?_, le_refl 0, hb0⟩
    unfold roundNE
    rw [if_pos hx]
  · have hy : 0 < y := lt_of_lt_of_le hx h
    have hux := pow2_pos (max (ilog2 x) emin - ((prec : Int) - 1))
    have huy := pow2_pos (max (ilog2 y) emin - ((prec : Int) - 1))
    rw [roundNE_of_pos prec emin emax y hy] at hb
    split at hb
    · cases hb
    · rename_i hnot
      simp only [Option.some.injEq] at hb
      have hlog := ilog2_mono x y hx h
      have hle : (roundHalfEven (x / pow2 (max (ilog2 x) emin - ((prec : Int) - 1))) : ℚ) *
          pow2 (max (ilog2 x) emin - ((prec : Int) - 1)) ≤ b := by
        rw [← hb]
        rcases lt_or_eq_of_le (max_le_max hlog (le_refl emin)) with hlt | heq
        · have hmax : max (ilog2 y) emin = ilog2 y := by
            rcases le_total (ilog2 y) emin with h1 | h1
            · rw [max_eq_right h1] at hlt
              have := le_max_right (ilog2 x) emin
              omega
            · exact max_eq_left h1
          have e1 : (((2 ^ prec : Nat) : Int) : ℚ) = pow2 ((prec : Nat) : Int) := by
            rw [pow2_natCast]
            push_cast
            rfl
          have e2 : (((2 ^ (prec - 1) : Nat) : Int) : ℚ) = pow2 ((prec - 1 : Nat) : Int) := by
            rw [pow2_natCast]
            push_cast
            rfl
          have hxup : roundHalfEven (x / pow2 (max (ilog2 x) emin - ((prec : Int) - 1))) ≤
              ((2 ^ prec : Nat) : Int) := by
            apply roundHalfEven_le
            rw [div_le_iff₀ hux, e1, ← pow2_add]
            have e3 : ((prec : Nat) : Int) + (max (ilog2 x) emin - ((prec : Int) - 1)) =
                max (ilog2 x) emin + 1 := by omega
            rw [e3]
            exact le_trans (le_of_lt (ilog2_spec x hx).2)
              (pow2_mono (by have := le_max_left (ilog2 x) emin; omega))
          have hylo : ((2 ^ (prec - 1) : Nat) : Int) ≤
              roundHalfEven (y / pow2 (max (ilog2 y) emin - ((prec : Int) - 1))) := by
            apply le_roundHalfEven
            rw [le_div_iff₀ huy, e2, ← pow2_add, hmax]
            have e3 : ((prec - 1 : Nat) : Int) + (ilog2 y - ((prec : Int) - 1)) = ilog2 y := by
              omega
            rw [e3]
            exact (ilog2_spec y hy).1
          calc (roundHalfEven (x / pow2 (max (ilog2 x) emin - ((prec : Int) - 1))) : ℚ) *
                pow2 (max (ilog2 x) emin - ((prec : Int) - 1))
              ≤ (((2 ^ prec : Nat) : Int) : ℚ) *
                pow2 (max (ilog2 x) emin - ((prec : Int) - 1)) :=
                mul_le_mul_of_nonneg_right (by exact_mod_cast hxup) (le_of_lt hux)
            _ = pow2 (max (ilog2 x) emin + 1) := by
                rw [e1, ← pow2_add]
                congr 1
                omega
            _ ≤ pow2 (max (ilog2 y) emin) := pow2_mono (by omega)
            _ = (((2 ^ (prec - 1) : Nat) : Int) : ℚ) *
                pow2 (max (ilog2 y) emin - ((prec : Int) - 1)) := by
                rw [e2, ← pow2_add]
                congr 1
                omega
            _ ≤ (roundHalfEven (y / pow2 (max (ilog2 y) emin - ((prec : Int) - 1))) : ℚ) *
                pow2 (max (ilog2 y) emin - ((prec : Int) - 1)) :=
                mul_le_mul_of_nonneg_right (by exact_mod_cast hylo) (le_of_lt huy)
        · rw [← heq]
          have hmono := roundHalfEven_mono
            (x / pow2 (max (ilog2 x) emin - ((prec : Int) - 1)))
            (y / pow2 (max (ilog2 x) emin - ((prec : Int) - 1)))
            (div_le_div_of_nonneg_right h (le_of_lt hux))
          exact mul_le_mul_of_nonneg_right (by exact_mod_cast hmono) (le_of_lt hux)
      refine ⟨_, ?_, ?_, hle⟩
      · rw [roundNE_of_pos prec emin emax x hx, if_neg]
        rw [← hb] at hle
        exact not_le.mpr (lt_of_le_of_lt hle (not_le.mp hnot))
      · have hge : (0 : Int) ≤
            roundHalfEven (x / pow2 (max (ilog2 x) emin - ((prec : Int) - 1))) := by
          apply le_roundHalfEven
          simp only [Int.cast_zero]
          exact div_nonneg (le_of_lt hx) (le_of_lt hux)
        exact mul_nonneg (by exact_mod_cast hge) (le_of_lt hux)

/-! ### Percentiles are monotone in the fraction -/

/-- The index of line 81 for a fraction `0 ≤ p ≤ 1` when it is in range, under a rounding
that is monotone and keeps `1` and `2^63`: it is 0 when the `float` product is at
most 1, and the floor of the rounded difference otherwise. -/
theorem percentileIndex_shape (P : Platform)
    (hM : ∀ x y b : ℚ, 0 ≤ x → x ≤ y → P.round32 y = some b →
      ∃ a, P.round32 x = some a ∧ 0 ≤ a ∧ a ≤ b)
    (h1 : P.round32 1 = some 1)
    (hB : P.round32 9223372036854775808 = some 9223372036854775808)
    (p : ℚ) (N i : Nat) (hp0 : 0 ≤ p) (hp1 : p ≤ 1) (hN : N ≤ 9223372036854775808)
    (h : percentileIndex P (Fl.num false (some p)) N = some i) (hi : i < N) :
    ∃ n q : ℚ, P.round32 (N : ℚ) = some n ∧ 0 ≤ n ∧ P.round32 (p * n) = some q ∧
      ((q ≤ 1 ∧ i = 0) ∨
        (1 < q ∧ ∃ z : ℚ, P.round32 (q - 1) = some z ∧ (i : Int) = ⌊z⌋)) := by
  have hNq : (N : ℚ) ≤ 9223372036854775808 := by exact_mod_cast hN
  obtain ⟨n, hn, hn0, hnB⟩ := hM (N : ℚ) 9223372036854775808 9223372036854775808
    (Nat.cast_nonneg N) hNq hB
  have hpn : p * n ≤ 9223372036854775808 := by nlinarith
  obtain ⟨q, hq, hq0, hqB⟩ := hM (p * n) 9223372036854775808 9223372036854775808
    (mul_nonneg hp0 hn0) hpn hB
  refine ⟨n, q, hn, hn0, hq, ?_⟩
  unfold percentileIndex at h
  rw [lit_of_nonneg 1 (by norm_num)] at h
  simp only [Fl.ofNat, hn, Fl.mul, hq, Fl.sub, Fl.neg, Fl.add, Bool.xor_false, Bool.not_false,
    Bool.false_eq_true, if_false, if_true, Bool.false_and] at h
  by_cases hx0 : q + -1 = 0
  · rw [if_pos hx0] at h
    simp only [Fl.toUInt64, Fl.trunc, Bool.false_eq_true, if_false, Option.some.injEq] at h
    have hf0 : Rat.floor 0 = 0 := (Int.floor_zero : ⌊(0 : ℚ)⌋ = 0)
    rw [hf0] at h
    left
    exact ⟨by linarith, by rw [← h]; rfl⟩
  · rw [if_neg hx0] at h
    rcases lt_or_gt_of_ne hx0 with hneg | hpos
    · have habs : |q + -1| = 1 - q := by
        rw [abs_of_neg hneg]
        ring
      obtain ⟨z, hz, hz0, hz1⟩ := hM (1 - q) 1 1 (by linarith) (by linarith) h1
      simp only [Fl.round, decide_eq_true hneg, habs, hz, Fl.toUInt64, Fl.trunc, if_true,
        Option.some.injEq] at h
      left
      refine ⟨by linarith, ?_⟩
      have hfl0 : 0 ≤ Rat.floor z := by
        have : (0 : Int) ≤ ⌊z⌋ := Int.floor_nonneg.mpr hz0
        exact this
      have hfl1 : Rat.floor z ≤ 1 := by
        have : ⌊z⌋ ≤ (1 : Int) := by
          have h2 : ((⌊z⌋ : Int) : ℚ) ≤ z := Int.floor_le z
          have h3 : ((⌊z⌋ : Int) : ℚ) ≤ ((1 : Int) : ℚ) := by
            push_cast
            linarith
          exact_mod_cast h3
        exact this
      rcases (by omega : Rat.floor z = 0 ∨ Rat.floor z = 1) with hfz | hfz
      · rw [hfz] at h
        rw [← h]
        rfl
      · rw [hfz] at h
        have hi2 : i = 18446744073709551615 := by
          rw [← h]
          rfl
        omega
    · have habs : |q + -1| = q - 1 := by
        rw [abs_of_pos hpos]
        ring
      right
      refine ⟨by linarith, ?_⟩
      have hlt : ¬ q + -1 < 0 := not_lt.mpr (le_of_lt hpos)
      simp only [Fl.round, decide_eq_false hlt, habs] at h
      cases hz : P.round32 (q - 1) with
      | none =>
        rw [hz] at h
        simp [Fl.toUInt64] at h
      | some z =>
        rw [hz] at h
        simp only [Fl.toUInt64, Fl.trunc, Bool.false_eq_true, if_false, Option.some.injEq] at h
        obtain ⟨z1, hz1, hz0, hzB⟩ := hM (q - 1) 9223372036854775808 9223372036854775808
          (by linarith) (by linarith) hB
        rw [hz, Option.some.injEq] at hz1
        subst hz1
        have hfl0 : 0 ≤ Rat.floor z := by
          have : (0 : Int) ≤ ⌊z⌋ := Int.floor_nonneg.mpr hz0
          exact this
        have hflB : Rat.floor z ≤ 9223372036854775808 := by
          have h2 : ((⌊z⌋ : Int) : ℚ) ≤ z := Int.floor_le z
          have h3 : ((⌊z⌋ : Int) : ℚ) ≤ ((9223372036854775808 : Int) : ℚ) := by
            push_cast
            linarith
          have : ⌊z⌋ ≤ (9223372036854775808 : Int) := by exact_mod_cast h3
          exact this
        refine ⟨z, rfl, ?_⟩
        rw [Int.emod_eq_of_lt hfl0 (by omega)] at h
        have : (i : Int) = Rat.floor z := by
          rw [← h]
          exact Int.toNat_of_nonneg hfl0
        exact this

/-- The index of line 81 does not decrease with the fraction. -/
theorem percentileIndex_mono (P : Platform)
    (hM : ∀ x y b : ℚ, 0 ≤ x → x ≤ y → P.round32 y = some b →
      ∃ a, P.round32 x = some a ∧ 0 ≤ a ∧ a ≤ b)
    (h1 : P.round32 1 = some 1)
    (hB : P.round32 9223372036854775808 = some 9223372036854775808)
    (p1 p2 : ℚ) (N i1 i2 : Nat) (hp0 : 0 ≤ p1) (hp12 : p1 ≤ p2) (hp1 : p2 ≤ 1)
    (hN : N ≤ 9223372036854775808)
    (e1 : percentileIndex P (Fl.num false (some p1)) N = some i1) (hi1 : i1 < N)
    (e2 : percentileIndex P (Fl.num false (some p2)) N = some i2) (hi2 : i2 < N) :
    i1 ≤ i2 := by
  obtain ⟨n, q1, hn, hn0, hq1, hc1⟩ :=
    percentileIndex_shape P hM h1 hB p1 N i1 hp0 (le_trans hp12 hp1) hN e1 hi1
  obtain ⟨n2, q2, hn2, _, hq2, hc2⟩ :=
    percentileIndex_shape P hM h1 hB p2 N i2 (le_trans hp0 hp12) hp1 hN e2 hi2
  rw [hn, Option.some.injEq] at hn2
  subst hn2
  rcases hc1 with ⟨_, hi⟩ | ⟨hq1gt, z1, hz1, hiz1⟩
  · omega
  · obtain ⟨a, ha, _, haq⟩ := hM (p1 * n) (p2 * n) q2 (mul_nonneg hp0 hn0)
      (mul_le_mul_of_nonneg_right hp12 hn0) hq2
    rw [hq1, Option.some.injEq] at ha
    subst ha
    rcases hc2 with ⟨hq2le, _⟩ | ⟨_, z2, hz2, hiz2⟩
    · linarith
    · obtain ⟨b, hb, _, hbz⟩ := hM (q1 - 1) (q2 - 1) z2 (by linarith) (by linarith) hz2
      rw [hz1, Option.some.injEq] at hb
      subst hb
      have : ⌊z1⌋ ≤ ⌊z2⌋ := Int.floor_mono hbz
      omega

/-- What `visit` reports when it goes on after a percentile: the index was computed, is in
range, and the value is the sorted value at that index. -/
theorem visit_percentile_inv (P : Platform) (fs : List (Nat × Fl)) (sv : List Fl)
    (m a : metric_t) (val : Fl) (hn : m.name ≠ "AVG")
    (hs : P.stof m.name = StofResult.value val) (h : visit P fs sv m = Step.next a) :
    ∃ (idx : Nat) (hidx : idx < sv.length),
      percentileIndex P val sv.length = some idx ∧ a.value = sv[idx] := by
  rw [visit_of_ne P fs sv m hn, hs] at h
  dsimp only at h
  split at h
  · cases h
  · split at h
    · cases h
    · split at h
      · cases h
      · rename_i idx hidx
        split at h
        · rename_i hlt
          cases h
          exact ⟨idx, hlt, hidx, rfl⟩
        · cases h

theorem binary32_monotone (x y b : ℚ) (h : x ≤ y) (hb : binary32 y = some b) :
    ∃ a, binary32 x = some a ∧ 0 ≤ a ∧ a ≤ b :=
  roundNE_mono 24 (-126) 127 (by norm_num) x y b h hb


/-! ### The index of a percentile in binary32 -/

theorem roundHalfEven_top (x : ℚ) (K : Int) (hK : K % 2 = 0) (h1 : (K : ℚ) - 1 / 2 ≤ x)
    (h2 : x ≤ K) : roundHalfEven x = K := by
  apply le_antisymm (roundHalfEven_le x K h2)
  rcases lt_or_eq_of_le h2 with hlt | heq
  · have hfl : Rat.floor x = K - 1 := by
      have : ⌊x⌋ = K - 1 := by
        rw [Int.floor_eq_iff]
        push_cast
        constructor <;> linarith
      exact this
    unfold roundHalfEven
    simp only []
    rw [hfl]
    push_cast
    split_ifs <;> first | omega | (exfalso; linarith)
  · exact le_roundHalfEven x K (le_of_eq heq.symm)

theorem roundHalfEven_below (x : ℚ) (K : Int) (h : x < (K : ℚ) - 1 / 2) :
    roundHalfEven x ≤ K - 1 := by
  have hfx : ((Rat.floor x : Int) : ℚ) ≤ x := Int.floor_le x
  have hf : Rat.floor x ≤ K - 1 := by
    have : ((Rat.floor x : Int) : ℚ) < ((K : Int) : ℚ) := by linarith
    have : Rat.floor x < K := by exact_mod_cast this
    omega
  have hstep : ¬ (x - (Rat.floor x : Int) < 1 / 2) → Rat.floor x + 1 ≤ K - 1 := by
    intro hd
    have : ((Rat.floor x : Int) : ℚ) + 1 < ((K : Int) : ℚ) := by linarith [not_lt.mp hd]
    have : Rat.floor x + 1 < K := by exact_mod_cast this
    omega
  unfold roundHalfEven
  simp only []
  split
  · exact hf
  · rename_i hd
    split
    · exact hstep hd
    · split
      · exact hf
      · exact hstep hd

/-- In binary32 a number from `1 - 2^-25` to 1 rounds to 1. -/
theorem binary32_near_one (y : ℚ) (h1 : 1 - 1 / 33554432 ≤ y) (h2 : y ≤ 1) :
    binary32 y = some 1 := by
  rcases lt_or_eq_of_le h2 with hlt | heq
  · have hy : 0 < y := by linarith
    have hp1 : pow2 (-1) = 1 / 2 := by decide!
    have hp0 : pow2 (-1 + 1) = 1 := by decide!
    have hp24 : pow2 (-24) = 1 / 16777216 := by decide!
    have hlog : ilog2 y = -1 :=
      ilog2_unique y (-1) (by rw [hp1]; linarith) (by rw [hp0]; exact hlt)
    have hexp : max (ilog2 y) (-126) - (((24 : Nat) : Int) - 1) = -24 := by
      rw [hlog]
      decide
    have hr := roundNE_of_pos 24 (-126) 127 y hy
    rw [hexp, hp24] at hr
    have hdiv : y / (1 / 16777216) = y * 16777216 := by
      field_simp
    have hrhe : roundHalfEven (y / (1 / 16777216)) = 16777216 := by
      apply roundHalfEven_top _ 16777216 (by decide)
      · rw [hdiv]
        push_cast
        linarith
      · rw [hdiv]
        push_cast
        linarith
    rw [hrhe] at hr
    have hb : binary32 y = roundNE 24 (-126) 127 y := rfl
    rw [hb, hr, if_neg]
    · norm_num
    · have : pow2 (127 + 1) = 340282366920938463463374607431768211456 := by decide!
      rw [this]
      norm_num
  · rw [heq]
    decide!

/-- In binary32 a number below `1 - 2^-25` rounds to a number below 1. -/
theorem binary32_below_one (y : ℚ) (h2 : y < 1 - 1 / 33554432) :
    ∃ z, binary32 y = some z ∧ 0 ≤ z ∧ z < 1 := by
  rcases le_or_lt y (1 / 2) with hle | hgt
  · obtain ⟨z, hz, hz0, hz1⟩ := binary32_monotone y (1 / 2) (1 / 2) hle (by decide!)
    exact ⟨z, hz, hz0, by linarith⟩
  · have hy : 0 < y := by linarith
    have hp1 : pow2 (-1) = 1 / 2 := by decide!
    have hp0 : pow2 (-1 + 1) = 1 := by decide!
    have hp24 : pow2 (-24) = 1 / 16777216 := by decide!
    have hlog : ilog2 y = -1 :=
      ilog2_unique y (-1) (by rw [hp1]; linarith) (by rw [hp0]; linarith)
    have hexp : max (ilog2 y) (-126) - (((24 : Nat) : Int) - 1) = -24 := by
      rw [hlog]
      decide
    have hr := roundNE_of_pos 24 (-126) 127 y hy
    rw [hexp, hp24] at hr
    have hdiv : y / (1 / 16777216) = y * 16777216 := by
      field_simp
    have hrhe : roundHalfEven (y / (1 / 16777216)) ≤ 16777216 - 1 := by
      apply roundHalfEven_below
      rw [hdiv]
      push_cast
      linarith
    have hrhe0 : 0 ≤ roundHalfEven (y / (1 / 16777216)) := by
      apply le_roundHalfEven
      rw [hdiv]
      push_cast
      positivity
    have hq : ((roundHalfEven (y / (1 / 16777216)) : Int) : ℚ) ≤ 16777215 := by
      exact_mod_cast hrhe
    have hq0 : (0 : ℚ) ≤ ((roundHalfEven (y / (1 / 16777216)) : Int) : ℚ) := by
      exact_mod_cast hrhe0
    have hb : binary32 y = roundNE 24 (-126) 127 y := rfl
    refine ⟨(roundHalfEven (y / (1 / 16777216)) : ℚ) * (1 / 16777216), ?_, ?_, ?_⟩
    · rw [hb, hr, if_neg]
      have : pow2 (127 + 1) = 340282366920938463463374607431768211456 := by decide!
      rw [this]
      linarith
    · positivity
    · linarith

/-- The index of line 81 in binary32, for a fraction `0 < p < 1` and `N ≤ 2^63` samples, in
terms of the `float` product `q` of `p` and the `float` of `N`: the `float` difference
`q - 1` is `-1.0` when `q ≤ 2^-25`, and the index wraps to `2^64 - 1`; it lies in `(-1, 0]`
when `2^-25 < q ≤ 1`, and the index is 0; otherwise the index is the floor of the rounded
difference. -/
theorem binary32_percentileIndex (P : Platform) (hP : P.round32 = binary32) (p : ℚ) (N : Nat)
    (hp0 : 0 < p) (hp1 : p < 1) (hN : N ≤ 9223372036854775808) :
    ∃ n q : ℚ, binary32 (N : ℚ) = some n ∧ binary32 (p * n) = some q ∧ 0 ≤ q ∧
      (q ≤ 1 / 33554432 →
        percentileIndex P (Fl.num false (some p)) N = some 18446744073709551615) ∧
      (1 / 33554432 < q → q ≤ 1 → percentileIndex P (Fl.num false (some p)) N = some 0) ∧
      (1 < q → ∃ z : ℚ, binary32 (q - 1) = some z ∧
        percentileIndex P (Fl.num false (some p)) N = some ⌊z⌋.toNat) := by
  have hB : binary32 9223372036854775808 = some 9223372036854775808 := by decide!
  have hNq : (N : ℚ) ≤ 9223372036854775808 := by exact_mod_cast hN
  obtain ⟨n, hn, hn0, hnB⟩ := binary32_monotone (N : ℚ) 9223372036854775808 _ hNq hB
  have hpn : p * n ≤ 9223372036854775808 := by nlinarith
  obtain ⟨q, hq, hq0, hqB⟩ := binary32_monotone (p * n) 9223372036854775808 _ hpn hB
  have hidx : percentileIndex P (Fl.num false (some p)) N =
      Fl.toUInt64 (if q + -1 = 0 then Fl.num false (some 0) else Fl.round binary32 (q + -1)) := by
    unfold percentileIndex
    rw [hP, lit_of_nonneg 1 (by norm_num)]
    simp only [Fl.ofNat, hn, Fl.mul, hq, Fl.sub, Fl.neg, Fl.add, Bool.xor_false, Bool.not_false,
      Bool.false_eq_true, if_false, if_true, Bool.false_and]
  refine ⟨n, q, hn, hq, hq0, ?_, ?_, ?_⟩
  · intro hsmall
    have hneg : q + -1 < 0 := by linarith
    have habs : |q + -1| = 1 - q := by
      rw [abs_of_neg hneg]
      ring
    rw [hidx, if_neg (ne_of_lt hneg)]
    simp only [Fl.round, decide_eq_true hneg, habs,
      binary32_near_one (1 - q) (by linarith) (by linarith)]
    decide!
  · intro hbig hle
    rw [hidx]
    by_cases hx0 : q + -1 = 0
    · rw [if_pos hx0]
      decide!
    · rw [if_neg hx0]
      have hneg : q + -1 < 0 := lt_of_le_of_ne (by linarith) hx0
      have habs : |q + -1| = 1 - q := by
        rw [abs_of_neg hneg]
        ring
      obtain ⟨z, hz, hz0, hz1⟩ := binary32_below_one (1 - q) (by linarith)
      simp only [Fl.round, decide_eq_true hneg, habs, hz, Fl.toUInt64, Fl.trunc, if_true]
      have hfl : Rat.floor z = 0 := by
        have : ⌊z⌋ = 0 := by
          rw [Int.floor_eq_iff]
          constructor
          · simpa using hz0
          · simpa using hz1
        exact this
      rw [hfl]
      rfl
  · intro hgt
    have hpos : 0 < q + -1 := by linarith
    have habs : |q + -1| = q - 1 := by
      rw [abs_of_pos hpos]
      ring
    obtain ⟨z, hz, hz0, hzB⟩ := binary32_monotone (q - 1) 9223372036854775808 _
      (by linarith) hB
    refine ⟨z, hz, ?_⟩
    rw [hidx, if_neg (ne_of_gt hpos)]
    simp only [Fl.round, decide_eq_false (not_lt.mpr (le_of_lt hpos)), habs, hz, Fl.toUInt64,
      Fl.trunc, Bool.false_eq_true, if_false]
    have hfl0 : 0 ≤ Rat.floor z := by
      have : (0 : Int) ≤ ⌊z⌋ := Int.floor_nonneg.mpr hz0
      exact this
    have hflB : Rat.floor z ≤ 9223372036854775808 := by
      have h2 : ((⌊z⌋ : Int) : ℚ) ≤ z := Int.floor_le z
      have h3 : ((⌊z⌋ : Int) : ℚ) ≤ ((9223372036854775808 : Int) : ℚ) := by
        push_cast
        linarith
      have : ⌊z⌋ ≤ (9223372036854775808 : Int) := by exact_mod_cast h3
      exact this
    rw [Int.emod_eq_of_lt hfl0 (by omega)]
    rfl

/-- C14, amended: the index of line 81 is the `float` value `val * size - 1` (a `float`
product, then a `float` difference) truncated toward zero and converted to `uint64_t`. In
binary32, for `0 < p < 1` and `N ≤ 2^63` samples, with `q` the `float` product: if
`q ≤ 2^-25` (the empty window, and also a tiny `p * N`) the difference is `-1.0`, the index
wraps to `2^64 - 1`, the value is not assigned and the cycle returns; if `2^-25 < q ≤ 1` the
index is 0, which is in range on a window that is not empty, and a cycle reaching the
percentile assigns it the smallest sample; if `q > 1` the index is the floor of the rounded
difference. In exact arithmetic the index is `floor (p * N) - 1` when `p * N ≥ 1`, is 0 when
`0 < p * N < 1`, and wraps only on the empty window. The cycles are over windows that
`std::sort` can order. Examples in binary32: `0.01` gives the index 0 on three samples and
`2^64 - 1` on none; `0.00000001` gives `2^64 - 1` on one or two samples and 0 on three. -/
theorem c14_index :
    (∀ (P : Platform), P.round32 = binary32 →
      ∀ (p : ℚ) (N : Nat), 0 < p → p < 1 → N ≤ 9223372036854775808 →
      ∃ n q : ℚ, binary32 (N : ℚ) = some n ∧ binary32 (p * n) = some q ∧ 0 ≤ q ∧
        (q ≤ 1 / 33554432 →
          percentileIndex P (Fl.num false (some p)) N = some 18446744073709551615) ∧
        (1 / 33554432 < q → q ≤ 1 → percentileIndex P (Fl.num false (some p)) N = some 0) ∧
        (1 < q → ∃ z : ℚ, binary32 (q - 1) = some z ∧
          percentileIndex P (Fl.num false (some p)) N = some ⌊z⌋.toNat)) ∧
    (∀ (P : Platform), P.round32 = binary32 →
      ∀ (s : fpsMetrics) (pre pre1 post : List metric_t) (m : metric_t) (p n q : ℚ),
      sortable (s.fps_stats.map Prod.snd) = true →
      s.metrics = pre ++ m :: post →
      walk P s.fps_stats (ascending (s.fps_stats.map Prod.snd)) pre = some pre1 →
      m.name ≠ "AVG" → P.stof m.name = StofResult.value (Fl.num false (some p)) →
      0 < p → p < 1 → s.fps_stats.length ≤ 9223372036854775808 →
      binary32 (s.fps_stats.length : ℚ) = some n → binary32 (p * n) = some q →
      (1 / 33554432 < q → q ≤ 1 → s.fps_stats ≠ [] →
        ∃ (label : String) (h : 0 < (ascending (s.fps_stats.map Prod.snd)).length),
          calculate P s =
            (loop P s.fps_stats (ascending (s.fps_stats.map Prod.snd)) post).map
              (fun ms => { s with metrics :=
                pre1 ++ { m with
                  display_name := label,
                  value := (ascending (s.fps_stats.map Prod.snd))[0] } :: ms })) ∧
      (q ≤ 1 / 33554432 →
        ∃ label : String,
          calculate P s =
            Outcome.returned
              { s with metrics := pre1 ++ { m with display_name := label } :: post })) ∧
    (∀ (P : Platform), P.round32 = some → ∀ (p : ℚ) (N : Nat), 0 < p → p < 1 → N < 2 ^ 64 →
      percentileIndex P (Fl.num false (some p)) N =
        some (if N = 0 then 18446744073709551615
              else if p * (N : ℚ) < 1 then 0 else (⌊p * (N : ℚ)⌋ - 1).toNat)) ∧
    (∀ (P : Platform), P.round32 = some →
      ∀ (s : fpsMetrics) (pre pre1 post : List metric_t) (m : metric_t) (p : ℚ),
      sortable (s.fps_stats.map Prod.snd) = true →
      s.metrics = pre ++ m :: post →
      walk P s.fps_stats (ascending (s.fps_stats.map Prod.snd)) pre = some pre1 →
      m.name ≠ "AVG" → P.stof m.name = StofResult.value (Fl.num false (some p)) →
      0 < p → p < 1 → s.fps_stats ≠ [] → p * (s.fps_stats.length : ℚ) < 1 →
      ∃ (label : String) (h : 0 < (ascending (s.fps_stats.map Prod.snd)).length),
        calculate P s =
          (loop P s.fps_stats (ascending (s.fps_stats.map Prod.snd)) post).map
            (fun ms => { s with metrics :=
              pre1 ++ { m with
                display_name := label,
                value := (ascending (s.fps_stats.map Prod.snd))[0] } :: ms })) ∧
    (∀ (P : Platform), (P.round32 = binary32 ∨ P.round32 = some) →
      ∀ (s : fpsMetrics) (pre pre1 post : List metric_t) (m : metric_t) (p : ℚ),
      s.metrics = pre ++ m :: post →
      walk P s.fps_stats (ascending (s.fps_stats.map Prod.snd)) pre = some pre1 →
      m.name ≠ "AVG" → P.stof m.name = StofResult.value (Fl.num false (some p)) →
      0 < p → p < 1 → s.fps_stats = [] →
      ∃ label : String,
        calculate P s =
          Outcome.returned
            { s with metrics := pre1 ++ { m with display_name := label } :: post }) ∧
    percentileIndex ieee (Fl.num false (some (5368709 / 536870912))) 3 = some 0 ∧
    percentileIndex ieee (Fl.num false (some (5368709 / 536870912))) 0 =
      some 18446744073709551615 ∧
    stofIeee "0.00000001" =
      StofResult.value (Fl.num false (some (11258999 / 1125899906842624))) ∧
    percentileIndex ieee (Fl.num false (some (11258999 / 1125899906842624))) 1 =
      some 18446744073709551615 ∧
    percentileIndex ieee (Fl.num false (some (11258999 / 1125899906842624))) 2 =
      some 18446744073709551615 ∧
    percentileIndex ieee (Fl.num false (some (11258999 / 1125899906842624))) 3 = some 0 ∧
    calculate ieee
      { fps_stats := [(1, Fl.lit 30), (2, Fl.lit 60)], run := false, thread_init := false,
        terminate := false, resetting := false,
        metrics := add_metrics_to_vector ["0.00000001", "avg"] } =
      Outcome.returned
        { fps_stats := [(1, Fl.lit 30), (2, Fl.lit 60)], run := false, thread_init := false,
          terminate := false, resetting := false,
          metrics := [{ name := "0.00000001", value := Fl.lit 0, display_name := "0.0%" },
                      { name := "AVG", value := Fl.lit 0, display_name := "" }] } := by
  refine ⟨binary32_percentileIndex, ?_, ?_, ?_, ?_, by decide!, by decide!, by decide!,
    by decide!, by decide!, by decide!, by decide!⟩
  · intro P hP s pre pre1 post m p n q hsort hms hpre hname hs hp0 hp1 hN hn hq
    obtain ⟨hr0, hr1⟩ := range_check_of_fraction p hp0 hp1
    obtain ⟨hround, hint⟩ := binary32_round_fraction P hP
    obtain ⟨pct, _, _, _, hl⟩ := percentLabel_of_fraction P hround hint p hp0 hp1
    obtain ⟨n1, q1, hn1, hq1, _, hwrap, hzero, _⟩ :=
      binary32_percentileIndex P hP p s.fps_stats.length hp0 hp1 hN
    rw [hn, Option.some.injEq] at hn1
    subst hn1
    rw [hq, Option.some.injEq] at hq1
    subst hq1
    constructor
    · intro hbig hle hne
      have hlen1 : 0 < (ascending (s.fps_stats.map Prod.snd)).length := by
        rw [sorted_length]
        exact List.length_pos.mpr hne
      exact ⟨_, hlen1, calculate_percentile P s pre pre1 post m _ _ _ hsort hms hpre hname hs
        hr0 hr1 hl (hzero hbig hle) hlen1⟩
    · intro hsmall
      exact ⟨_, calculate_percentile_stop P s pre pre1 post m _ _ _ hsort hms hpre hname hs hr0
        hr1 hl (hwrap hsmall) (by omega)⟩
  · intro P hP p N hp0 hp1 hN
    by_cases hN0 : N = 0
    · subst hN0
      rw [exact_percentileIndex_small P hP p 0 (le_of_lt hp0) (by simp)]
      simp
    · rw [if_neg hN0]
      have hNpos : (0 : ℚ) < (N : ℚ) := by
        exact_mod_cast Nat.pos_of_ne_zero hN0
      by_cases hlt : p * (N : ℚ) < 1
      · rw [if_pos hlt, exact_percentileIndex_small P hP p N (le_of_lt hp0) hlt,
          if_neg (ne_of_gt (mul_pos hp0 hNpos))]
      · rw [if_neg hlt]
        have h1 : (1 : Int) ≤ ⌊p * (N : ℚ)⌋ := by
          rw [Int.le_floor]
          simpa using not_lt.mp hlt
        exact exact_percentileIndex P hP p N hp1 hN h1
  · intro P hP s pre pre1 post m p hsort hms hpre hname hs hp0 hp1 hne hlt
    obtain ⟨hr0, hr1⟩ := range_check_of_fraction p hp0 hp1
    obtain ⟨hq, hi⟩ := exact_round_fraction P hP
    obtain ⟨pct, _, _, _, hl⟩ := percentLabel_of_fraction P hq hi p hp0 hp1
    have hlen : 0 < s.fps_stats.length := List.length_pos.mpr hne
    have hNpos : (0 : ℚ) < (s.fps_stats.length : ℚ) := by exact_mod_cast hlen
    have hidx : percentileIndex P (Fl.num false (some p)) s.fps_stats.length = some 0 := by
      rw [exact_percentileIndex_small P hP p _ (le_of_lt hp0) hlt,
        if_neg (ne_of_gt (mul_pos hp0 hNpos))]
    have hlen1 : 0 < (ascending (s.fps_stats.map Prod.snd)).length := by
      rw [sorted_length]
      exact hlen
    exact ⟨_, hlen1, calculate_percentile P s pre pre1 post m _ _ _ hsort hms hpre hname hs hr0
      hr1 hl hidx hlen1⟩
  · intro P hP s pre pre1 post m p hms hpre hname hs hp0 hp1 hemp
    obtain ⟨hr0, hr1⟩ := range_check_of_fraction p hp0 hp1
    have hround : (∀ q : ℚ, 0 < q → q < 100 → ∃ a, P.round32 q = some a ∧ 0 ≤ a ∧ a ≤ 100) ∧
        (∀ i : Nat, i ≤ 100 → P.round32 (i : ℚ) = some (i : ℚ)) := by
      rcases hP with h | h
      · exact binary32_round_fraction P h
      · exact exact_round_fraction P h
    obtain ⟨pct, _, _, _, hl⟩ := percentLabel_of_fraction P hround.1 hround.2 p hp0 hp1
    have hsort : sortable (s.fps_stats.map Prod.snd) = true := by
      rw [hemp]
      rfl
    have hidx : percentileIndex P (Fl.num false (some p)) s.fps_stats.length =
        some 18446744073709551615 := by
      rw [hemp, List.length_nil]
      rcases hP with h | h
      · obtain ⟨n, q, hn, hq, _, hwrap, _, _⟩ :=
          binary32_percentileIndex P h p 0 hp0 hp1 (by norm_num)
        have hn0 : binary32 ((0 : Nat) : ℚ) = some 0 := by decide!
        rw [hn0, Option.some.injEq] at hn
        subst hn
        rw [mul_zero] at hq
        have hq0 : binary32 0 = some 0 := by decide!
        rw [hq0, Option.some.injEq] at hq
        subst hq
        exact hwrap (by norm_num)
      · rw [exact_percentileIndex_small P h p 0 (le_of_lt hp0) (by simp)]
        simp
    exact ⟨_, calculate_percentile_stop P s pre pre1 post m _ _ _ hsort hms hpre hname hs hr0
      hr1 hl hidx (by rw [hemp]; exact Nat.zero_le _)⟩

/-- C14 amended, at a concrete engine in binary32: the identifier `0.01` over three samples;
the `float` product is `0.03` and the metric becomes the smallest sample. -/
theorem c14_index_witness :
    ∃ (label : String) (h : 0 < (ascending [Fl.lit 60, Fl.lit 50, Fl.lit 40]).length),
      calculate ieee
        { fps_stats := [(0, Fl.lit 60), (0, Fl.lit 50), (0, Fl.lit 40)], run := false,
          thread_init := false, terminate := false, resetting := false,
          metrics := [{ name := "0.01", value := Fl.lit 0, display_name := "" }] } =
        Outcome.returned
          { fps_stats := [(0, Fl.lit 60), (0, Fl.lit 50), (0, Fl.lit 40)], run := false,
            thread_init := false, terminate := false, resetting := false,
            metrics := [{ name := "0.01",
                          value := (ascending [Fl.lit 60, Fl.lit 50, Fl.lit 40])[0],
                          display_name := label }] } :=
  (c14_index.2.1 ieee rfl
    { fps_stats := [(0, Fl.lit 60), (0, Fl.lit 50), (0, Fl.lit 40)], run := false,
      thread_init := false, terminate := false, resetting := false,
      metrics := [{ name := "0.01", value := Fl.lit 0, display_name := "" }] }
    [] [] [] { name := "0.01", value := Fl.lit 0, display_name := "" }
    (5368709 / 536870912) 3 (16106127 / 536870912) (by decide!) rfl rfl (by decide)
    (by decide!) (by norm_num) (by norm_num) (by decide) (by decide!) (by decide!)).1
    (by norm_num) (by norm_num) (by decide)

/-! ### Two percentiles of one cycle -/

/-- The two roundings considered, to nearest in binary32 and none at all, are monotone on the
non-negative numbers and keep `1` and `2^63`. -/
theorem rounding_monotone (P : Platform) (hP : P.round32 = binary32 ∨ P.round32 = some) :
    (∀ x y b : ℚ, 0 ≤ x → x ≤ y → P.round32 y = some b →
      ∃ a, P.round32 x = some a ∧ 0 ≤ a ∧ a ≤ b) ∧
    P.round32 1 = some 1 ∧
    P.round32 9223372036854775808 = some 9223372036854775808 := by
  rcases hP with hP | hP
  · rw [hP]
    exact ⟨fun x y b _ hxy hb => binary32_monotone x y b hxy hb, by decide!, by decide!⟩
  · rw [hP]
    exact ⟨fun x y b hx hxy hb => by
      cases hb
      exact ⟨x, rfl, hx, hxy⟩, rfl, rfl⟩

/-- C18, refuted as stated: the static constructor on the identifiers `0.5`, `0.6` and the
window `[NaN]`. Both indices are 0, in range, and both metrics are assigned the sample NaN;
the comparison `NaN <= NaN` is false. -/
theorem c18_percentile_monotone_counterexample :
    stofIeee "0.5" = StofResult.value (Fl.num false (some (1 / 2))) ∧
    stofIeee "0.6" = StofResult.value (Fl.num false (some (5033165 / 8388608))) ∧
    (1 / 2 : ℚ) ≤ 5033165 / 8388608 ∧
    sortable [Fl.nan] = true ∧
    percentileIndex ieee (Fl.num false (some (1 / 2))) 1 = some 0 ∧
    percentileIndex ieee (Fl.num false (some (5033165 / 8388608))) 1 = some 0 ∧
    fpsMetrics.createStatic ieee ["0.5", "0.6"] [Fl.nan] =
      Outcome.returned
        { fps_stats := [(0, Fl.nan)], run := false, thread_init := false, terminate := false,
          resetting := false,
          metrics := [{ name := "0.5", value := Fl.nan, display_name := "50%" },
                      { name := "0.6", value := Fl.nan, display_name := "60.0%" }] } ∧
    Fl.le Fl.nan Fl.nan = false := by
  decide!

/-- C18, amended: take a window of at most `2^63` samples that `std::sort` can order, and two
entries whose names `std::stof` reads as fractions `p1 ≤ p2` strictly between 0 and 1; let
the loop body of `calculate`, run on each with the window and its sorted values, assign
both a value (the index is in range, `Step.next`). Then the value of the first is the value
of the second or is `<` it, so it is never greater; it is `<=` it when the window holds no
NaN; and both values are sample values of the window. This holds in binary32 arithmetic and
in exact arithmetic. -/
theorem c18_percentile_monotone (P : Platform)
    (hP : P.round32 = binary32 ∨ P.round32 = some) (s : fpsMetrics)
    (m1 m2 a1 a2 : metric_t) (p1 p2 : ℚ)
    (hsort : sortable (s.fps_stats.map Prod.snd) = true)
    (hN : s.fps_stats.length ≤ 9223372036854775808)
    (hn1 : m1.name ≠ "AVG") (hn2 : m2.name ≠ "AVG")
    (hs1 : P.stof m1.name = StofResult.value (Fl.num false (some p1)))
    (hs2 : P.stof m2.name = StofResult.value (Fl.num false (some p2)))
    (hp0 : 0 < p1) (hp12 : p1 ≤ p2) (hp1 : p2 < 1)
    (hv1 : visit P s.fps_stats (ascending (s.fps_stats.map Prod.snd)) m1 = Step.next a1)
    (hv2 : visit P s.fps_stats (ascending (s.fps_stats.map Prod.snd)) m2 = Step.next a2) :
    (a1.value = a2.value ∨ Fl.lt a1.value a2.value = true) ∧
    Fl.lt a2.value a1.value = false ∧
    ((∀ e ∈ s.fps_stats, e.2 ≠ Fl.nan) → Fl.le a1.value a2.value = true) ∧
    a1.value ∈ s.fps_stats.map Prod.snd ∧ a2.value ∈ s.fps_stats.map Prod.snd := by
  obtain ⟨hM, h1, hB⟩ := rounding_monotone P hP
  obtain ⟨i1, hi1, e1, hval1⟩ := visit_percentile_inv P _ _ m1 a1 _ hn1 hs1 hv1
  obtain ⟨i2, hi2, e2, hval2⟩ := visit_percentile_inv P _ _ m2 a2 _ hn2 hs2 hv2
  have hlen := sorted_length s
  have hle : i1 ≤ i2 := by
    rw [hlen] at e1 e2 hi1 hi2
    exact percentileIndex_mono P hM h1 hB p1 p2 _ i1 i2 (le_of_lt hp0) hp12 (le_of_lt hp1) hN
      e1 hi1 e2 hi2
  have hmem : ∀ (i : Nat) (hi : i < (ascending (s.fps_stats.map Prod.snd)).length),
      (ascending (s.fps_stats.map Prod.snd))[i] ∈ s.fps_stats.map Prod.snd := by
    intro i hi
    exact (ascending_perm _).subset (List.getElem_mem hi)
  rw [hval1, hval2]
  refine ⟨?_, ?_, ?_, hmem i1 hi1, hmem i2 hi2⟩
  · rcases lt_or_eq_of_le hle with hlt | heq
    · exact List.pairwise_iff_getElem.mp (ascending_strict _ hsort) i1 i2 hi1 hi2 hlt
    · subst heq
      exact Or.inl rfl
  · rcases lt_or_eq_of_le hle with hlt | heq
    · exact List.pairwise_iff_getElem.mp (ascending_not_gt _) i1 i2 hi1 hi2 hlt
    · subst heq
      exact lt_irrefl_fl _
  · intro hnan
    have hnan1 : ∀ v ∈ s.fps_stats.map Prod.snd, v ≠ Fl.nan := by
      intro v hv
      obtain ⟨e, he, rfl⟩ := List.mem_map.mp hv
      exact hnan e he
    rcases lt_or_eq_of_le hle with hlt | heq
    · exact List.pairwise_iff_getElem.mp (ascending_sorted _ hnan1) i1 i2 hi1 hi2 hlt
    · subst heq
      have hne := hnan1 _ (hmem i1 hi1)
      rcases le_total_of_ne_nan _ _ hne hne with h | h <;> exact h

/-- C18 amended, at a concrete engine in binary32: over the window `60, 50, 40, 30` the entry
`0.5` gets 40 and the entry `0.9` gets 50. -/
theorem c18_percentile_monotone_witness :
    (Fl.lit 40 = Fl.lit 50 ∨ Fl.lt (Fl.lit 40) (Fl.lit 50) = true) ∧
    Fl.lt (Fl.lit 50) (Fl.lit 40) = false ∧
    ((∀ e ∈ ([(1, Fl.lit 60), (2, Fl.lit 50), (3, Fl.lit 40), (4, Fl.lit 30)] :
        List (Nat × Fl)), e.2 ≠ Fl.nan) → Fl.le (Fl.lit 40) (Fl.lit 50) = true) ∧
    Fl.lit 40 ∈ ([(1, Fl.lit 60), (2, Fl.lit 50), (3, Fl.lit 40), (4, Fl.lit 30)] :
        List (Nat × Fl)).map Prod.snd ∧
    Fl.lit 50 ∈ ([(1, Fl.lit 60), (2, Fl.lit 50), (3, Fl.lit 40), (4, Fl.lit 30)] :
        List (Nat × Fl)).map Prod.snd :=
  c18_percentile_monotone ieee (Or.inl rfl)
    { fps_stats := [(1, Fl.lit 60), (2, Fl.lit 50), (3, Fl.lit 40), (4, Fl.lit 30)],
      run := false, thread_init := true, terminate := false, resetting := false,
      metrics := [{ name := "0.5", value := Fl.lit 0, display_name := "" },
                  { name := "0.9", value := Fl.lit 0, display_name := "" }] }
    { name := "0.5", value := Fl.lit 0, display_name := "" }
    { name := "0.9", value := Fl.lit 0, display_name := "" }
    { name := "0.5", value := Fl.lit 40, display_name := "50%" }
    { name := "0.9", value := Fl.lit 50, display_name := "90%" }
    (1 / 2) (7549747 / 8388608) (by decide!) (by decide) (by decide) (by decide) (by decide!)
    (by decide!) (by norm_num) (by norm_num) (by norm_num) (by decide!) (by decide!)


/-! ### Windows that `std::sort` can order -/

/-- A sample that `update` stores has its sign bit clear. -/
theorem stored_signless (P : Platform) (h64 : P.round64 = binary64 ∨ P.round64 = some)
    (fps : Fl) (hwf : ∀ sg a, fps = Fl.num sg (some a) → 0 ≤ a)
    (hlt : Fl.lt (Fl.round P.round64 (1 / 10000)) fps = true) :
    ∃ m, Fl.narrow P.round32 fps = Fl.num false m := by
  have heps : ∃ e : ℚ, 0 < e ∧ Fl.round P.round64 (1 / 10000) = Fl.num false (some e) := by
    rcases h64 with h | h
    · rw [h]
      exact ⟨7378697629483821 / 73786976294838206464, by norm_num, by decide!⟩
    · rw [h]
      exact ⟨1 / 10000, by norm_num, by decide!⟩
  obtain ⟨e, he0, he⟩ := heps
  rw [he] at hlt
  cases fps with
  | nan => simp [Fl.lt] at hlt
  | num sg m =>
    cases m with
    | none =>
      cases sg with
      | true => simp [Fl.lt, Fl.key] at hlt
      | false => exact ⟨none, rfl⟩
    | some a =>
      have ha : 0 ≤ a := hwf sg a rfl
      cases sg with
      | true =>
        simp only [Fl.lt, Fl.key, if_true, Bool.false_eq_true, if_false, decide_eq_true_eq] at hlt
        rcases hlt with h | ⟨_, h⟩
        · exact absurd h (lt_irrefl _)
        · linarith
      | false => exact ⟨P.round32 a, rfl⟩

theorem sortable_of_signless (vs : List Fl) (h : ∀ v ∈ vs, ∃ m, v = Fl.num false m) :
    sortable vs = true ∧ ∀ v ∈ vs, v ≠ Fl.nan := by
  constructor
  · rw [sortable_iff]
    intro a ha b hb
    obtain ⟨x, rfl⟩ := h a ha
    obtain ⟨y, rfl⟩ := h b hb
    cases x with
    | none =>
      cases y with
      | none => exact Or.inl rfl
      | some y =>
        right
        right
        simp [Fl.lt, Fl.key]
    | some x =>
      cases y with
      | none =>
        right
        left
        simp [Fl.lt, Fl.key]
      | some y =>
        rcases lt_trichotomy x y with hxy | hxy | hxy
        · right
          left
          simp only [Fl.lt, Fl.key, Bool.false_eq_true, if_false, decide_eq_true_eq]
          exact Or.inr ⟨trivial, hxy⟩
        · left
          rw [hxy]
        · right
          right
          simp only [Fl.lt, Fl.key, Bool.false_eq_true, if_false, decide_eq_true_eq]
          exact Or.inr ⟨trivial, hxy⟩
  · intro v hv hnan
    obtain ⟨m, hm⟩ := h v hv
    rw [hm] at hnan
    cases hnan

/-- Every window of a live engine can be ordered by `std::sort` and holds no NaN, whatever
calls the engine has received (with arguments that are proper `double`s). -/
theorem live_window_sortable (P : Platform) (h64 : P.round64 = binary64 ∨ P.round64 = some)
    (ops : List Op) (values : List String) (s1 : fpsMetrics)
    (hwf : ∀ now sg a, Op.update now (Fl.num sg (some a)) ∈ ops → 0 ≤ a)
    (hrun : runOps P ops (fpsMetrics.create values) = some s1) :
    sortable (s1.fps_stats.map Prod.snd) = true ∧ ∀ e ∈ s1.fps_stats, e.2 ≠ Fl.nan := by
  have hall : ∀ e ∈ s1.fps_stats, ∃ m, e.2 = Fl.num false m := by
    refine runOps_window_inv P (fun v => ∃ m, v = Fl.num false m) ops ?_
      (fpsMetrics.create values) s1 hrun ?_
    · intro now fps hmem hlt
      refine stored_signless P h64 fps ?_ hlt
      intro sg a hfps
      rw [hfps] at hmem
      exact hwf now sg a hmem
    · intro e0 he0
      cases he0
  obtain ⟨h1, h2⟩ := sortable_of_signless (s1.fps_stats.map Prod.snd) (by
    intro v hv
    obtain ⟨e, he, rfl⟩ := List.mem_map.mp hv
    exact hall e he)
  exact ⟨h1, fun e he => h2 e.2 (List.mem_map.mpr ⟨e, he, rfl⟩)⟩

/-- C2, amended: take a window whose values `std::sort` can order (`<` tells any two different
values apart; a window holding a NaN beside another value is not such a window, and there
the outcome of the cycle is not fixed). A cycle that reaches a percentile with fraction `p` in
`(0,1)` sets its value to the element of the ascending sorted window at the index the source
computes: the `float` product `val * size`, minus 1 in `float`, truncated to `uint64_t`,
whenever that index is in range. The sorted values are a permutation of the window, each
place holding the same value as a later place or a smaller one. Every window of a live
engine can be ordered and holds no NaN. In exact arithmetic that index is
`floor (p * N) - 1` whenever this is not negative. In binary32 arithmetic the product is
rounded first, e.g. `p = 0.7f`, `N = 10` gives the index 6. -/
theorem c2_percentile :
    (∀ (P : Platform) (s : fpsMetrics) (pre pre1 post : List metric_t) (m : metric_t)
      (val : Fl) (label : String) (idx : Nat),
      sortable (s.fps_stats.map Prod.snd) = true →
      s.metrics = pre ++ m :: post →
      walk P s.fps_stats (ascending (s.fps_stats.map Prod.snd)) pre = some pre1 →
      m.name ≠ "AVG" → P.stof m.name = StofResult.value val →
      Fl.le val (Fl.lit 0) = false → Fl.le (Fl.lit 1) val = false →
      percentLabel P val = some label →
      percentileIndex P val s.fps_stats.length = some idx →
      ∀ h : idx < (ascending (s.fps_stats.map Prod.snd)).length,
      calculate P s =
        (loop P s.fps_stats (ascending (s.fps_stats.map Prod.snd)) post).map
          (fun ms => { s with metrics :=
            pre1 ++ { m with display_name := label,
                             value := (ascending (s.fps_stats.map Prod.snd))[idx] } :: ms })) ∧
    (∀ vs : List Fl, sortable vs = true →
      sortValues vs = some (ascending vs) ∧ (ascending vs).Perm vs ∧
      (ascending vs).Pairwise (fun x y => x = y ∨ Fl.lt x y = true) ∧
      ((∀ v ∈ vs, v ≠ Fl.nan) → (ascending vs).Pairwise (fun x y => Fl.le x y = true))) ∧
    (∀ (P : Platform) (s : fpsMetrics), sortable (s.fps_stats.map Prod.snd) = false →
      calculate P s = Outcome.undefined) ∧
    (∀ (P : Platform), (P.round64 = binary64 ∨ P.round64 = some) →
      ∀ (ops : List Op) (values : List String) (s1 : fpsMetrics),
        (∀ now sg a, Op.update now (Fl.num sg (some a)) ∈ ops → 0 ≤ a) →
        runOps P ops (fpsMetrics.create values) = some s1 →
        sortable (s1.fps_stats.map Prod.snd) = true ∧ ∀ e ∈ s1.fps_stats, e.2 ≠ Fl.nan) ∧
    (∀ (P : Platform), P.round32 = some →
      ∀ (s : fpsMetrics) (pre pre1 post : List metric_t) (m : metric_t) (p : ℚ),
      sortable (s.fps_stats.map Prod.snd) = true →
      s.metrics = pre ++ m :: post →
      walk P s.fps_stats (ascending (s.fps_stats.map Prod.snd)) pre = some pre1 →
      m.name ≠ "AVG" → P.stof m.name = StofResult.value (Fl.num false (some p)) →
      0 < p → p < 1 → s.fps_stats.length < 2 ^ 64 →
      0 ≤ ⌊p * (s.fps_stats.length : ℚ)⌋ - 1 →
      ∃ (label : String)
        (h : (⌊p * (s.fps_stats.length : ℚ)⌋ - 1).toNat <
          (ascending (s.fps_stats.map Prod.snd)).length),
        calculate P s =
          (loop P s.fps_stats (ascending (s.fps_stats.map Prod.snd)) post).map
            (fun ms => { s with metrics :=
              pre1 ++ { m with
                display_name := label,
                value := (ascending (s.fps_stats.map Prod.snd))[
                  (⌊p * (s.fps_stats.length : ℚ)⌋ - 1).toNat] } :: ms })) ∧
    percentileIndex ieee (Fl.num false (some (11744051 / 16777216))) 10 = some 6 ∧
    percentileIndex exactArith (Fl.num false (some (11744051 / 16777216))) 10 = some 5 := by
  refine ⟨?_, ?_, calculate_of_not_sortable, live_window_sortable, ?_, by decide!,
    by decide!⟩
  · intro P s pre pre1 post m val label idx hsort hms hpre hname hs h0 h1 hl hi h
    exact calculate_percentile P s pre pre1 post m val label idx hsort hms hpre hname hs h0 h1
      hl hi h
  · intro vs hvs
    exact ⟨sortValues_of_sortable vs hvs, ascending_perm vs, ascending_strict vs hvs,
      ascending_sorted vs⟩
  · intro P hP s pre pre1 post m p hsort hms hpre hname hs hp0 hp1 hN hfloor
    obtain ⟨hr0, hr1⟩ := range_check_of_fraction p hp0 hp1
    obtain ⟨hq, hi⟩ := exact_round_fraction P hP
    obtain ⟨pct, _, _, _, hl⟩ := percentLabel_of_fraction P hq hi p hp0 hp1
    have hidx := exact_percentileIndex P hP p s.fps_stats.length hp1 hN (by omega)
    have hlen : (⌊p * (s.fps_stats.length : ℚ)⌋ - 1).toNat <
        (ascending (s.fps_stats.map Prod.snd)).length := by
      rw [sorted_length]
      have h3 : p * (s.fps_stats.length : ℚ) ≤ (s.fps_stats.length : ℚ) := by
        have : (0 : ℚ) ≤ (s.fps_stats.length : ℚ) := Nat.cast_nonneg _
        nlinarith
      have h4 : ⌊p * (s.fps_stats.length : ℚ)⌋ ≤ (s.fps_stats.length : Int) := by
        have := Int.floor_le (p * (s.fps_stats.length : ℚ))
        have h5 : ((⌊p * (s.fps_stats.length : ℚ)⌋ : Int) : ℚ) ≤
            (((s.fps_stats.length : Nat) : Int) : ℚ) := by
          push_cast
          linarith
        exact_mod_cast h5
      omega
    exact ⟨_, hlen, calculate_percentile P s pre pre1 post m _ _ _ hsort hms hpre hname hs hr0
      hr1 hl hidx hlen⟩

/-- C2 amended, at a concrete engine in exact arithmetic: the identifier `0.5` over four
samples; `floor (0.5 * 4) - 1 = 1` and the metric becomes the second smallest sample. -/
theorem c2_percentile_witness :
    ∃ (label : String)
      (h : (⌊(1 / 2 : ℚ) * ((4 : Nat) : ℚ)⌋ - 1).toNat <
        (ascending [Fl.lit 40, Fl.lit 10, Fl.lit 30, Fl.lit 20]).length),
      calculate exactArith
        { fps_stats := [(1, Fl.lit 40), (2, Fl.lit 10), (3, Fl.lit 30), (4, Fl.lit 20)],
          run := false, thread_init := false, terminate := false, resetting := false,
          metrics := [{ name := "0.5", value := Fl.lit 0, display_name := "" }] } =
        Outcome.returned
          { fps_stats := [(1, Fl.lit 40), (2, Fl.lit 10), (3, Fl.lit 30), (4, Fl.lit 20)],
            run := false, thread_init := false, terminate := false, resetting := false,
            metrics := [{ name := "0.5",
                          value := (ascending [Fl.lit 40, Fl.lit 10, Fl.lit 30, Fl.lit 20])[
                            (⌊(1 / 2 : ℚ) * ((4 : Nat) : ℚ)⌋ - 1).toNat],
                          display_name := label }] } :=
  c2_percentile.2.2.2.2.1 exactArith rfl
    { fps_stats := [(1, Fl.lit 40), (2, Fl.lit 10), (3, Fl.lit 30), (4, Fl.lit 20)],
      run := false, thread_init := false, terminate := false, resetting := false,
      metrics := [{ name := "0.5", value := Fl.lit 0, display_name := "" }] }
    [] [] [] { name := "0.5", value := Fl.lit 0, display_name := "" } (1 / 2) (by decide!) rfl
    rfl (by decide) (by decide!) (by norm_num) (by norm_num) (by decide) (by decide!)


end FpsMetrics
